import Mathlib

/-!
# Frequency analyzer: band mapper, gain control and sample capture

A shallow embedding of the signal path of the `freq_analyzer` board example
(`dsp.c`, `gui.c`, `freq_analyzer.c`).

Conventions of the embedding:

* C arrays are total functions from the index to the stored value; an index
  outside the declared bounds stands for the neighbouring memory cell.
* `unsigned int` values are naturals reduced modulo `2 ^ 32` at every store
  that can leave the range.
* `float` quantities are rationals.  `g_HzPerBin` is kept as the pair of
  `g_uiSamplingFreq` and `NUM_SAMPLES`; its value, the products with it, and
  the quotients and the product of the normalisation are rounded to single
  precision.  The sum and quotient inside `arm_mean_f32` and the product with
  `POWER_DECAY_FACTOR` are exact.
* The table `freqArray` produced by `log10f` and `pow` is an input of the
  mapper: the transcendental functions are outside the embedding.
-/

namespace FreqAnalyzer

/-! ## Constants -/

/-- `MAX_NUMBARS` of `gui.h`. -/
def MAX_NUMBARS : Nat := 300

/-- `NUMBARS_SLIDER` of `gui.h`. -/
def NUMBARS_SLIDER : Nat := 3

/-- `NUM_SAMPLES` of `dsp.h`. -/
def NUM_SAMPLES : Nat := 2048

/-- `UDMA_XFER_MAX` of `freq_analyzer.c`. -/
def UDMA_XFER_MAX : Nat := 1024

/-- `DMA_SIZE` of `freq_analyzer.c`. -/
def DMA_SIZE : Nat := 256

/-- `DMA_METHOD_SLOW` of `freq_analyzer.h`. -/
def DMA_METHOD_SLOW : Nat := 0

/-- `DMA_METHOD_FAST` of `freq_analyzer.h`. -/
def DMA_METHOD_FAST : Nat := 1

/-- Number of values of a 32-bit `unsigned int`. -/
def U32 : Nat := 4294967296

/-- Conversion of a C `int` to the `unsigned int` cell it is stored in. -/
def toU32 (z : Int) : Nat := (z % (U32 : Int)).toNat

/-- Array store `a[i] = v`. -/
def store {α : Type} (a : Nat → α) (i : Nat) (v : α) : Nat → α :=
  fun k => if k = i then v else a k

/-- Array store at a signed index, for an array the code also addresses one
cell below its first element. -/
def storeZ {α : Type} (a : Int → α) (i : Int) (v : α) : Int → α :=
  fun k => if k = i then v else a k

/-- Conversion of a C `int` to the `unsigned char` cell it is stored in. -/
def toU8 (z : Int) : Nat := (z % 256).toNat

/-- The C conversion `(int)x` of a real value: truncation toward zero. -/
def truncToInt (q : ℚ) : Int := if 0 ≤ q then ⌊q⌋ else ⌈q⌉

/-! ## Single-precision arithmetic

A non-negative `float` value is kept as a fraction of two naturals, numerator
first.  Every operation rounds its exact result to the nearest value with a
24-bit significand, ties to even, as the FPU does.  The exponent range is not
bounded: overflow and subnormal values do not arise for the magnitudes of this
program. -/

/-- The number of binary digits of `n`, by repeated halving; `fuel` bounds the
number of halvings. -/
def bitLen : Nat → Nat → Nat
  | 0, _ => 0
  | fuel + 1, n => if n = 0 then 0 else bitLen fuel (n / 2) + 1

/-- The exponent `E` with `2 ^ E <= n / d < 2 ^ (E + 1)`, for positive `n` and
`d`. -/
def binade (n d : Nat) : Int :=
  if d ≤ n then (bitLen (n / d) (n / d) : Int) - 1
  else -(bitLen ((d - 1) / n) ((d - 1) / n) : Int)

/-- The integer nearest to `sn / sd`, ties to even. -/
def roundEven (sn sd : Nat) : Nat :=
  if 2 * (sn % sd) < sd then sn / sd
  else if sd < 2 * (sn % sd) then sn / sd + 1
  else if (sn / sd) % 2 = 0 then sn / sd
  else sn / sd + 1

/-- The `float` nearest to `n / d`: the quotient is scaled by the unit in the
last place `2 ^ (E - 23)`, rounded to an integer and scaled back. -/
def roundF32 (n d : Nat) : Nat × Nat :=
  (roundEven (n * 2 ^ (-(binade n d - 23)).toNat) (d * 2 ^ (binade n d - 23).toNat) *
      2 ^ (binade n d - 23).toNat,
    2 ^ (-(binade n d - 23)).toNat)

/-- The `float` product of two `float` values. -/
def f32Mul (a b : Nat × Nat) : Nat × Nat := roundF32 (a.1 * b.1) (a.2 * b.2)

/-- The `float` quotient of two `float` values. -/
def f32Div (a b : Nat × Nat) : Nat × Nat := roundF32 (a.1 * b.2) (a.2 * b.1)

/-- The rational number a fraction stands for. -/
def fracVal (p : Nat × Nat) : ℚ := (p.1 : ℚ) / (p.2 : ℚ)

/-- The `float` nearest to a rational number. -/
def roundQ (q : ℚ) : ℚ :=
  if q < 0 then -fracVal (roundF32 q.num.natAbs q.den)
  else fracVal (roundF32 q.num.natAbs q.den)

/-! ## Global state -/

/-- The memory regions a uDMA transfer can be aimed at. -/
inductive DmaBuf where
  | adcValues
  | ping
  | pong
  deriving DecidableEq, Repr

/-- The file-scope variables of `gui.c`, `dsp.c` and `freq_analyzer.c`, the
function-scope statics of `ProcessData` and `ADC3IntHandler`, and the part of
the uDMA channel, ADC interrupt and sampling timer the code reads back. -/
structure State where
  /-- `g_uiNumDisplayBars`. -/
  g_uiNumDisplayBars : Nat
  /-- `g_uiMinDisplayFreq`. -/
  g_uiMinDisplayFreq : Nat
  /-- `g_uiMaxDisplayFreq`. -/
  g_uiMaxDisplayFreq : Nat
  /-- `g_uiSamplingFreq`. -/
  g_uiSamplingFreq : Nat
  /-- `g_plSliderVal`. -/
  g_plSliderVal : Nat → Int
  /-- `g_ucDispRefresh`. -/
  g_ucDispRefresh : Nat
  /-- `LEDDisplay`; `none` is the result of converting an undefined quotient. -/
  LEDDisplay : Nat → Option Nat
  /-- `LEDFreqBreakpoints`, an `unsigned int` array. -/
  LEDFreqBreakpoints : Nat → Nat
  /-- `LEDDisplayMaxes`. -/
  LEDDisplayMaxes : Nat → Nat
  /-- `maxLEDPowers`; index `-1` is the cell below the array. -/
  maxLEDPowers : Int → ℚ
  /-- Numerator of `g_HzPerBin`. -/
  hzNum : Nat
  /-- Denominator of `g_HzPerBin`. -/
  hzDen : Nat
  /-- The static `LEDPower` of `ProcessData`; `none` is a value that is not a
  number. -/
  LEDPower : Nat → Option ℚ
  /-- `g_ucDMAMethod`. -/
  g_ucDMAMethod : Nat
  /-- `g_ulADCValues`, the sample window. -/
  g_ulADCValues : Nat → Nat
  /-- `g_usDMAping`. -/
  g_usDMAping : Nat → Nat
  /-- `g_usDMApong`. -/
  g_usDMApong : Nat → Nat
  /-- `g_ucDMApingpong`. -/
  g_ucDMApingpong : Nat
  /-- `g_ucDataReady`. -/
  g_ucDataReady : Nat
  /-- `g_ulBadPeriphIsr1`. -/
  g_ulBadPeriphIsr1 : Nat
  /-- `g_ulBadPeriphIsr2`. -/
  g_ulBadPeriphIsr2 : Nat
  /-- The static `uluDMACount` of `ADC3IntHandler`. -/
  uluDMACount : Nat
  /-- The static `ulDataXferd` of `ADC3IntHandler`. -/
  ulDataXferd : Nat
  /-- What `uDMAChannelIsEnabled(UDMA_CHANNEL_ADC3)` returns. -/
  dmaEnabled : Bool
  /-- What `uDMAChannelSizeGet(UDMA_CHANNEL_ADC3)` returns. -/
  dmaRemaining : Nat
  /-- Destination buffer of the transfer last set on the channel. -/
  dmaDst : DmaBuf
  /-- Element offset of that transfer inside its destination buffer. -/
  dmaOffset : Nat
  /-- Element count of that transfer. -/
  dmaLength : Nat
  /-- Whether the ADC sequencer interrupt is enabled. -/
  adcIntEnabled : Bool
  /-- Whether the sampling timer runs. -/
  samplingTimerOn : Bool

/-- `uDMAChannelTransferSet` followed by `uDMAChannelEnable` on the ADC
channel. -/
def armTransfer (dst : DmaBuf) (offset length : Nat) (s : State) : State :=
  { s with dmaDst := dst, dmaOffset := offset, dmaLength := length,
           dmaRemaining := length, dmaEnabled := true }

/-! ## Logarithmic band mapper (`dsp.c`, `setFreqBreakpoints`) -/

/-- The value of `g_HzPerBin`: the `float` quotient
`(float)g_uiSamplingFreq / (float)NUM_SAMPLES`. -/
def hzPerBin (hzNum hzDen : Nat) : Nat × Nat := f32Div (roundF32 hzNum 1) (roundF32 hzDen 1)

/-- The value `(int)(g_HzPerBin * i)`: the `float` product with `(float)i`,
truncated. -/
def binEdge (hzNum hzDen i : Nat) : Int :=
  (((f32Mul (hzPerBin hzNum hzDen) (roundF32 i 1)).1 /
    (f32Mul (hzPerBin hzNum hzDen) (roundF32 i 1)).2 : Nat) : Int)

/-- The local `binCenter` of the scan at bin `i`. -/
def binCenter (hzNum hzDen i : Nat) : Int :=
  (binEdge hzNum hzDen i + binEdge hzNum hzDen (i + 1)) / 2

/-- The local `binCenterNext` of the scan at bin `i`. -/
def binCenterNext (hzNum hzDen i : Nat) : Int :=
  (binEdge hzNum hzDen (i + 1) + binEdge hzNum hzDen (i + 2)) / 2

/-- The inner loop `for(i=0; i<NUM_SAMPLES/2; i++)` of the bin search, entered
at bin `i` with `fuel` iterations left.  The result is the `int` assigned to
`LEDFreqBreakpoints[j]` just before `break`, or `none` when the loop runs to
its end without an assignment. -/
def scanBins (hzNum hzDen : Nat) (targetFreq : Int) : Nat → Nat → Option Int
  | 0, _ => none
  | fuel + 1, i =>
    if binCenter hzNum hzDen i > targetFreq then
      if binCenter hzNum hzDen i - targetFreq < targetFreq - binCenterNext hzNum hzDen i then
        some (i : Int)
      else
        some ((i : Int) - 1)
    else
      scanBins hzNum hzDen targetFreq fuel (i + 1)

/-- The outer loop `for(j=0; j<numLEDs+1; j++)` of the bin search, entered at
target `j` with `fuel` iterations left; `halfBins` is `NUM_SAMPLES/2`. -/
def scanTargets (hzNum hzDen halfBins : Nat) (freqArray : Nat → Int) :
    Nat → Nat → (Nat → Nat) → (Nat → Nat)
  | 0, _, bp => bp
  | fuel + 1, j, bp =>
    scanTargets hzNum hzDen halfBins freqArray fuel (j + 1)
      (match scanBins hzNum hzDen (freqArray j) halfBins 0 with
       | some v => store bp j (toU32 v)
       | none => bp)

/-- `GUIUpdateSlider` of `gui.c`: the store into `g_plSliderVal`. -/
def GUIUpdateSlider (iSliderNum : Nat) (iSliderVal : Int) (s : State) : State :=
  { s with g_plSliderVal := store s.g_plSliderVal iSliderNum iSliderVal }

/-- The breakpoint array after the monotonicity test of the repair walk at
index `i`. -/
def repairAt (bp : Nat → Nat) (i : Nat) : Nat → Nat :=
  if bp i ≤ bp (i - 1) then store bp i ((bp (i - 1) + 1) % U32) else bp

/-- The test `(g_HzPerBin*LEDFreqBreakpoints[i]) > g_uiMaxDisplayFreq`: the
`float` product with the breakpoint converted to `float`, compared with the
maximum display frequency converted to `float`. -/
def overMax (s : State) (b : Nat) : Bool :=
  decide ((roundF32 s.g_uiMaxDisplayFreq 1).1 *
      (f32Mul (hzPerBin s.hzNum s.hzDen) (roundF32 b 1)).2 <
    (f32Mul (hzPerBin s.hzNum s.hzDen) (roundF32 b 1)).1 *
      (roundF32 s.g_uiMaxDisplayFreq 1).2)

/-- The repair walk `for(i=1; i<numLEDs+1; i++)`, entered at index `i` with
`fuel` iterations left. -/
def repairWalk : Nat → Nat → State → State
  | 0, _, s => s
  | fuel + 1, i, s =>
    let bp := repairAt s.LEDFreqBreakpoints i
    if overMax s (bp i) then
      GUIUpdateSlider NUMBARS_SLIDER (i : Int)
        { s with LEDFreqBreakpoints := bp, g_uiNumDisplayBars := i }
    else
      repairWalk fuel (i + 1) { s with LEDFreqBreakpoints := bp }

/-- `setFreqBreakpoints` of `dsp.c`, with the window size `numSamples` and the
table `freqArray` of target frequencies as inputs. -/
def setFreqBreakpoints (numSamples : Nat) (freqArray : Nat → Int) (s : State) :
    State :=
  let bp := scanTargets s.hzNum s.hzDen (numSamples / 2) freqArray
    (s.g_uiNumDisplayBars + 1) 0 s.LEDFreqBreakpoints
  repairWalk s.g_uiNumDisplayBars 1 { s with LEDFreqBreakpoints := bp }


/-- The loop of `InitDSP` that zeroes the power history, entered at index `i`
with `fuel` iterations left. -/
def zeroHistory : Nat → Nat → State → State
  | 0, _, s => s
  | fuel + 1, i, s =>
    zeroHistory fuel (i + 1)
      { s with maxLEDPowers := storeZ s.maxLEDPowers (i : Int) 0,
               LEDFreqBreakpoints := store s.LEDFreqBreakpoints i 0,
               LEDDisplayMaxes := store s.LEDDisplayMaxes i 0 }

/-- `InitDSP` of `dsp.c`; the FFT plan set up by `arm_rfft_init_f32` is not
part of the state. -/
def InitDSP (freqArray : Nat → Int) (s : State) : State :=
  let s1 := zeroHistory s.g_uiNumDisplayBars 0 s
  let s2 := { s1 with hzNum := s1.g_uiSamplingFreq, hzDen := NUM_SAMPLES }
  let s3 := setFreqBreakpoints NUM_SAMPLES freqArray s2
  if s3.g_uiSamplingFreq / NUM_SAMPLES > 16 then
    { s3 with g_ucDMAMethod := DMA_METHOD_FAST }
  else
    { s3 with g_ucDMAMethod := DMA_METHOD_SLOW }

/-! ## Automatic gain control (`dsp.c`, `ProcessData`; `gui.c`, `Timer3AIntHandler`) -/

/-- `POWER_DECAY_FACTOR` of `dsp.h`. -/
def POWER_DECAY_FACTOR : ℚ := 999 / 1000

/-- The quotient `a / b` of two `float` values; `none` when the divisor is
zero and the quotient is not a number of the embedding. -/
def fdiv (a b : ℚ) : Option ℚ := if b = 0 then none else some (a / b)

/-- CMSIS `arm_mean_f32(pSrc + start, blockSize, &result)`: the sum of
`blockSize` consecutive values divided by `blockSize`. -/
def arm_mean_f32 (pSrc : Nat → ℚ) (start blockSize : Nat) : Option ℚ :=
  fdiv ((List.range blockSize).map (fun t => pSrc (start + t))).sum (blockSize : ℚ)

/-- The `float` quotient `LEDPower[i-1] / maxLEDPowers[i-1]` of the
normalisation. -/
def intensity (ledPower : Option ℚ) (maxPower : ℚ) : Option ℚ :=
  ledPower.bind (fun p => (fdiv p maxPower).map roundQ)

/-- The value stored in `LEDDisplay[i-1]`: `(int)(power * 185)` converted to
`unsigned char`, where `power` is the `float` quotient of band power and
running maximum and the product is a `float` product. -/
def barHeight (ledPower : Option ℚ) (maxPower : ℚ) : Option Nat :=
  (intensity ledPower maxPower).map (fun q => toU8 (truncToInt (roundQ (q * 185))))

/-- The block size `LEDFreqBreakpoints[i]-j + 1` handed to `arm_mean_f32`,
in `unsigned` arithmetic. -/
def blockSize (bpi j : Nat) : Nat := (bpi + U32 - j + 1) % U32

/-- The body of the band loop of `ProcessData` at index `i` with lowest bin
`j`: band power, running maximum, `LEDPower[i-1]` and `LEDDisplay[i-1]`;
`spectrum` is `g_fFFTResult` after `arm_cmplx_mag_f32`. -/
def bandStep (spectrum : Nat → ℚ) (i j : Nat) (s : State) : State :=
  let power := arm_mean_f32 spectrum j (blockSize (s.LEDFreqBreakpoints i) j)
  let maxP :=
    match power with
    | some p =>
      if s.maxLEDPowers ((i : Int) - 1) < p then storeZ s.maxLEDPowers ((i : Int) - 1) p
      else s.maxLEDPowers
    | none => s.maxLEDPowers
  let ledPower := store s.LEDPower (i - 1) power
  { s with maxLEDPowers := maxP,
           LEDPower := ledPower,
           LEDDisplay := store s.LEDDisplay (i - 1)
             (barHeight (ledPower (i - 1)) (maxP ((i : Int) - 1))) }

/-- The band loop `for(i=1; i<g_uiNumDisplayBars + 1; i++)` of `ProcessData`,
entered at index `i` with lowest bin `j` and `fuel` iterations left. -/
def bandLoop (spectrum : Nat → ℚ) : Nat → Nat → Nat → State → State
  | 0, _, _, s => s
  | fuel + 1, i, j, s =>
    bandLoop spectrum fuel (i + 1) ((s.LEDFreqBreakpoints i + 1) % U32)
      (bandStep spectrum i j s)

/-- `ProcessData` of `dsp.c`.  The window, FFT and magnitude steps are
replaced by their result `spectrum`; the debug print has no effect on the
state. -/
def ProcessData (spectrum : Nat → ℚ) (s : State) : State :=
  let s1 := if s.g_ucDMAMethod = DMA_METHOD_SLOW then { s with g_ucDataReady := 0 } else s
  let s2 := bandLoop spectrum s1.g_uiNumDisplayBars 1 (s1.LEDFreqBreakpoints 0) s1
  if s2.g_ucDMAMethod = DMA_METHOD_FAST then
    let s3 := { s2 with g_ucDataReady := 0 }
    let s4 :=
      if NUM_SAMPLES > UDMA_XFER_MAX then armTransfer DmaBuf.adcValues 0 UDMA_XFER_MAX s3
      else armTransfer DmaBuf.adcValues 0 NUM_SAMPLES s3
    { s4 with samplingTimerOn := true }
  else s2

/-- The loop `for(i=0; i<g_uiNumDisplayBars; i++)` of `Timer3AIntHandler`,
entered at index `i` with `fuel` iterations left. -/
def decayLoop : Nat → Nat → (Int → ℚ) → (Int → ℚ)
  | 0, _, m => m
  | fuel + 1, i, m =>
    decayLoop fuel (i + 1)
      (storeZ m ((i : Int) - 1) (m ((i : Int) - 1) * POWER_DECAY_FACTOR))

/-- `Timer3AIntHandler` of `gui.c`, the display refresh tick. -/
def Timer3AIntHandler (s : State) : State :=
  { s with g_ucDispRefresh := 1,
           maxLEDPowers := decayLoop s.g_uiNumDisplayBars 0 s.maxLEDPowers }

/-- The lowest bin `j` the band loop uses for band `k` (counted from 0). -/
def lowBin (bp : Nat → Nat) (k : Nat) : Nat :=
  if k = 0 then bp 0 else (bp k + 1) % U32

/-- The power the band loop computes for band `k` (counted from 0). -/
def bandPower (spectrum : Nat → ℚ) (bp : Nat → Nat) (k : Nat) : Option ℚ :=
  arm_mean_f32 spectrum (lowBin bp k) (blockSize (bp (k + 1)) (lowBin bp k))

/-- The running maximum of a band after the comparison with its power. -/
def runningMax (old : ℚ) (power : Option ℚ) : ℚ :=
  match power with
  | some p => if old < p then p else old
  | none => old

/-- Breakpoints `bp[0..K]` that are strictly increasing and index the
spectrum `g_fFFTResult` of `2 * NUM_SAMPLES` values, so that every band owns
at least one bin. -/
def StrictBreakpoints (bp : Nat → Nat) (K : Nat) : Prop :=
  (∀ k, k < K → bp k < bp (k + 1)) ∧ bp K < 2 * NUM_SAMPLES

/-- The state after the first `n` pipeline cycles on the spectra
`spectra 0`, `spectra 1`, ..., with no tick in between. -/
def cycles (spectra : Nat → Nat → ℚ) : Nat → State → State
  | 0, s => s
  | n + 1, s => ProcessData (spectra n) (cycles spectra n s)

/-- `T` consecutive display refresh ticks. -/
def decayTicks : Nat → State → State
  | 0, s => s
  | T + 1, s => decayTicks T (Timer3AIntHandler s)

/-! ## Sample capture (`freq_analyzer.c`) -/

/-- The loop of `InitADC3Transfer` that clears the sample window. -/
def clearLoop : Nat → Nat → (Nat → Nat) → (Nat → Nat)
  | 0, _, v => v
  | fuel + 1, i, v => clearLoop fuel (i + 1) (store v i 0)

/-- `InitADC3Transfer` of `freq_analyzer.c`. -/
def InitADC3Transfer (s : State) : State :=
  let s1 := { s with g_ucDataReady := 0,
                     g_ulADCValues := clearLoop NUM_SAMPLES 0 s.g_ulADCValues,
                     adcIntEnabled := true }
  if s1.g_ucDMAMethod = DMA_METHOD_SLOW then
    armTransfer DmaBuf.ping 0 DMA_SIZE { s1 with g_ucDMApingpong := 0 }
  else if NUM_SAMPLES > UDMA_XFER_MAX then
    armTransfer DmaBuf.adcValues 0 UDMA_XFER_MAX s1
  else
    armTransfer DmaBuf.adcValues 0 NUM_SAMPLES s1

/-- The loop that shifts the window back by `DMA_SIZE` samples, entered at
index `i` with `fuel` iterations left. -/
def shiftLoop : Nat → Nat → (Nat → Nat) → (Nat → Nat)
  | 0, _, v => v
  | fuel + 1, i, v => shiftLoop fuel (i + 1) (store v i (v (i + DMA_SIZE)))

/-- The loop that copies the new samples to the tail of the window, entered
at index `i` with `fuel` iterations left. -/
def copyLoop (pusCopyBuffer : Nat → Nat) : Nat → Nat → (Nat → Nat) → (Nat → Nat)
  | 0, _, v => v
  | fuel + 1, i, v =>
    copyLoop pusCopyBuffer fuel (i + 1) (store v (i + NUM_SAMPLES - DMA_SIZE) (pusCopyBuffer i))

/-- `ADC3IntHandler` of `freq_analyzer.c`. -/
def ADC3IntHandler (s : State) : State :=
  if s.dmaEnabled then
    { s with g_ulBadPeriphIsr2 := (s.g_ulBadPeriphIsr2 + 1) % U32, adcIntEnabled := false }
  else if s.dmaRemaining ≠ 0 then
    { s with g_ulBadPeriphIsr1 := (s.g_ulBadPeriphIsr1 + 1) % U32 }
  else if s.g_ucDMAMethod = DMA_METHOD_SLOW then
    let pusDMABuffer := if s.g_ucDMApingpong = 0 then DmaBuf.pong else DmaBuf.ping
    let pusCopyBuffer := if s.g_ucDMApingpong = 0 then s.g_usDMAping else s.g_usDMApong
    let s1 := { s with g_ucDMApingpong := if s.g_ucDMApingpong = 0 then 1 else 0 }
    let s2 := armTransfer pusDMABuffer 0 DMA_SIZE s1
    let shifted := shiftLoop (NUM_SAMPLES - DMA_SIZE) 0 s2.g_ulADCValues
    { s2 with g_ulADCValues := copyLoop pusCopyBuffer DMA_SIZE 0 shifted,
              g_ucDataReady := 1 }
  else
    let count := (s.uluDMACount + 1) % U32
    let xferd := (s.ulDataXferd + UDMA_XFER_MAX) % U32
    let s1 := { s with samplingTimerOn := false, uluDMACount := count, ulDataXferd := xferd }
    if NUM_SAMPLES > xferd then
      let ulNextuDMAXferSize :=
        if NUM_SAMPLES - xferd > UDMA_XFER_MAX then UDMA_XFER_MAX else NUM_SAMPLES - xferd
      let s2 := armTransfer DmaBuf.adcValues (UDMA_XFER_MAX * count) ulNextuDMAXferSize s1
      { s2 with samplingTimerOn := true }
    else
      { s1 with uluDMACount := 0, ulDataXferd := 0, adcIntEnabled := false,
                g_ucDataReady := 1 }

/-- The cells of `a` after a transfer of `length` samples of `block` to
element offset `offset`. -/
def dmaWrite (offset length : Nat) (block a : Nat → Nat) : Nat → Nat :=
  fun k => if offset ≤ k ∧ k < offset + length then block (k - offset) else a k

/-- The uDMA engine completing the transfer set on the channel with the
samples `block`: the destination is filled, the channel is disabled and its
remaining count is zero. -/
def dmaComplete (block : Nat → Nat) (s : State) : State :=
  let s1 := { s with dmaEnabled := false, dmaRemaining := 0 }
  match s.dmaDst with
  | DmaBuf.adcValues =>
    { s1 with g_ulADCValues := dmaWrite s.dmaOffset s.dmaLength block s.g_ulADCValues }
  | DmaBuf.ping =>
    { s1 with g_usDMAping := dmaWrite s.dmaOffset s.dmaLength block s.g_usDMAping }
  | DmaBuf.pong =>
    { s1 with g_usDMApong := dmaWrite s.dmaOffset s.dmaLength block s.g_usDMApong }

/-- A successful delivery: the armed transfer completes with `block` and the
ADC sequencer interrupt runs the handler. -/
def deliver (s : State) (block : Nat → Nat) : State :=
  ADC3IntHandler (dmaComplete block s)

/-- The state after the first `m` successful deliveries of the blocks
`blocks 0`, `blocks 1`, ... -/
def deliveries (blocks : Nat → Nat → Nat) : Nat → State → State
  | 0, s => s
  | m + 1, s => deliver (deliveries blocks m s) (blocks m)

/-- The number of transfers of at most `UDMA_XFER_MAX` samples that fill the
window: `NUM_SAMPLES / UDMA_XFER_MAX` rounded up. -/
def transfersPerWindow : Nat := (NUM_SAMPLES + UDMA_XFER_MAX - 1) / UDMA_XFER_MAX

/-- The state of a streaming capture between two deliveries: slow method, and
a transfer of `DMA_SIZE` samples armed on ping when `g_ucDMApingpong` is 0 and
on pong otherwise. -/
def Streaming (s : State) : Prop :=
  s.g_ucDMAMethod = DMA_METHOD_SLOW ∧ s.dmaOffset = 0 ∧ s.dmaLength = DMA_SIZE ∧
  s.dmaDst = (if s.g_ucDMApingpong = 0 then DmaBuf.ping else DmaBuf.pong)

/-! ## Concrete states -/

/-- The zero-initialised globals at reset. -/
def powerOn : State :=
  { g_uiNumDisplayBars := 0, g_uiMinDisplayFreq := 0, g_uiMaxDisplayFreq := 0,
    g_uiSamplingFreq := 0, g_plSliderVal := (fun _ => 0), g_ucDispRefresh := 0,
    LEDDisplay := (fun _ => some 0), LEDFreqBreakpoints := (fun _ => 0),
    LEDDisplayMaxes := (fun _ => 0), maxLEDPowers := (fun _ => 0), hzNum := 0, hzDen := 1,
    LEDPower := (fun _ => some 0), g_ucDMAMethod := 0, g_ulADCValues := (fun _ => 0),
    g_usDMAping := (fun _ => 0), g_usDMApong := (fun _ => 0), g_ucDMApingpong := 0,
    g_ucDataReady := 0, g_ulBadPeriphIsr1 := 0, g_ulBadPeriphIsr2 := 0, uluDMACount := 0,
    ulDataXferd := 0, dmaEnabled := false, dmaRemaining := 0, dmaDst := DmaBuf.adcValues,
    dmaOffset := 0, dmaLength := 0, adcIntEnabled := false, samplingTimerOn := false }

/-- A state with two bands over the bins 1..3 and 4..7. -/
def twoBandState : State :=
  { powerOn with g_uiNumDisplayBars := 2,
                 LEDFreqBreakpoints := (fun k => if k = 0 then 1 else if k = 1 then 3 else 7) }

/-- A state with eight bands whose running maxima are all 1. -/
def unitMaxState : State :=
  { powerOn with g_uiNumDisplayBars := 8, maxLEDPowers := (fun _ => 1) }

/-- The spectrum with magnitude 1 in every bin. -/
def flatSpectrum : Nat → ℚ := fun _ => 1

/-- Flat spectra of magnitude 1, 2, 3, ... in successive cycles. -/
def rampSpectra : Nat → Nat → ℚ := fun n _ => (n : ℚ) + 1

/-- The spectrum with magnitude 0 in every bin. -/
def zeroSpectrum : Nat → ℚ := fun _ => 0

/-- Blocks whose samples are numbered in arrival order: sample `k` of block
`m` is `DMA_SIZE * m + k`. -/
def countingBlocks : Nat → Nat → Nat := fun m k => DMA_SIZE * m + k

/-- The configuration a user sets on the sliders, as `UpdateGConfigs` copies
it into the globals. -/
def configured (minFreq maxFreq bars fs : Nat) (s : State) : State :=
  { s with g_uiMinDisplayFreq := minFreq, g_uiMaxDisplayFreq := maxFreq,
           g_uiSamplingFreq := fs, g_uiNumDisplayBars := bars }

/-- The value of `LEDFreqBreakpoints[k]` after the bin search, for a target
index `k` the outer loop visits: the stored bin, or the previous content when
the inner loop assigns nothing. -/
def scanValue (hzNum hzDen halfBins : Nat) (freqArray : Nat → Int) (prior : Nat → Nat)
    (k : Nat) : Nat :=
  match scanBins hzNum hzDen (freqArray k) halfBins 0 with
  | some v => toU32 v
  | none => prior k

/-- A state whose `g_HzPerBin` is `fs / numSamples`, as `InitDSP` sets it. -/
def withHzPerBin (fs numSamples : Nat) (s : State) : State :=
  { s with hzNum := fs, hzDen := numSamples }

/-- The table `freqArray` for 1 Hz to 13000 Hz over 75 bars. -/
def freqArrayLow : Nat → Int := fun j =>
  ([1, 1, 1, 1, 1, 1, 2, 2, 2, 3, 3, 4, 4, 5, 5, 6, 7, 8, 9, 11, 12, 14, 16, 18, 20, 23, 26,
    30, 34, 38, 44, 50, 56, 64, 73, 83, 94, 107, 121, 137, 156, 177, 201, 228, 259, 294, 333,
    378, 429, 487, 552, 627, 711, 807, 916, 1039, 1179, 1338, 1518, 1723, 1955, 2218, 2516,
    2855, 3240, 3676, 4171, 4732, 5369, 6092, 6913, 7843, 8899, 10098, 11457, 12999] :
    List Int).getD j 0

/-- The table `freqArray` for 40 Hz to 2000 Hz over 20 bars. -/
def freqArray20 : Nat → Int := fun j =>
  ([39, 48, 59, 71, 87, 106, 129, 157, 191, 232, 282, 343, 418, 508, 618, 752, 914, 1112,
    1352, 1644, 2000] : List Int).getD j 0

/-- The table `freqArray` for 40 Hz to 13000 Hz over 8 bars. -/
def freqArray8 : Nat → Int := fun j =>
  ([39, 82, 169, 349, 721, 1485, 3061, 6308, 12999] : List Int).getD j 0

/-- Sliders at 1 Hz to 13000 Hz, 75 bars, 26000 Hz sampling. -/
def lowMinState : State := withHzPerBin 26000 NUM_SAMPLES (configured 1 13000 75 26000 powerOn)

/-- Window of 8 samples at 16000 Hz, 40 Hz to 2000 Hz, 20 bars requested. -/
def coarseState : State := withHzPerBin 16000 8 (configured 40 2000 20 16000 powerOn)

/-- Sliders at 40 Hz to 13000 Hz, 8 bars, 26000 Hz sampling, from reset. -/
def eightBarState : State := configured 40 13000 8 26000 powerOn

/-- The same sliders, with `LEDFreqBreakpoints[8]` holding the value an
earlier configuration left there. -/
def eightBarStaleState : State :=
  { eightBarState with
      LEDFreqBreakpoints := store eightBarState.LEDFreqBreakpoints 8 4294967295 }

/-! ## Sliders and push buttons (`gui.c`) -/

/-- `FMAX_DISP_SLIDER` of `gui.h`. -/
def FMAX_DISP_SLIDER : Nat := 0

/-- `FMIN_DISP_SLIDER` of `gui.h`. -/
def FMIN_DISP_SLIDER : Nat := 1

/-- `FSAMP_SLIDER` of `gui.h`. -/
def FSAMP_SLIDER : Nat := 2

/-- `INIT_SAMPLING_FREQ` of `gui.c`. -/
def INIT_SAMPLING_FREQ : Nat := 26000

/-- `MAX_SAMPLING_FREQ` of `gui.c`. -/
def MAX_SAMPLING_FREQ : Nat := 80000

/-- `MIN_SAMPLING_FREQ` of `gui.c`. -/
def MIN_SAMPLING_FREQ : Nat := 4000

/-- `INTERVAL_SAMPLING_FREQ` of `gui.c`. -/
def INTERVAL_SAMPLING_FREQ : Int := 1000

/-- `INIT_NUMBARS` of `gui.c`. -/
def INIT_NUMBARS : Nat := 75

/-- `MIN_NUMBARS` of `gui.c`. -/
def MIN_NUMBARS : Nat := 8

/-- `INTERVAL_NUMBARS` of `gui.c`. -/
def INTERVAL_NUMBARS : Int := 1

/-- `INIT_DISPLAY_L_FREQ` of `gui.c`. -/
def INIT_DISPLAY_L_FREQ : Nat := 40

/-- `MIN_DISPLAY_L_FREQ` of `gui.c`. -/
def MIN_DISPLAY_L_FREQ : Nat := 1

/-- `MAX_DISPLAY_L_FREQ` of `gui.c`. -/
def MAX_DISPLAY_L_FREQ : Nat := 5000

/-- `INTERVAL_DISPLAY_L_FREQ` of `gui.c`. -/
def INTERVAL_DISPLAY_L_FREQ : Int := 10

/-- `INIT_DISPLAY_U_FREQ` of `gui.c`, the text `INIT_SAMPLING_FREQ/2`. -/
def INIT_DISPLAY_U_FREQ : Nat := INIT_SAMPLING_FREQ / 2

/-- `MIN_DISPLAY_U_FREQ` of `gui.c`. -/
def MIN_DISPLAY_U_FREQ : Nat := 1000

/-- `MAX_DISPLAY_U_FREQ` of `gui.c`, the text `INIT_SAMPLING_FREQ/2`. -/
def MAX_DISPLAY_U_FREQ : Nat := INIT_SAMPLING_FREQ / 2

/-- `INTERVAL_DISPLAY_U_FREQ` of `gui.c`. -/
def INTERVAL_DISPLAY_U_FREQ : Int := 500

/-- Conversion of an `unsigned int` to `int` or `long` (32 bits, two's
complement). -/
def toI32 (n : Nat) : Int :=
  if n % U32 < 2147483648 then ((n % U32 : Nat) : Int) else ((n % U32 : Nat) : Int) - (U32 : Int)

/-- `uiIncrementValue` of `gui.c`.  The sums are taken in `unsigned int`, the
remainder `(int)uiVal % iIncAmount` is the C remainder, with the sign of the
dividend. -/
def uiIncrementValue (uiVal : Nat) (iIncAmount : Int) (uiMax uiMin : Nat) : Nat :=
  if toU32 ((uiVal : Int) + iIncAmount) > uiMax then uiMax
  else if toU32 ((uiVal : Int) + iIncAmount) < uiMin then uiMin
  else toU32 ((uiVal : Int) + iIncAmount - Int.tmod (toI32 uiVal) iIncAmount)

/-- The assignment `g_plSliderVal[slider] = v`. -/
def setSlider (slider : Nat) (v : Int) (s : State) : State :=
  { s with g_plSliderVal := store s.g_plSliderVal slider v }

/-- First group of `OnButtonPress`: `-` and `+` of the maximum display
frequency.  `button` is the index of the pressed widget in `g_psPushButtons`. -/
def pressMaxFreq (button : Nat) (s : State) : State :=
  if button = 2 * FMAX_DISP_SLIDER then
    if uiIncrementValue (toU32 (s.g_plSliderVal FMAX_DISP_SLIDER)) (-INTERVAL_DISPLAY_U_FREQ)
        MAX_DISPLAY_U_FREQ MIN_DISPLAY_U_FREQ ≤ toU32 (s.g_plSliderVal FMIN_DISP_SLIDER) then
      setSlider FMAX_DISP_SLIDER (s.g_plSliderVal FMIN_DISP_SLIDER + 1) s
    else
      setSlider FMAX_DISP_SLIDER
        (toI32 (uiIncrementValue (toU32 (s.g_plSliderVal FMAX_DISP_SLIDER))
          (-INTERVAL_DISPLAY_U_FREQ) MAX_DISPLAY_U_FREQ MIN_DISPLAY_U_FREQ)) s
  else if button = 2 * FMAX_DISP_SLIDER + 1 then
    setSlider FMAX_DISP_SLIDER
      (toI32 (uiIncrementValue (toU32 (s.g_plSliderVal FMAX_DISP_SLIDER))
        INTERVAL_DISPLAY_U_FREQ MAX_DISPLAY_U_FREQ MIN_DISPLAY_U_FREQ)) s
  else s

/-- Second group of `OnButtonPress`: `-` and `+` of the minimum display
frequency. -/
def pressMinFreq (button : Nat) (s : State) : State :=
  if button = 2 * FMIN_DISP_SLIDER then
    setSlider FMIN_DISP_SLIDER
      (toI32 (uiIncrementValue (toU32 (s.g_plSliderVal FMIN_DISP_SLIDER))
        (-INTERVAL_DISPLAY_L_FREQ) MAX_DISPLAY_L_FREQ MIN_DISPLAY_L_FREQ)) s
  else if button = 2 * FMIN_DISP_SLIDER + 1 then
    if uiIncrementValue (toU32 (s.g_plSliderVal FMIN_DISP_SLIDER)) INTERVAL_DISPLAY_L_FREQ
        MAX_DISPLAY_L_FREQ MIN_DISPLAY_L_FREQ ≥ toU32 (s.g_plSliderVal FMAX_DISP_SLIDER) then
      setSlider FMIN_DISP_SLIDER (s.g_plSliderVal FMAX_DISP_SLIDER - 1) s
    else
      setSlider FMIN_DISP_SLIDER
        (toI32 (uiIncrementValue (toU32 (s.g_plSliderVal FMIN_DISP_SLIDER))
          INTERVAL_DISPLAY_L_FREQ MAX_DISPLAY_L_FREQ MIN_DISPLAY_L_FREQ)) s
  else s

/-- Third group of `OnButtonPress`: `-` and `+` of the sampling frequency. -/
def pressSampFreq (button : Nat) (s : State) : State :=
  if button = 2 * FSAMP_SLIDER then
    if uiIncrementValue (toU32 (s.g_plSliderVal FSAMP_SLIDER)) (-INTERVAL_SAMPLING_FREQ)
        MAX_SAMPLING_FREQ MIN_SAMPLING_FREQ < toU32 (2 * s.g_plSliderVal FMAX_DISP_SLIDER) then
      setSlider FSAMP_SLIDER (2 * s.g_plSliderVal FMAX_DISP_SLIDER) s
    else
      setSlider FSAMP_SLIDER
        (toI32 (uiIncrementValue (toU32 (s.g_plSliderVal FSAMP_SLIDER))
          (-INTERVAL_SAMPLING_FREQ) MAX_SAMPLING_FREQ MIN_SAMPLING_FREQ)) s
  else if button = 2 * FSAMP_SLIDER + 1 then
    setSlider FSAMP_SLIDER
      (toI32 (uiIncrementValue (toU32 (s.g_plSliderVal FSAMP_SLIDER)) INTERVAL_SAMPLING_FREQ
        MAX_SAMPLING_FREQ MIN_SAMPLING_FREQ)) s
  else s

/-- Fourth group of `OnButtonPress`: `-` and `+` of the number of bars. -/
def pressNumBars (button : Nat) (s : State) : State :=
  if button = 2 * NUMBARS_SLIDER then
    setSlider NUMBARS_SLIDER
      (toI32 (uiIncrementValue (toU32 (s.g_plSliderVal NUMBARS_SLIDER)) (-INTERVAL_NUMBARS)
        MAX_NUMBARS MIN_NUMBARS)) s
  else if button = 2 * NUMBARS_SLIDER + 1 then
    setSlider NUMBARS_SLIDER
      (toI32 (uiIncrementValue (toU32 (s.g_plSliderVal NUMBARS_SLIDER)) INTERVAL_NUMBARS
        MAX_NUMBARS MIN_NUMBARS)) s
  else s

/-- `OnButtonPress` of `gui.c`; the text, colour and paint calls on the
widgets are not part of the state. -/
def OnButtonPress (button : Nat) (s : State) : State :=
  pressNumBars button (pressSampFreq button (pressMinFreq button (pressMaxFreq button s)))

/-- `OnSliderChange` of `gui.c` on the slider `g_psSliders[slider]` with the
new value `lValue`; the comparisons are between `long` values. -/
def OnSliderChange (slider : Nat) (lValue : Int) (s : State) : State :=
  let s1 :=
    if slider = FMAX_DISP_SLIDER then
      if lValue ≤ s.g_plSliderVal FMIN_DISP_SLIDER then
        setSlider FMAX_DISP_SLIDER (s.g_plSliderVal FMIN_DISP_SLIDER + 1) s
      else setSlider FMAX_DISP_SLIDER lValue s
    else s
  let s2 :=
    if slider = FMIN_DISP_SLIDER then
      if lValue ≥ s1.g_plSliderVal FMAX_DISP_SLIDER then
        setSlider FMIN_DISP_SLIDER (s1.g_plSliderVal FMAX_DISP_SLIDER - 1) s1
      else setSlider FMIN_DISP_SLIDER lValue s1
    else s1
  let s3 :=
    if slider = FSAMP_SLIDER then
      if lValue < 2 * s2.g_plSliderVal FMAX_DISP_SLIDER then
        setSlider FSAMP_SLIDER (2 * s2.g_plSliderVal FMAX_DISP_SLIDER) s2
      else setSlider FSAMP_SLIDER lValue s2
    else s2
  if slider = NUMBARS_SLIDER then setSlider NUMBARS_SLIDER lValue s3 else s3

/-- `InitSamplingTimer` of `freq_analyzer.c`: the sampling timer is loaded
and enabled. -/
def InitSamplingTimer (s : State) : State :=
  { s with samplingTimerOn := true }

/-- `UpdateGConfigs` of `gui.c`. -/
def UpdateGConfigs (freqArray : Nat → Int) (s : State) : State :=
  InitDSP freqArray
    (InitSamplingTimer
      { s with g_uiMinDisplayFreq := toU32 (s.g_plSliderVal FMIN_DISP_SLIDER),
               g_uiMaxDisplayFreq := toU32 (s.g_plSliderVal FMAX_DISP_SLIDER),
               g_uiSamplingFreq := toU32 (s.g_plSliderVal FSAMP_SLIDER),
               g_uiNumDisplayBars := toU32 (s.g_plSliderVal NUMBARS_SLIDER) })

/-- The assignments of `GUIinit` of `gui.c` to the configuration globals and
to `g_plSliderVal`. -/
def GUIinit (s : State) : State :=
  let s1 := { s with g_uiSamplingFreq := INIT_SAMPLING_FREQ,
                     g_uiMinDisplayFreq := INIT_DISPLAY_L_FREQ,
                     g_uiMaxDisplayFreq := INIT_DISPLAY_U_FREQ,
                     g_uiNumDisplayBars := INIT_NUMBARS }
  setSlider NUMBARS_SLIDER (s1.g_uiNumDisplayBars : Int)
    (setSlider FSAMP_SLIDER (s1.g_uiSamplingFreq : Int)
      (setSlider FMAX_DISP_SLIDER (s1.g_uiMaxDisplayFreq : Int)
        (setSlider FMIN_DISP_SLIDER (s1.g_uiMinDisplayFreq : Int) s1)))

/-! ## The running system -/

/-- The initialisation sequence of `main`, up to the first pass of the main
loop; `freqArray` is the table the first `InitDSP` computes. -/
def startUp (freqArray : Nat → Int) : State :=
  InitDSP freqArray
    (InitADC3Transfer (InitSamplingTimer (GUIinit { powerOn with g_ucDMApingpong := 0 })))

/-- What can happen after start-up: the uDMA engine completes the armed
transfer, an interrupt handler runs, or the main loop calls one of its
functions. -/
inductive Event where
  | dmaDone (block : Nat → Nat)
  | adcInterrupt
  | processData (spectrum : Nat → ℚ)
  | displayTick
  | updateConfigs (freqArray : Nat → Int)
  | buttonPress (button : Nat)
  | sliderChange (slider : Nat) (lValue : Int)

/-- The effect of one event. -/
def step (s : State) : Event → State
  | Event.dmaDone block => dmaComplete block s
  | Event.adcInterrupt => ADC3IntHandler s
  | Event.processData spectrum => ProcessData spectrum s
  | Event.displayTick => Timer3AIntHandler s
  | Event.updateConfigs freqArray => UpdateGConfigs freqArray s
  | Event.buttonPress button => OnButtonPress button s
  | Event.sliderChange slider lValue => OnSliderChange slider lValue s

/-- A sequence of events, oldest first. -/
def run (s : State) (evs : List Event) : State := evs.foldl step s

/-- What the handler statics and the armed transfer satisfy in every
reachable state: the fill offset is `UDMA_XFER_MAX` times the transfer count
and lies inside the window, and a transfer aimed at the window ends inside
it. -/
def FillInBounds (s : State) : Prop :=
  s.ulDataXferd = UDMA_XFER_MAX * s.uluDMACount ∧ s.ulDataXferd < NUM_SAMPLES ∧
  (s.dmaDst = DmaBuf.adcValues → s.dmaOffset + s.dmaLength ≤ NUM_SAMPLES)

/-- The read `a[i]` of an array of `n` elements; `none` outside the array. -/
def readAt (n : Nat) (a : Nat → Nat) (i : Nat) : Option Nat :=
  if i < n then some (a i) else none

/-- The write `a[i] = v` to an array of `n` elements; `none` outside the
array. -/
def writeAt (n : Nat) (a : Nat → Nat) (i : Nat) (v : Nat) : Option (Nat → Nat) :=
  if i < n then some (store a i v) else none

/-- The shift loop of `ADC3IntHandler` with every access to `g_ulADCValues`
checked against its `NUM_SAMPLES` elements. -/
def shiftLoopChecked : Nat → Nat → (Nat → Nat) → Option (Nat → Nat)
  | 0, _, v => some v
  | fuel + 1, i, v =>
    (readAt NUM_SAMPLES v (i + DMA_SIZE)).bind fun x =>
      (writeAt NUM_SAMPLES v i x).bind fun w => shiftLoopChecked fuel (i + 1) w

/-- The copy loop of `ADC3IntHandler` with every access to `g_ulADCValues`
checked against its `NUM_SAMPLES` elements. -/
def copyLoopChecked (pusCopyBuffer : Nat → Nat) : Nat → Nat → (Nat → Nat) → Option (Nat → Nat)
  | 0, _, v => some v
  | fuel + 1, i, v =>
    (writeAt NUM_SAMPLES v (i + NUM_SAMPLES - DMA_SIZE) (pusCopyBuffer i)).bind fun w =>
      copyLoopChecked pusCopyBuffer fuel (i + 1) w

/-- The capture state `InitDSP` does not touch: window, ping-pong buffers and
selector, ready flag, handler statics, error counters and the channel. -/
def SameCapture (s r : State) : Prop :=
  r.g_ulADCValues = s.g_ulADCValues ∧ r.g_usDMAping = s.g_usDMAping ∧
  r.g_usDMApong = s.g_usDMApong ∧ r.g_ucDMApingpong = s.g_ucDMApingpong ∧
  r.g_ucDataReady = s.g_ucDataReady ∧ r.uluDMACount = s.uluDMACount ∧
  r.ulDataXferd = s.ulDataXferd ∧ r.dmaEnabled = s.dmaEnabled ∧
  r.dmaRemaining = s.dmaRemaining ∧ r.dmaDst = s.dmaDst ∧ r.dmaOffset = s.dmaOffset ∧
  r.dmaLength = s.dmaLength

/-- Bin `n` is one of the bins `ProcessData` hands to `arm_mean_f32` for band
`k` (counted from 0): the block starts at `lowBin` and has `blockSize`
elements. -/
def inBand (bp : Nat → Nat) (k n : Nat) : Prop :=
  lowBin bp k ≤ n ∧ n < lowBin bp k + blockSize (bp (k + 1)) (lowBin bp k)

/-- A batch fill interrupted after its first transfer, with the sliders at
40 Hz to 13000 Hz, 8 bars, 44600 Hz. -/
def midFillState : State :=
  { configured 40 13000 8 44600 powerOn with uluDMACount := 1, ulDataXferd := 1024 }

/-- A streaming capture with pong armed and a sample in the window, with the
sliders at 40 Hz to 13000 Hz, 8 bars, 26000 Hz. -/
def midStreamState : State :=
  { configured 40 13000 8 26000 powerOn with
      g_ucDMApingpong := 1, g_ulADCValues := (fun _ => 2048) }

/-- Slider values: maximum display frequency `fmax`, minimum `fmin`,
sampling frequency `fs`. -/
def sliderState (fmax fmin fs : Int) : State :=
  setSlider FSAMP_SLIDER fs (setSlider FMIN_DISP_SLIDER fmin (setSlider FMAX_DISP_SLIDER fmax
    powerOn))

/-- `NUM_F_LEDS` of `led_equalizer.c`: the number of frequency columns. -/
def NUM_F_LEDS : Nat := 8

/-- `NUM_P_LEDS` of `led_equalizer.c`: the number of LEDs in a column. -/
def NUM_P_LEDS : Nat := 8

/-- `SAMPLING_FREQ` of `led_equalizer.c`. -/
def SAMPLING_FREQ : Nat := 44600

/-- The loop of `Reverse`, entered at index `ucIndex` with `fuel` iterations
left; `ucReversedNumber` is an `unsigned short`, so each store is reduced
modulo `2 ^ 16`. -/
def reverseLoop (ucNumber : Nat) : Nat → Nat → Nat → Nat
  | 0, _, ucReversedNumber => ucReversedNumber
  | fuel + 1, ucIndex, ucReversedNumber =>
    reverseLoop ucNumber fuel (ucIndex + 1)
      ((((ucReversedNumber <<< 1) % 65536) |||
        (((1 <<< ucIndex) &&& ucNumber) >>> ucIndex)) % 65536)

/-- `Reverse` of `led_equalizer.c`; the result is returned as an
`unsigned char`. -/
def Reverse (ucNumber : Nat) : Nat := reverseLoop ucNumber 8 0 0 % 256

/-- The table `InitDSP` of `led_equalizer.c` stores in `LEDFreqBreakpoints`. -/
def hardCodedBreakpoints : Nat → Nat := fun j =>
  ([1, 3, 7, 16, 33, 68, 140, 289, 596] : List Nat).getD j 0

/-- The configuration of the LED matrix variant in the generic mapper: 40 Hz
to 13000 Hz over `NUM_F_LEDS` bands at `SAMPLING_FREQ`. -/
def matrixState : State :=
  withHzPerBin SAMPLING_FREQ NUM_SAMPLES (configured 40 13000 NUM_F_LEDS SAMPLING_FREQ powerOn)

/-- The inner loop `for(j=0;j<NUM_P_LEDS;j++)` of the display stage of
`ProcessData` in `led_equalizer.c`, entered at index `j` with `fuel`
iterations left; `power` is the `float` quotient `(float)LEDPower[i] /
maxLEDPowers[i]`; the thresholds `(float)j * 0.125` are exact and `0.125` is
written `1 / 8`. -/
def ledLoop (power : ℚ) : Nat → Nat → Nat → Nat
  | 0, _, ucDisplay => ucDisplay
  | fuel + 1, j, ucDisplay =>
    if power ≥ (j : ℚ) * (1 / 8) then
      ledLoop power fuel (j + 1) ((ucDisplay ||| (1 <<< j)) % 256)
    else ucDisplay

/-- The local `power` of the display stage of `led_equalizer.c`: the `float`
quotient `(float)LEDPower[i] / maxLEDPowers[i]` of the `unsigned int` band
power converted to `float` and the running maximum; `none` when the maximum
is zero. -/
def ledRatio (ledPower : Nat) (maxPower : ℚ) : Option ℚ :=
  (fdiv (roundQ (ledPower : ℚ)) maxPower).map roundQ

/-- The byte stored in `LEDDisplay[i]` by the display stage of
`led_equalizer.c`, from the `unsigned int` band power and the running
maximum.  With a zero maximum `power` is not a number for a zero band power,
and no threshold test succeeds, and it is infinite for a positive band power,
and every test succeeds. -/
def ledColumn (ledPower : Nat) (maxPower : ℚ) : Option Nat :=
  match ledRatio ledPower maxPower with
  | some power => some (ledLoop power NUM_P_LEDS 0 0)
  | none => some (if ledPower = 0 then 0 else 255)

/-- The outer loop `for(i=0;i<NUM_F_LEDS;i++)` of the display stage of
`led_equalizer.c`, entered at column `i` with `fuel` iterations left. -/
def columnLoop (LEDPower : Nat → Nat) (maxPowers : Nat → ℚ) :
    Nat → Nat → (Nat → Option Nat) → (Nat → Option Nat)
  | 0, _, display => display
  | fuel + 1, i, display =>
    columnLoop LEDPower maxPowers fuel (i + 1)
      (store display i (ledColumn (LEDPower i) (maxPowers i)))

/-- The byte whose bit `j` is set exactly when `r >= j / 8`, every one of
the `NUM_P_LEDS` thresholds being tested. -/
def thresholdByte (r : ℚ) : Nat :=
  ((List.range NUM_P_LEDS).map
    (fun (j : Nat) => if r ≥ (j : ℚ) * (1 / 8) then (2 : Nat) ^ j else 0)).sum

/-- The number of thresholds `j / 8`, `j = 0..7`, that a ratio `r` reaches. -/
def litCount (r : ℚ) : Nat := min NUM_P_LEDS (⌊8 * r⌋.toNat + 1)

/-! ## Further definitions for the band mapper and the gain control -/

/-- The arithmetic mean of the spectrum magnitudes over the bins `lo`
through `hi`, both ends included. -/
def meanOfBins (spectrum : Nat → ℚ) (lo hi : Nat) : ℚ :=
  ((List.range (hi + 1 - lo)).map (fun t => spectrum (lo + t))).sum / ((hi + 1 - lo : Nat) : ℚ)

/-- A spectrum with magnitude 5 in bin 3 and 0 elsewhere. -/
def edgeSpectrum : Nat → ℚ := fun n => if n = 3 then 5 else 0

/-- Two bands at 44600 Hz whose pre-repair breakpoints are 5, 5 and 3. -/
def tiedState : State :=
  { withHzPerBin SAMPLING_FREQ NUM_SAMPLES (configured 40 13000 2 SAMPLING_FREQ powerOn) with
      LEDFreqBreakpoints := (fun k => if k = 0 then 5 else if k = 1 then 5 else 3) }

/-- The loop of `Timer3AIntHandler` with every access to `maxLEDPowers`
checked against the `K` cells of the active bands. -/
def decayLoopChecked (K : Nat) : Nat → Nat → (Int → ℚ) → Option (Int → ℚ)
  | 0, _, m => some m
  | fuel + 1, i, m =>
    if 0 ≤ (i : Int) - 1 ∧ (i : Int) - 1 < (K : Int) then
      decayLoopChecked K fuel (i + 1)
        (storeZ m ((i : Int) - 1) (m ((i : Int) - 1) * POWER_DECAY_FACTOR))
    else none

/-! ## Streaming mode as a transition system -/

/-- What happens in streaming mode: the armed transfer completes and the
handler runs, the main loop consumes the window, or the display timer
ticks. -/
inductive StreamEvent where
  | delivery (block : Nat → Nat)
  | consume (spectrum : Nat → ℚ)
  | displayTick

/-- One step of streaming mode. -/
def streamStep (s : State) : StreamEvent → State
  | StreamEvent.delivery block => deliver s block
  | StreamEvent.consume spectrum => ProcessData spectrum s
  | StreamEvent.displayTick => Timer3AIntHandler s

/-- A sequence of streaming-mode steps, oldest first. -/
def streamRun (s : State) (evs : List StreamEvent) : State := evs.foldl streamStep s

/-- The content of a uDMA destination buffer. -/
def bufferOf (s : State) : DmaBuf → (Nat → Nat)
  | DmaBuf.adcValues => s.g_ulADCValues
  | DmaBuf.ping => s.g_usDMAping
  | DmaBuf.pong => s.g_usDMApong

theorem store_same {α : Type} (a : Nat → α) (i : Nat) (v : α) : store a i v i = v := by
  simp [store]

theorem store_other {α : Type} (a : Nat → α) (i k : Nat) (v : α) (h : k ≠ i) :
    store a i v k = a k := by
  simp [store, h]

theorem storeZ_same {α : Type} (a : Int → α) (i : Int) (v : α) : storeZ a i v i = v := by
  simp [storeZ]

theorem storeZ_other {α : Type} (a : Int → α) (i k : Int) (v : α) (h : k ≠ i) :
    storeZ a i v k = a k := by
  simp [storeZ, h]

/-! ## Single-precision rounding -/

theorem bitLen_zero (fuel : Nat) : bitLen fuel 0 = 0 := by
  cases fuel <;> simp [bitLen]

theorem bitLen_spec :
    ∀ (fuel n : Nat), n ≤ fuel → n ≠ 0 →
      2 ^ (bitLen fuel n - 1) ≤ n ∧ n < 2 ^ bitLen fuel n := by
  intro fuel
  induction fuel with
  | zero => intro n h hn; omega
  | succ k ih =>
    intro n h hn
    rw [bitLen, if_neg hn]
    by_cases h2 : n / 2 = 0
    · have h1 : n = 1 := by omega
      subst h1
      rw [h2, bitLen_zero]
      simp
    · obtain ⟨a, b⟩ := ih (n / 2) (by omega) h2
      have hpos : 1 ≤ bitLen k (n / 2) := by
        by_contra hc
        have hz : bitLen k (n / 2) = 0 := by omega
        rw [hz] at b
        simp at b
        omega
      constructor
      · have e : bitLen k (n / 2) + 1 - 1 = (bitLen k (n / 2) - 1) + 1 := by omega
        rw [e, pow_succ]
        omega
      · rw [pow_succ]
        omega

theorem bitLen_pos (n : Nat) (hn : n ≠ 0) : 1 ≤ bitLen n n := by
  by_contra hc
  have hz : bitLen n n = 0 := by omega
  have := (bitLen_spec n n (le_refl n) hn).2
  rw [hz] at this
  simp at this
  omega

/-- The binade of a positive quotient: `2 ^ E <= n / d < 2 ^ (E + 1)`. -/
theorem binade_spec (n d : Nat) (hn : 0 < n) (hd : 0 < d) :
    (2 : ℚ) ^ binade n d ≤ (n : ℚ) / d ∧ (n : ℚ) / d < (2 : ℚ) ^ (binade n d + 1) := by
  have hdq : (0 : ℚ) < d := by exact_mod_cast hd
  have hnq : (0 : ℚ) < n := by exact_mod_cast hn
  unfold binade
  by_cases hle : d ≤ n
  · rw [if_pos hle]
    have hq : n / d ≠ 0 := by
      have : 0 < n / d := Nat.div_pos hle hd
      omega
    obtain ⟨a, b⟩ := bitLen_spec (n / d) (n / d) (le_refl _) hq
    have hpos := bitLen_pos (n / d) hq
    generalize bitLen (n / d) (n / d) = L at a b hpos
    obtain ⟨M, rfl⟩ : ∃ M, L = M + 1 := ⟨L - 1, by omega⟩
    have e1 : ((M + 1 : Nat) : Int) - 1 = (M : Int) := by push_cast; ring
    have e2 : ((M + 1 : Nat) : Int) - 1 + 1 = ((M + 1 : Nat) : Int) := by ring
    rw [e2, e1, zpow_natCast, zpow_natCast]
    have a2 : 2 ^ M ≤ n / d := by simpa using a
    constructor
    · rw [le_div_iff₀ hdq]
      have h3 : 2 ^ M * d ≤ n := (Nat.le_div_iff_mul_le hd).1 a2
      exact_mod_cast h3
    · rw [div_lt_iff₀ hdq]
      have h3 : n < d * (n / d + 1) := Nat.lt_mul_div_succ n hd
      have h4 : d * (n / d + 1) ≤ d * 2 ^ (M + 1) := Nat.mul_le_mul_left d b
      have h5 : n < 2 ^ (M + 1) * d :=
        calc n < d * (n / d + 1) := h3
          _ ≤ d * 2 ^ (M + 1) := h4
          _ = 2 ^ (M + 1) * d := Nat.mul_comm _ _
      exact_mod_cast h5
  · rw [if_neg hle]
    have hlt : n < d := by omega
    have hq : (d - 1) / n ≠ 0 := by
      have : 0 < (d - 1) / n := Nat.div_pos (by omega) hn
      omega
    obtain ⟨a, b⟩ := bitLen_spec ((d - 1) / n) ((d - 1) / n) (le_refl _) hq
    have hpos := bitLen_pos ((d - 1) / n) hq
    generalize bitLen ((d - 1) / n) ((d - 1) / n) = L at a b hpos
    obtain ⟨M, rfl⟩ : ∃ M, L = M + 1 := ⟨L - 1, by omega⟩
    have a2 : 2 ^ M ≤ (d - 1) / n := by simpa using a
    have h3 : 2 ^ M * n ≤ d - 1 := (Nat.le_div_iff_mul_le hn).1 a2
    have h4 : d - 1 < 2 ^ (M + 1) * n := (Nat.div_lt_iff_lt_mul hn).1 b
    have e1 : -((M + 1 : Nat) : Int) + 1 = -(M : Int) := by push_cast; ring
    rw [e1, zpow_neg, zpow_neg, zpow_natCast, zpow_natCast]
    have hp1 : (0 : ℚ) < 2 ^ (M + 1) := by positivity
    have hp0 : (0 : ℚ) < 2 ^ M := by positivity
    constructor
    · rw [inv_le_comm₀ hp1 (div_pos hnq hdq), inv_div, div_le_iff₀ hnq]
      have h5 : d ≤ 2 ^ (M + 1) * n := by omega
      exact_mod_cast h5
    · rw [lt_inv_comm₀ (div_pos hnq hdq) hp0, inv_div, lt_div_iff₀ hnq]
      have h5 : 2 ^ M * n < d := by omega
      exact_mod_cast h5

/-! ### Rounding to the nearest integer, ties to even -/

theorem roundEven_ge (sn sd a : Nat) (hsd : 0 < sd) (h : a * sd ≤ sn) :
    a ≤ roundEven sn sd := by
  have h0 : a ≤ sn / sd := (Nat.le_div_iff_mul_le hsd).2 h
  unfold roundEven
  split_ifs <;> omega

theorem roundEven_le (sn sd a : Nat) (hsd : 0 < sd) (h : sn ≤ a * sd) :
    roundEven sn sd ≤ a := by
  have hdm := Nat.div_add_mod sn sd
  have h0 : sn / sd ≤ a := by
    have : sn / sd ≤ a * sd / sd := Nat.div_le_div_right h
    rwa [Nat.mul_div_cancel _ hsd] at this
  have h1 : 0 < sn % sd → sn / sd < a := by
    intro hr
    by_contra hc
    have h2 : a ≤ sn / sd := by omega
    have h3 : sd * a ≤ sd * (sn / sd) := Nat.mul_le_mul_left sd h2
    rw [Nat.mul_comm a sd] at h
    omega
  unfold roundEven
  split_ifs <;> omega

theorem roundEven_mono (sn1 sd1 sn2 sd2 : Nat) (h1 : 0 < sd1) (h2 : 0 < sd2)
    (h : sn1 * sd2 ≤ sn2 * sd1) : roundEven sn1 sd1 ≤ roundEven sn2 sd2 := by
  have hdm1 := Nat.div_add_mod sn1 sd1
  have hdm2 := Nat.div_add_mod sn2 sd2
  have hr1 := Nat.mod_lt sn1 h1
  have hr2 := Nat.mod_lt sn2 h2
  unfold roundEven
  generalize sn1 / sd1 = q1 at hdm1 ⊢
  generalize sn1 % sd1 = r1 at hdm1 hr1 ⊢
  generalize sn2 / sd2 = q2 at hdm2 ⊢
  generalize sn2 % sd2 = r2 at hdm2 hr2 ⊢
  subst hdm1
  subst hdm2
  have hfl : q1 ≤ q2 := by
    by_contra hc
    have hq : q2 + 1 ≤ q1 := by omega
    have m1 : sd1 * (q2 + 1) ≤ sd1 * q1 := Nat.mul_le_mul_left sd1 hq
    nlinarith
  rcases Nat.lt_or_ge q1 q2 with hlt | hge
  · split_ifs <;> omega
  · have heq : q1 = q2 := by omega
    subst heq
    have hr : r1 * sd2 ≤ r2 * sd1 := by nlinarith
    have key1 : sd1 ≤ 2 * r1 → sd2 ≤ 2 * r2 := by
      intro k
      by_contra hc
      have k2 : 2 * r2 < sd2 := by omega
      nlinarith
    have key2 : sd1 < 2 * r1 → sd2 < 2 * r2 := by
      intro k
      by_contra hc
      have k2 : 2 * r2 ≤ sd2 := by omega
      nlinarith
    split_ifs <;> omega

/-! ### The value of a rounded quotient -/

theorem two_zpow_split (e : Int) :
    (2 : ℚ) ^ e = (2 : ℚ) ^ e.toNat / (2 : ℚ) ^ (-e).toNat := by
  rcases le_total 0 e with h | h
  · have e1 : (-e).toNat = 0 := Int.toNat_eq_zero.2 (by omega)
    have e2 : ((e.toNat : Nat) : Int) = e := Int.toNat_of_nonneg h
    rw [e1, pow_zero, div_one, ← zpow_natCast, e2]
  · have e1 : e.toNat = 0 := Int.toNat_eq_zero.2 h
    have e2 : (((-e).toNat : Nat) : Int) = -e := Int.toNat_of_nonneg (by omega)
    rw [e1, pow_zero, one_div, ← zpow_natCast, e2, zpow_neg, inv_inv]

theorem roundF32_den_pos (n d : Nat) : 0 < (roundF32 n d).2 := by
  unfold roundF32
  positivity

theorem fracVal_roundF32 (n d : Nat) :
    fracVal (roundF32 n d) =
      (roundEven (n * 2 ^ (-(binade n d - 23)).toNat) (d * 2 ^ (binade n d - 23).toNat) : ℚ) *
        (2 : ℚ) ^ (binade n d - 23) := by
  unfold fracVal roundF32
  rw [two_zpow_split (binade n d - 23)]
  push_cast
  ring

/-- The quotient handed to `roundEven` is `n / d` scaled by the unit in the
last place. -/
theorem scaled_quotient (n d : Nat) (e : Int) :
    ((n * 2 ^ (-e).toNat : Nat) : ℚ) / ((d * 2 ^ e.toNat : Nat) : ℚ) =
      (n : ℚ) / d / (2 : ℚ) ^ e := by
  rw [two_zpow_split e]
  have h1 : (2 : ℚ) ^ e.toNat ≠ 0 := by positivity
  have h2 : (2 : ℚ) ^ (-e).toNat ≠ 0 := by positivity
  push_cast
  by_cases hd : (d : ℚ) = 0
  · rw [hd]
    simp
  · field_simp

theorem roundF32_zero (d : Nat) (hd : 0 < d) : fracVal (roundF32 0 d) = 0 := by
  rw [fracVal_roundF32]
  have : roundEven (0 * 2 ^ (-(binade 0 d - 23)).toNat) (d * 2 ^ (binade 0 d - 23).toNat) = 0 := by
    have hsd : 0 < d * 2 ^ (binade 0 d - 23).toNat := by positivity
    have := roundEven_le (0 * 2 ^ (-(binade 0 d - 23)).toNat)
      (d * 2 ^ (binade 0 d - 23).toNat) 0 hsd (by simp)
    omega
  rw [this]
  simp

theorem fracVal_nonneg (p : Nat × Nat) : 0 ≤ fracVal p := by
  unfold fracVal
  positivity

/-- A rounded positive quotient stays inside the closure of its binade. -/
theorem roundF32_bounds (n d : Nat) (hn : 0 < n) (hd : 0 < d) :
    (2 : ℚ) ^ binade n d ≤ fracVal (roundF32 n d) ∧
    fracVal (roundF32 n d) ≤ (2 : ℚ) ^ (binade n d + 1) := by
  obtain ⟨b1, b2⟩ := binade_spec n d hn hd
  have hsd : 0 < d * 2 ^ (binade n d - 23).toNat := by positivity
  have hsdq : (0 : ℚ) < ((d * 2 ^ (binade n d - 23).toNat : Nat) : ℚ) := by exact_mod_cast hsd
  have hsc := scaled_quotient n d (binade n d - 23)
  have hu : (0 : ℚ) < (2 : ℚ) ^ (binade n d - 23) := by positivity
  have e23 : (2 : ℚ) ^ binade n d = 2 ^ (23 : Nat) * (2 : ℚ) ^ (binade n d - 23) := by
    rw [← zpow_natCast, ← zpow_add₀ (by norm_num : (2 : ℚ) ≠ 0)]
    congr 1
    push_cast
    ring
  have e24 : (2 : ℚ) ^ (binade n d + 1) = 2 ^ (24 : Nat) * (2 : ℚ) ^ (binade n d - 23) := by
    rw [← zpow_natCast, ← zpow_add₀ (by norm_num : (2 : ℚ) ≠ 0)]
    congr 1
    push_cast
    ring
  have lo : 2 ^ 23 ≤ roundEven (n * 2 ^ (-(binade n d - 23)).toNat)
      (d * 2 ^ (binade n d - 23).toNat) := by
    apply roundEven_ge _ _ _ hsd
    have : ((2 ^ 23 : Nat) : ℚ) ≤ ((n * 2 ^ (-(binade n d - 23)).toNat : Nat) : ℚ) /
        ((d * 2 ^ (binade n d - 23).toNat : Nat) : ℚ) := by
      rw [hsc, le_div_iff₀ hu]
      have hc : ((2 ^ 23 : Nat) : ℚ) * (2 : ℚ) ^ (binade n d - 23) = (2 : ℚ) ^ binade n d := by
        rw [e23]
        norm_num
      rw [hc]
      exact b1
    rw [le_div_iff₀ hsdq] at this
    exact_mod_cast this
  have hi : roundEven (n * 2 ^ (-(binade n d - 23)).toNat)
      (d * 2 ^ (binade n d - 23).toNat) ≤ 2 ^ 24 := by
    apply roundEven_le _ _ _ hsd
    have : ((n * 2 ^ (-(binade n d - 23)).toNat : Nat) : ℚ) /
        ((d * 2 ^ (binade n d - 23).toNat : Nat) : ℚ) ≤ ((2 ^ 24 : Nat) : ℚ) := by
      rw [hsc, div_le_iff₀ hu]
      have hc : ((2 ^ 24 : Nat) : ℚ) * (2 : ℚ) ^ (binade n d - 23) =
          (2 : ℚ) ^ (binade n d + 1) := by
        rw [e24]
        norm_num
      rw [hc]
      exact le_of_lt b2
    rw [div_le_iff₀ hsdq] at this
    exact_mod_cast this
  rw [fracVal_roundF32, e23, e24]
  constructor
  · apply mul_le_mul_of_nonneg_right _ (le_of_lt hu)
    exact_mod_cast lo
  · apply mul_le_mul_of_nonneg_right _ (le_of_lt hu)
    exact_mod_cast hi

/-- Rounding to single precision is monotone. -/
theorem roundF32_mono (n1 d1 n2 d2 : Nat) (hd1 : 0 < d1) (hd2 : 0 < d2)
    (h : n1 * d2 ≤ n2 * d1) : fracVal (roundF32 n1 d1) ≤ fracVal (roundF32 n2 d2) := by
  rcases Nat.eq_zero_or_pos n1 with hz | hn1
  · rw [hz, roundF32_zero d1 hd1]
    exact fracVal_nonneg _
  have hn2 : 0 < n2 := by
    by_contra hc
    have : n2 = 0 := by omega
    rw [this] at h
    have : 0 < n1 * d2 := Nat.mul_pos hn1 hd2
    omega
  have hd1q : (0 : ℚ) < d1 := by exact_mod_cast hd1
  have hd2q : (0 : ℚ) < d2 := by exact_mod_cast hd2
  have hx : (n1 : ℚ) / d1 ≤ (n2 : ℚ) / d2 := by
    rw [div_le_div_iff₀ hd1q hd2q]
    exact_mod_cast h
  obtain ⟨a1, a2⟩ := binade_spec n1 d1 hn1 hd1
  obtain ⟨b1, b2⟩ := binade_spec n2 d2 hn2 hd2
  have hE : binade n1 d1 ≤ binade n2 d2 := by
    have : (2 : ℚ) ^ binade n1 d1 < (2 : ℚ) ^ (binade n2 d2 + 1) :=
      lt_of_le_of_lt (le_trans a1 hx) b2
    have := (zpow_lt_zpow_iff_right₀ (by norm_num : (1 : ℚ) < 2)).1 this
    omega
  rcases eq_or_lt_of_le hE with heq | hlt
  · rw [fracVal_roundF32, fracVal_roundF32, heq]
    have hu : (0 : ℚ) < (2 : ℚ) ^ (binade n2 d2 - 23) := by positivity
    apply mul_le_mul_of_nonneg_right _ (le_of_lt hu)
    have hs1 : 0 < d1 * 2 ^ (binade n2 d2 - 23).toNat := by positivity
    have hs2 : 0 < d2 * 2 ^ (binade n2 d2 - 23).toNat := by positivity
    have hs1q : (0 : ℚ) < ((d1 * 2 ^ (binade n2 d2 - 23).toNat : Nat) : ℚ) := by
      exact_mod_cast hs1
    have hs2q : (0 : ℚ) < ((d2 * 2 ^ (binade n2 d2 - 23).toNat : Nat) : ℚ) := by
      exact_mod_cast hs2
    have hm := roundEven_mono (n1 * 2 ^ (-(binade n2 d2 - 23)).toNat)
      (d1 * 2 ^ (binade n2 d2 - 23).toNat) (n2 * 2 ^ (-(binade n2 d2 - 23)).toNat)
      (d2 * 2 ^ (binade n2 d2 - 23).toNat) hs1 hs2 (by
        have hq : ((n1 * 2 ^ (-(binade n2 d2 - 23)).toNat : Nat) : ℚ) /
            ((d1 * 2 ^ (binade n2 d2 - 23).toNat : Nat) : ℚ) ≤
            ((n2 * 2 ^ (-(binade n2 d2 - 23)).toNat : Nat) : ℚ) /
            ((d2 * 2 ^ (binade n2 d2 - 23).toNat : Nat) : ℚ) := by
          rw [scaled_quotient, scaled_quotient]
          exact div_le_div_of_nonneg_right hx (le_of_lt hu)
        rw [div_le_div_iff₀ hs1q hs2q] at hq
        exact_mod_cast hq)
    exact_mod_cast hm
  · have c1 := (roundF32_bounds n1 d1 hn1 hd1).2
    have c2 := (roundF32_bounds n2 d2 hn2 hd2).1
    have c3 : (2 : ℚ) ^ (binade n1 d1 + 1) ≤ (2 : ℚ) ^ binade n2 d2 :=
      zpow_le_zpow_right₀ (by norm_num) (by omega)
    exact le_trans c1 (le_trans c3 c2)

theorem roundQ_natCast (c : Nat) (h : fracVal (roundF32 c 1) = (c : ℚ)) : roundQ (c : ℚ) = c := by
  unfold roundQ
  have h0 : ¬ ((c : ℚ) < 0) := not_lt.mpr (by positivity)
  rw [if_neg h0]
  have e1 : ((c : ℚ)).num.natAbs = c := by simp
  have e2 : ((c : ℚ)).den = 1 := by simp
  rw [e1, e2]
  exact h

theorem roundQ_one : roundQ 1 = 1 := by
  have h : fracVal (roundF32 1 1) = ((1 : Nat) : ℚ) := by
    have e : roundF32 1 1 = (8388608, 8388608) := by decide
    rw [e]
    norm_num [fracVal]
  simpa using roundQ_natCast 1 h

theorem roundQ_185 : roundQ 185 = 185 := by
  have h : fracVal (roundF32 185 1) = ((185 : Nat) : ℚ) := by
    have e : roundF32 185 1 = (12124160, 65536) := by decide
    rw [e]
    norm_num [fracVal]
  simpa using roundQ_natCast 185 h

theorem floor_mono (a1 b1 a2 b2 : Nat) (h1 : 0 < b1) (h2 : 0 < b2)
    (h : fracVal (a1, b1) ≤ fracVal (a2, b2)) : a1 / b1 ≤ a2 / b2 := by
  have h1q : (0 : ℚ) < b1 := by exact_mod_cast h1
  have h2q : (0 : ℚ) < b2 := by exact_mod_cast h2
  unfold fracVal at h
  simp only [] at h
  rw [div_le_div_iff₀ h1q h2q] at h
  have hn : a1 * b2 ≤ a2 * b1 := by exact_mod_cast h
  rw [Nat.le_div_iff_mul_le h2]
  have t1 : a1 / b1 * b1 ≤ a1 := Nat.div_mul_le_self a1 b1
  nlinarith

theorem f32Mul_mono (a b c : Nat × Nat) (ha : 0 < a.2) (hb : 0 < b.2) (hc : 0 < c.2)
    (h : fracVal b ≤ fracVal c) : fracVal (f32Mul a b) ≤ fracVal (f32Mul a c) := by
  have hbq : (0 : ℚ) < b.2 := by exact_mod_cast hb
  have hcq : (0 : ℚ) < c.2 := by exact_mod_cast hc
  unfold fracVal at h
  rw [div_le_div_iff₀ hbq hcq] at h
  have hn : b.1 * c.2 ≤ c.1 * b.2 := by exact_mod_cast h
  unfold f32Mul
  apply roundF32_mono _ _ _ _ (Nat.mul_pos ha hb) (Nat.mul_pos ha hc)
  calc a.1 * b.1 * (a.2 * c.2) = a.1 * a.2 * (b.1 * c.2) := by ring
    _ ≤ a.1 * a.2 * (c.1 * b.2) := Nat.mul_le_mul_left _ hn
    _ = a.1 * c.1 * (a.2 * b.2) := by ring

theorem roundQ_div_coprime (n d : Nat) (hd : 0 < d) (h : Nat.Coprime n d) :
    roundQ ((n : ℚ) / (d : ℚ)) = fracVal (roundF32 n d) := by
  have hd0 : d ≠ 0 := by omega
  have e1 : ((n : ℚ) / (d : ℚ)).num = (n : Int) := by
    have := Rat.num_div_eq_of_coprime (a := (n : Int)) (b := (d : Int)) (by exact_mod_cast hd)
      (by simpa using h)
    simpa using this
  have e2 : ((n : ℚ) / (d : ℚ)).den = d := by
    have := Rat.den_div_eq_of_coprime (a := (n : Int)) (b := (d : Int)) (by exact_mod_cast hd)
      (by simpa using h)
    have h2 : ((((n : Int) : ℚ) / ((d : Int) : ℚ)).den : Int) = (d : Int) := this
    have h3 : (((n : Int) : ℚ) / ((d : Int) : ℚ)).den = d := by exact_mod_cast h2
    simpa using h3
  unfold roundQ
  have h0 : ¬ ((n : ℚ) / (d : ℚ) < 0) := not_lt.mpr (by positivity)
  rw [if_neg h0, e1, e2]
  simp

theorem roundQ_half : roundQ (1 / 2) = 1 / 2 := by
  have h := roundQ_div_coprime 1 2 (by norm_num) (by norm_num)
  have e : roundF32 1 2 = (8388608, 16777216) := by decide
  rw [e] at h
  norm_num [fracVal] at h
  exact h

/-! ### Where single precision and exact arithmetic part -/

/-- At 57245 Hz the `float` product `g_HzPerBin * 331` is 9252.0, although
`57245 * 331 / 2048` is below 9252. -/
theorem binEdge_rounds_up :
    binEdge 57245 2048 331 = 9252 ∧ 57245 * 331 / 2048 = 9251 := by
  decide

/-- At 62619 Hz the `float` product `g_HzPerBin * 403` is 12322.0: it does not
exceed a maximum display frequency of 12322 Hz, although `62619 * 403 / 2048`
does. -/
theorem overMax_rounds_down :
    overMax (withHzPerBin 62619 NUM_SAMPLES (configured 40 12322 8 62619 powerOn)) 403 = false ∧
    12322 * 2048 < 62619 * 403 := by
  decide

/-! ## The bin search -/

theorem binEdge_mono (hzNum hzDen i : Nat) :
    binEdge hzNum hzDen i ≤ binEdge hzNum hzDen (i + 1) := by
  unfold binEdge
  have hi : fracVal (roundF32 i 1) ≤ fracVal (roundF32 (i + 1) 1) :=
    roundF32_mono i 1 (i + 1) 1 (by norm_num) (by norm_num) (by omega)
  have hp := f32Mul_mono (hzPerBin hzNum hzDen) (roundF32 i 1) (roundF32 (i + 1) 1)
    (roundF32_den_pos _ _) (roundF32_den_pos _ _) (roundF32_den_pos _ _) hi
  have := floor_mono _ _ _ _ (roundF32_den_pos _ _) (roundF32_den_pos _ _) hp
  exact_mod_cast this

theorem binCenter_le_next (hzNum hzDen i : Nat) :
    binCenter hzNum hzDen i ≤ binCenterNext hzNum hzDen i := by
  unfold binCenter binCenterNext
  have h1 := binEdge_mono hzNum hzDen i
  have h2 : binEdge hzNum hzDen (i + 1) ≤ binEdge hzNum hzDen (i + 2) :=
    binEdge_mono hzNum hzDen (i + 1)
  omega

/-- The comparison of `upperDelta` with `lowerDelta` never succeeds: the bin
stored for a target is always the one below the first bin whose centre exceeds
the target. -/
theorem scanBins_step (hzNum hzDen : Nat) (t : Int) (fuel i : Nat) :
    scanBins hzNum hzDen t (fuel + 1) i =
      if binCenter hzNum hzDen i > t then some ((i : Int) - 1)
      else scanBins hzNum hzDen t fuel (i + 1) := by
  have h := binCenter_le_next hzNum hzDen i
  rw [scanBins]
  by_cases hc : binCenter hzNum hzDen i > t
  · have hlt : ¬ (binCenter hzNum hzDen i - t < t - binCenterNext hzNum hzDen i) := by omega
    simp [hc, hlt]
  · simp [hc]

theorem scanValue_prior (hzNum hzDen halfBins : Nat) (freqArray : Nat → Int)
    (p q : Nat → Nat) (k : Nat) (h : p k = q k) :
    scanValue hzNum hzDen halfBins freqArray p k =
      scanValue hzNum hzDen halfBins freqArray q k := by
  unfold scanValue
  cases scanBins hzNum hzDen (freqArray k) halfBins 0 <;> simp [h]

theorem scanTargets_succ (hzNum hzDen halfBins : Nat) (freqArray : Nat → Int)
    (fuel j : Nat) (bp : Nat → Nat) :
    scanTargets hzNum hzDen halfBins freqArray (fuel + 1) j bp =
      scanTargets hzNum hzDen halfBins freqArray fuel (j + 1)
        (fun x => if x = j then scanValue hzNum hzDen halfBins freqArray bp j else bp x) := by
  have h : (match scanBins hzNum hzDen (freqArray j) halfBins 0 with
      | some v => store bp j (toU32 v)
      | none => bp) =
      (fun x => if x = j then scanValue hzNum hzDen halfBins freqArray bp j else bp x) := by
    funext x
    unfold scanValue
    cases scanBins hzNum hzDen (freqArray j) halfBins 0 with
    | none => by_cases hx : x = j <;> simp [hx]
    | some v => simp [store]
  rw [scanTargets, h]

theorem scanTargets_apply (hzNum hzDen halfBins : Nat) (freqArray : Nat → Int) :
    ∀ (fuel j : Nat) (bp : Nat → Nat) (k : Nat),
      scanTargets hzNum hzDen halfBins freqArray fuel j bp k =
        if j ≤ k ∧ k < j + fuel then scanValue hzNum hzDen halfBins freqArray bp k
        else bp k := by
  intro fuel
  induction fuel with
  | zero =>
    intro j bp k
    have : ¬ (j ≤ k ∧ k < j + 0) := by omega
    rw [scanTargets, if_neg this]
  | succ n ih =>
    intro j bp k
    rw [scanTargets_succ, ih]
    by_cases hk : k = j
    · subst hk
      have h1 : ¬ (k + 1 ≤ k ∧ k < k + 1 + n) := by omega
      have h2 : k ≤ k ∧ k < k + (n + 1) := by omega
      rw [if_neg h1, if_pos h2]
      simp
    · by_cases hr : j + 1 ≤ k ∧ k < j + 1 + n
      · have h2 : j ≤ k ∧ k < j + (n + 1) := by omega
        rw [if_pos hr, if_pos h2]
        exact scanValue_prior _ _ _ _ _ _ _ (by simp [hk])
      · have h2 : ¬ (j ≤ k ∧ k < j + (n + 1)) := by omega
        rw [if_neg hr, if_neg h2]
        simp [hk]

/-- Bin centres do not decrease with the bin index. -/
theorem binCenter_mono (hzNum hzDen i : Nat) :
    ∀ n, binCenter hzNum hzDen i ≤ binCenter hzNum hzDen (i + n) := by
  intro n
  induction n with
  | zero => exact le_refl _
  | succ n ih => exact le_trans ih (binCenter_le_next hzNum hzDen (i + n))

/-- The scan assigns nothing when the centre of the last visited bin does not
exceed the target. -/
theorem scanBins_none (hzNum hzDen : Nat) (t : Int) :
    ∀ fuel i, binCenter hzNum hzDen (i + fuel) ≤ t →
      scanBins hzNum hzDen t (fuel + 1) i = none := by
  intro fuel
  induction fuel with
  | zero =>
    intro i h
    have hc : ¬ (binCenter hzNum hzDen i > t) := not_lt.mpr h
    rw [scanBins_step, if_neg hc]
    rfl
  | succ n ih =>
    intro i h
    have hc : ¬ (binCenter hzNum hzDen i > t) :=
      not_lt.mpr (le_trans (binCenter_mono hzNum hzDen i (n + 1)) h)
    rw [scanBins_step, if_neg hc]
    exact ih (i + 1) (by rw [Nat.add_right_comm, Nat.add_assoc]; exact h)

/-- The scan stores the bin below bin `i + n` when that is the first bin whose
centre exceeds the target. -/
theorem scanBins_found (hzNum hzDen : Nat) (t : Int) :
    ∀ n fuel i, n < fuel → (n = 0 ∨ binCenter hzNum hzDen (i + n - 1) ≤ t) →
      t < binCenter hzNum hzDen (i + n) →
      scanBins hzNum hzDen t fuel i = some (((i + n : Nat) : Int) - 1) := by
  intro n
  induction n with
  | zero =>
    intro fuel i hf _ hhi
    obtain ⟨f, rfl⟩ : ∃ f, fuel = f + 1 := ⟨fuel - 1, by omega⟩
    have hhi2 : binCenter hzNum hzDen i > t := hhi
    rw [scanBins_step, if_pos hhi2]
    rfl
  | succ n ih =>
    intro fuel i hf hlo hhi
    obtain ⟨f, rfl⟩ : ∃ f, fuel = f + 1 := ⟨fuel - 1, by omega⟩
    have hlo2 : binCenter hzNum hzDen (i + n) ≤ t := by
      rcases hlo with h | h
      · omega
      · exact h
    have hc : ¬ (binCenter hzNum hzDen i > t) :=
      not_lt.mpr (le_trans (binCenter_mono hzNum hzDen i n) hlo2)
    rw [scanBins_step, if_neg hc]
    have e : i + 1 + n = i + (n + 1) := by omega
    have := ih f (i + 1) (by omega)
      (by
        by_cases h0 : n = 0
        · exact Or.inl h0
        · right
          have e2 : i + 1 + n - 1 = i + n := by omega
          rw [e2]; exact hlo2)
      (by rw [e]; exact hhi)
    rw [this, e]

/-- The cell of target `k` after the bin search, when bin `m` is the first bin
whose centre exceeds the target. -/
theorem scanTargets_found (hzNum hzDen halfBins : Nat) (freqArray : Nat → Int) (fuel : Nat)
    (bp : Nat → Nat) (k m : Nat) (hk : k < fuel) (hm : m < halfBins)
    (hlo : m = 0 ∨ binCenter hzNum hzDen (m - 1) ≤ freqArray k)
    (hhi : freqArray k < binCenter hzNum hzDen m) :
    scanTargets hzNum hzDen halfBins freqArray fuel 0 bp k = toU32 ((m : Int) - 1) := by
  have h := scanBins_found hzNum hzDen (freqArray k) m halfBins 0 hm
    (by simpa using hlo) (by simpa using hhi)
  rw [scanTargets_apply, if_pos ⟨Nat.zero_le _, by omega⟩]
  unfold scanValue
  rw [h]
  simp

/-- The cell of target `k` keeps its content when no bin centre exceeds the
target. -/
theorem scanTargets_missing (hzNum hzDen halfBins : Nat) (freqArray : Nat → Int) (fuel : Nat)
    (bp : Nat → Nat) (k : Nat)
    (hlast : binCenter hzNum hzDen halfBins ≤ freqArray k) :
    scanTargets hzNum hzDen (halfBins + 1) freqArray fuel 0 bp k = bp k := by
  have h := scanBins_none hzNum hzDen (freqArray k) halfBins 0 (by simpa using hlast)
  rw [scanTargets_apply]
  unfold scanValue
  rw [h]
  simp

set_option maxRecDepth 100000 in
/-- The bin search at 26000 Hz on the eight-bar table: targets 0 to 7 are
stored, the cell of target 8 is left as it was. -/
theorem scanTargets_eightBar (bp : Nat → Nat) :
    scanTargets 26000 NUM_SAMPLES (NUM_SAMPLES / 2) freqArray8 9 0 bp =
      fun k => if k < 8 then ([2, 6, 12, 27, 56, 116, 240, 496] : List Nat).getD k 0 else bp k := by
  funext k
  by_cases hk : k < 8
  · have hh : ∀ m, m < NUM_SAMPLES / 2 → (m = 0 ∨ binCenter 26000 NUM_SAMPLES (m - 1) ≤ freqArray8 k) →
        freqArray8 k < binCenter 26000 NUM_SAMPLES m →
        scanTargets 26000 NUM_SAMPLES (NUM_SAMPLES / 2) freqArray8 9 0 bp k = toU32 ((m : Int) - 1) :=
      fun m => scanTargets_found _ _ _ _ _ _ _ _ (by omega)
    simp only [if_pos hk]
    interval_cases k
    · rw [hh 3 (by decide) (by decide) (by decide)]; decide
    · rw [hh 7 (by decide) (by decide) (by decide)]; decide
    · rw [hh 13 (by decide) (by decide) (by decide)]; decide
    · rw [hh 28 (by decide) (by decide) (by decide)]; decide
    · rw [hh 57 (by decide) (by decide) (by decide)]; decide
    · rw [hh 117 (by decide) (by decide) (by decide)]; decide
    · rw [hh 241 (by decide) (by decide) (by decide)]; decide
    · rw [hh 497 (by decide) (by decide) (by decide)]; decide
  · simp only [if_neg hk]
    have e : NUM_SAMPLES / 2 = 1023 + 1 := by decide
    rw [e]
    by_cases h8 : k = 8
    · subst h8
      exact scanTargets_missing _ _ _ _ _ _ _ (by decide)
    · rw [scanTargets_apply, if_neg (by omega)]

set_option maxRecDepth 100000 in
/-- The bin search at 44600 Hz on the eight-bar table. -/
theorem scanTargets_matrix (bp : Nat → Nat) :
    scanTargets SAMPLING_FREQ NUM_SAMPLES (NUM_SAMPLES / 2) freqArray8 9 0 bp =
      fun k => if k < 9 then ([1, 3, 7, 15, 32, 67, 140, 289, 596] : List Nat).getD k 0
        else bp k := by
  funext k
  by_cases hk : k < 9
  · have hh : ∀ m, m < NUM_SAMPLES / 2 →
        (m = 0 ∨ binCenter SAMPLING_FREQ NUM_SAMPLES (m - 1) ≤ freqArray8 k) →
        freqArray8 k < binCenter SAMPLING_FREQ NUM_SAMPLES m →
        scanTargets SAMPLING_FREQ NUM_SAMPLES (NUM_SAMPLES / 2) freqArray8 9 0 bp k =
          toU32 ((m : Int) - 1) :=
      fun m => scanTargets_found _ _ _ _ _ _ _ _ (by omega)
    simp only [if_pos hk]
    interval_cases k
    · rw [hh 2 (by decide) (by decide) (by decide)]; decide
    · rw [hh 4 (by decide) (by decide) (by decide)]; decide
    · rw [hh 8 (by decide) (by decide) (by decide)]; decide
    · rw [hh 16 (by decide) (by decide) (by decide)]; decide
    · rw [hh 33 (by decide) (by decide) (by decide)]; decide
    · rw [hh 68 (by decide) (by decide) (by decide)]; decide
    · rw [hh 141 (by decide) (by decide) (by decide)]; decide
    · rw [hh 290 (by decide) (by decide) (by decide)]; decide
    · rw [hh 597 (by decide) (by decide) (by decide)]; decide
  · simp only [if_neg hk]
    rw [scanTargets_apply, if_neg (by omega)]

/-! ## The repair walk -/

theorem repairAt_other (bp : Nat → Nat) (i k : Nat) (h : k ≠ i) : repairAt bp i k = bp k := by
  unfold repairAt
  split
  · exact store_other _ _ _ _ h
  · rfl

theorem repairWalk_succ (fuel i : Nat) (s : State) :
    repairWalk (fuel + 1) i s =
      if overMax s (repairAt s.LEDFreqBreakpoints i i) = true then
        GUIUpdateSlider NUMBARS_SLIDER (i : Int)
          { s with LEDFreqBreakpoints := repairAt s.LEDFreqBreakpoints i,
                   g_uiNumDisplayBars := i }
      else
        repairWalk fuel (i + 1) { s with LEDFreqBreakpoints := repairAt s.LEDFreqBreakpoints i } :=
  rfl

theorem repairWalk_frame :
    ∀ (fuel i : Nat) (s : State) (k : Nat), k < i →
      (repairWalk fuel i s).LEDFreqBreakpoints k = s.LEDFreqBreakpoints k := by
  intro fuel
  induction fuel with
  | zero => intro i s k _; rfl
  | succ n ih =>
    intro i s k hk
    rw [repairWalk_succ]
    split
    · simp only [GUIUpdateSlider]
      exact repairAt_other _ _ _ (by omega)
    · rw [ih (i + 1) _ k (by omega)]
      exact repairAt_other _ _ _ (by omega)

theorem repairWalk_config :
    ∀ (fuel i : Nat) (s : State),
      (repairWalk fuel i s).g_uiMaxDisplayFreq = s.g_uiMaxDisplayFreq ∧
      (repairWalk fuel i s).hzNum = s.hzNum ∧ (repairWalk fuel i s).hzDen = s.hzDen := by
  intro fuel
  induction fuel with
  | zero => intro i s; exact ⟨rfl, rfl, rfl⟩
  | succ n ih =>
    intro i s
    rw [repairWalk_succ]
    split
    · exact ⟨rfl, rfl, rfl⟩
    · exact ih (i + 1) _

theorem overMax_congr (s r : State) (b : Nat) (h1 : r.g_uiMaxDisplayFreq = s.g_uiMaxDisplayFreq)
    (h2 : r.hzNum = s.hzNum) (h3 : r.hzDen = s.hzDen) : overMax r b = overMax s b := by
  simp [overMax, h1, h2, h3]

/-- Outcome of the repair walk: either it breaks at the first index whose
repaired breakpoint is above the maximum display frequency, writing that index
to the band count and the slider, or it runs to the end and leaves both. -/
theorem repairWalk_cases :
    ∀ (fuel i : Nat) (s : State),
      (∃ k, i ≤ k ∧ k < i + fuel ∧
          (repairWalk fuel i s).g_uiNumDisplayBars = k ∧
          (repairWalk fuel i s).g_plSliderVal = store s.g_plSliderVal NUMBARS_SLIDER (k : Int) ∧
          overMax s ((repairWalk fuel i s).LEDFreqBreakpoints k) = true ∧
          ∀ k', i ≤ k' → k' < k →
            overMax s ((repairWalk fuel i s).LEDFreqBreakpoints k') = false) ∨
      ((repairWalk fuel i s).g_uiNumDisplayBars = s.g_uiNumDisplayBars ∧
        (repairWalk fuel i s).g_plSliderVal = s.g_plSliderVal ∧
        ∀ k', i ≤ k' → k' < i + fuel →
          overMax s ((repairWalk fuel i s).LEDFreqBreakpoints k') = false) := by
  intro fuel
  induction fuel with
  | zero =>
    intro i s
    right
    refine ⟨rfl, rfl, ?_⟩
    intro k' h1 h2
    omega
  | succ n ih =>
    intro i s
    rw [repairWalk_succ]
    by_cases hov : overMax s (repairAt s.LEDFreqBreakpoints i i) = true
    · left
      rw [if_pos hov]
      refine ⟨i, le_refl i, by omega, rfl, rfl, hov, ?_⟩
      intro k' h1 h2
      omega
    · rw [if_neg hov]
      have hfalse : overMax s (repairAt s.LEDFreqBreakpoints i i) = false := by
        simpa using hov
      have hfr := repairWalk_frame n (i + 1)
        { s with LEDFreqBreakpoints := repairAt s.LEDFreqBreakpoints i } i (by omega)
      rcases ih (i + 1) { s with LEDFreqBreakpoints := repairAt s.LEDFreqBreakpoints i } with
        ⟨k, hk1, hk2, hK, hS, hO, hL⟩ | ⟨hK, hS, hL⟩
      · left
        refine ⟨k, by omega, by omega, hK, hS, hO, ?_⟩
        intro k' h1 h2
        by_cases hki : k' = i
        · subst hki
          rw [hfr]
          exact hfalse
        · exact hL k' (by omega) h2
      · right
        refine ⟨hK, hS, ?_⟩
        intro k' h1 h2
        by_cases hki : k' = i
        · subst hki
          rw [hfr]
          exact hfalse
        · exact hL k' (by omega) (by omega)

/-! ## Claims on the band mapper -/

theorem scanBins_first_bin (hzNum hzDen : Nat) (t : Int) (halfBins : Nat) (hb : 1 ≤ halfBins)
    (h : t < binCenter hzNum hzDen 0) :
    scanBins hzNum hzDen t halfBins 0 = some (-1) := by
  obtain ⟨m, rfl⟩ : ∃ m, halfBins = m + 1 := ⟨halfBins - 1, by omega⟩
  rw [scanBins_step, if_pos h]
  rfl

theorem toU32_neg_one : toU32 (-1) = 4294967295 := by decide

theorem setFreqBreakpoints_zero (numSamples : Nat) (freqArray : Nat → Int) (s : State) :
    (setFreqBreakpoints numSamples freqArray s).LEDFreqBreakpoints 0 =
      scanValue s.hzNum s.hzDen (numSamples / 2) freqArray s.LEDFreqBreakpoints 0 := by
  unfold setFreqBreakpoints
  rw [repairWalk_frame _ 1 _ 0 (by omega)]
  show scanTargets s.hzNum s.hzDen (numSamples / 2) freqArray (s.g_uiNumDisplayBars + 1) 0
    s.LEDFreqBreakpoints 0 = _
  rw [scanTargets_apply, if_pos (by omega)]

/-- C1 (code defect): when the centre of bin 0 already exceeds the first target
frequency, `setFreqBreakpoints` stores `0 - 1` in the `unsigned int` cell
`LEDFreqBreakpoints[0]`, which the repair walk never revisits: the first
breakpoint is 4294967295, outside `[0, numSamples/2 - 1]`. -/
theorem C1_first_breakpoint_wraps (numSamples : Nat) (freqArray : Nat → Int) (s : State)
    (hN : 2 ≤ numSamples) (hU : numSamples ≤ U32)
    (h : freqArray 0 < binCenter s.hzNum s.hzDen 0) :
    (setFreqBreakpoints numSamples freqArray s).LEDFreqBreakpoints 0 = 4294967295 ∧
    ¬ (setFreqBreakpoints numSamples freqArray s).LEDFreqBreakpoints 0 ≤ numSamples / 2 - 1 := by
  have h0 : (setFreqBreakpoints numSamples freqArray s).LEDFreqBreakpoints 0 = 4294967295 := by
    rw [setFreqBreakpoints_zero]
    unfold scanValue
    rw [scanBins_first_bin _ _ _ _ (by omega) h]
    exact toU32_neg_one
  refine ⟨h0, ?_⟩
  rw [h0]
  unfold U32 at hU
  omega

/-- Witness for C1: the sliders 1 Hz to 13000 Hz, 75 bars, 26000 Hz sampling. -/
theorem C1_first_breakpoint_wraps_witness :
    (2 ≤ NUM_SAMPLES ∧ NUM_SAMPLES ≤ U32 ∧
      freqArrayLow 0 < binCenter lowMinState.hzNum lowMinState.hzDen 0) ∧
    (setFreqBreakpoints NUM_SAMPLES freqArrayLow lowMinState).LEDFreqBreakpoints 0
      = 4294967295 ∧
    ¬ (setFreqBreakpoints NUM_SAMPLES freqArrayLow lowMinState).LEDFreqBreakpoints 0
      ≤ NUM_SAMPLES / 2 - 1 :=
  ⟨⟨by decide, by decide, by decide⟩,
    C1_first_breakpoint_wraps NUM_SAMPLES freqArrayLow lowMinState (by decide) (by decide)
      (by decide)⟩

theorem setFreqBreakpoints_config (numSamples : Nat) (freqArray : Nat → Int) (s : State) :
    (setFreqBreakpoints numSamples freqArray s).g_uiMaxDisplayFreq = s.g_uiMaxDisplayFreq ∧
    (setFreqBreakpoints numSamples freqArray s).hzNum = s.hzNum ∧
    (setFreqBreakpoints numSamples freqArray s).hzDen = s.hzDen := by
  unfold setFreqBreakpoints
  exact repairWalk_config _ _ _

theorem setFreqBreakpoints_cases (numSamples : Nat) (freqArray : Nat → Int) (s : State) :
    (∃ k, 1 ≤ k ∧ k < 1 + s.g_uiNumDisplayBars ∧
        (setFreqBreakpoints numSamples freqArray s).g_uiNumDisplayBars = k ∧
        (setFreqBreakpoints numSamples freqArray s).g_plSliderVal =
          store s.g_plSliderVal NUMBARS_SLIDER (k : Int) ∧
        overMax s ((setFreqBreakpoints numSamples freqArray s).LEDFreqBreakpoints k) = true ∧
        ∀ k', 1 ≤ k' → k' < k →
          overMax s ((setFreqBreakpoints numSamples freqArray s).LEDFreqBreakpoints k') = false) ∨
      ((setFreqBreakpoints numSamples freqArray s).g_uiNumDisplayBars = s.g_uiNumDisplayBars ∧
        (setFreqBreakpoints numSamples freqArray s).g_plSliderVal = s.g_plSliderVal ∧
        ∀ k', 1 ≤ k' → k' < 1 + s.g_uiNumDisplayBars →
          overMax s ((setFreqBreakpoints numSamples freqArray s).LEDFreqBreakpoints k') = false) := by
  unfold setFreqBreakpoints
  exact repairWalk_cases s.g_uiNumDisplayBars 1 _

/-- C2: after `setFreqBreakpoints`, if some `k` in `1..bandCount` has
`g_HzPerBin * LEDFreqBreakpoints[k] > g_uiMaxDisplayFreq`, the product and the
comparison being those of the code in single precision, then
`g_uiNumDisplayBars` is the least such `k` and the band-count slider value
holds the same `k`; if there is no such `k`, the band count and every slider
value are the ones from before the call. -/
theorem C2_band_count_override (numSamples : Nat) (freqArray : Nat → Int) (s : State) :
    ((∃ k, 1 ≤ k ∧ k ≤ s.g_uiNumDisplayBars ∧
        overMax (setFreqBreakpoints numSamples freqArray s)
          ((setFreqBreakpoints numSamples freqArray s).LEDFreqBreakpoints k) = true) →
      (1 ≤ (setFreqBreakpoints numSamples freqArray s).g_uiNumDisplayBars ∧
        (setFreqBreakpoints numSamples freqArray s).g_uiNumDisplayBars ≤ s.g_uiNumDisplayBars ∧
        overMax (setFreqBreakpoints numSamples freqArray s)
          ((setFreqBreakpoints numSamples freqArray s).LEDFreqBreakpoints
            (setFreqBreakpoints numSamples freqArray s).g_uiNumDisplayBars) = true ∧
        (∀ k, 1 ≤ k → k < (setFreqBreakpoints numSamples freqArray s).g_uiNumDisplayBars →
          overMax (setFreqBreakpoints numSamples freqArray s)
            ((setFreqBreakpoints numSamples freqArray s).LEDFreqBreakpoints k) = false) ∧
        (setFreqBreakpoints numSamples freqArray s).g_plSliderVal NUMBARS_SLIDER =
          ((setFreqBreakpoints numSamples freqArray s).g_uiNumDisplayBars : Int))) ∧
    ((∀ k, 1 ≤ k → k ≤ s.g_uiNumDisplayBars →
        overMax (setFreqBreakpoints numSamples freqArray s)
          ((setFreqBreakpoints numSamples freqArray s).LEDFreqBreakpoints k) = false) →
      ((setFreqBreakpoints numSamples freqArray s).g_uiNumDisplayBars = s.g_uiNumDisplayBars ∧
        (setFreqBreakpoints numSamples freqArray s).g_plSliderVal = s.g_plSliderVal)) := by
  obtain ⟨c1, c2, c3⟩ := setFreqBreakpoints_config numSamples freqArray s
  have hov : ∀ b, overMax (setFreqBreakpoints numSamples freqArray s) b = overMax s b :=
    fun b => overMax_congr _ _ b c1 c2 c3
  simp only [hov]
  have hcases := setFreqBreakpoints_cases numSamples freqArray s
  rcases hcases with ⟨k, hk1, hk2, hK, hS, hO, hL⟩ | ⟨hK, hS, hL⟩
  · constructor
    · intro _
      rw [hK]
      refine ⟨hk1, by omega, hO, hL, ?_⟩
      rw [hS]
      exact store_same _ _ _
    · intro hall
      have := hall k hk1 (by omega)
      rw [this] at hO
      exact absurd hO (by simp)
  · constructor
    · rintro ⟨k, hk1, hk2, hO⟩
      have := hL k hk1 (by omega)
      rw [this] at hO
      exact absurd hO (by simp)
    · intro _
      exact ⟨hK, hS⟩

/-- Witness for C2: on the window of 8 samples the walk breaks at index 2 and
the slider holds the new band count. -/
theorem C2_band_count_override_witness :
    (setFreqBreakpoints 8 freqArray20 coarseState).g_plSliderVal NUMBARS_SLIDER =
      ((setFreqBreakpoints 8 freqArray20 coarseState).g_uiNumDisplayBars : Int) :=
  ((C2_band_count_override 8 freqArray20 coarseState).1
    ⟨2, by decide, by decide, by decide⟩).2.2.2.2

theorem binCenter_coarse : binCenter 16000 8 0 = 1000 := by decide

/-- C3 (code defect): with a window of 8 samples at 16000 Hz, 40 Hz to
2000 Hz and 20 bars, every table whose first three targets lie below 1000 Hz
(as 40, 48 and 59 Hz do) makes `setFreqBreakpoints` return the band count 2
with the breakpoints 4294967295, 0, 4294967295: the count is reduced, but the
breakpoints are neither increasing nor inside `[0, 3]`. -/
theorem C3_coarse_window_breakpoints (freqArray : Nat → Int) (s : State)
    (hnum : s.hzNum = 16000) (hden : s.hzDen = 8) (hmax : s.g_uiMaxDisplayFreq = 2000)
    (hbars : s.g_uiNumDisplayBars = 20) (ht : ∀ j, j ≤ 2 → freqArray j < 1000) :
    (setFreqBreakpoints 8 freqArray s).g_uiNumDisplayBars = 2 ∧
    (setFreqBreakpoints 8 freqArray s).LEDFreqBreakpoints 0 = 4294967295 ∧
    (setFreqBreakpoints 8 freqArray s).LEDFreqBreakpoints 1 = 0 ∧
    (setFreqBreakpoints 8 freqArray s).LEDFreqBreakpoints 2 = 4294967295 := by
  have hraw : ∀ j, j ≤ 2 →
      scanTargets 16000 8 4 freqArray 21 0 s.LEDFreqBreakpoints j = 4294967295 := by
    intro j hj
    rw [scanTargets_apply, if_pos (by omega)]
    unfold scanValue
    rw [scanBins_first_bin _ _ _ 4 (by omega) (by rw [binCenter_coarse]; exact ht j hj)]
    exact toU32_neg_one
  have h0 := hraw 0 (by omega)
  have h1 := hraw 1 (by omega)
  have h2 := hraw 2 (by omega)
  unfold setFreqBreakpoints
  simp only [hnum, hden, hbars]
  have e4 : 8 / 2 = 4 := by norm_num
  rw [e4]
  have ho0 : ∀ t : State, t.g_uiMaxDisplayFreq = 2000 → t.hzNum = 16000 → t.hzDen = 8 →
      overMax t 0 = false := by
    intro t a b c
    unfold overMax
    rw [a, b, c]
    decide
  have ho1 : ∀ t : State, t.g_uiMaxDisplayFreq = 2000 → t.hzNum = 16000 → t.hzDen = 8 →
      overMax t 4294967295 = true := by
    intro t a b c
    unfold overMax
    rw [a, b, c]
    decide
  simp [repairWalk_succ, repairAt, store, GUIUpdateSlider, hmax, hnum, hden, h0,
    h1, h2, U32, ho0, ho1]

/-- Witness for C3: the table computed for 40 Hz to 2000 Hz over 20 bars. -/
theorem C3_coarse_window_breakpoints_witness :
    (coarseState.hzNum = 16000 ∧ coarseState.hzDen = 8 ∧
      coarseState.g_uiMaxDisplayFreq = 2000 ∧ coarseState.g_uiNumDisplayBars = 20 ∧
      ∀ j, j ≤ 2 → freqArray20 j < 1000) ∧
    (setFreqBreakpoints 8 freqArray20 coarseState).g_uiNumDisplayBars = 2 ∧
    (setFreqBreakpoints 8 freqArray20 coarseState).LEDFreqBreakpoints 0 = 4294967295 ∧
    (setFreqBreakpoints 8 freqArray20 coarseState).LEDFreqBreakpoints 1 = 0 ∧
    (setFreqBreakpoints 8 freqArray20 coarseState).LEDFreqBreakpoints 2 = 4294967295 :=
  ⟨⟨rfl, rfl, rfl, rfl, by decide⟩,
    C3_coarse_window_breakpoints freqArray20 coarseState rfl rfl rfl rfl (by decide)⟩

theorem zeroHistory_sliders :
    ∀ (fuel i : Nat) (s : State),
      (zeroHistory fuel i s).g_uiSamplingFreq = s.g_uiSamplingFreq ∧
      (zeroHistory fuel i s).g_uiNumDisplayBars = s.g_uiNumDisplayBars := by
  intro fuel
  induction fuel with
  | zero => intro i s; exact ⟨rfl, rfl⟩
  | succ n ih => intro i s; rw [zeroHistory]; exact ih (i + 1) _

theorem setFreqBreakpoints_eightBar (s : State) (h1 : s.hzNum = 26000)
    (h2 : s.hzDen = NUM_SAMPLES) (h3 : s.g_uiNumDisplayBars = 8) :
    setFreqBreakpoints NUM_SAMPLES freqArray8 s =
      repairWalk 8 1 { s with LEDFreqBreakpoints := fun k =>
        if k < 8 then ([2, 6, 12, 27, 56, 116, 240, 496] : List Nat).getD k 0
        else s.LEDFreqBreakpoints k } := by
  unfold setFreqBreakpoints
  simp only []
  have e : (8 : Nat) + 1 = 9 := rfl
  rw [h1, h2, h3, e, scanTargets_eightBar]

/-- The breakpoints and the band count after `InitDSP` at 26000 Hz with eight
bars: those of the repair walk over the cells the bin search stored. -/
theorem InitDSP_eightBar (s : State) (h1 : s.g_uiSamplingFreq = 26000)
    (h3 : s.g_uiNumDisplayBars = 8) :
    (InitDSP freqArray8 s).LEDFreqBreakpoints =
        (repairWalk 8 1 { withHzPerBin 26000 NUM_SAMPLES (zeroHistory 8 0 s) with
          LEDFreqBreakpoints := fun k =>
            if k < 8 then ([2, 6, 12, 27, 56, 116, 240, 496] : List Nat).getD k 0
            else (zeroHistory 8 0 s).LEDFreqBreakpoints k }).LEDFreqBreakpoints ∧
      (InitDSP freqArray8 s).g_uiNumDisplayBars =
        (repairWalk 8 1 { withHzPerBin 26000 NUM_SAMPLES (zeroHistory 8 0 s) with
          LEDFreqBreakpoints := fun k =>
            if k < 8 then ([2, 6, 12, 27, 56, 116, 240, 496] : List Nat).getD k 0
            else (zeroHistory 8 0 s).LEDFreqBreakpoints k }).g_uiNumDisplayBars := by
  have hf : (zeroHistory 8 0 s).g_uiSamplingFreq = 26000 :=
    (zeroHistory_sliders 8 0 s).1.trans h1
  have hb : (zeroHistory 8 0 s).g_uiNumDisplayBars = 8 := (zeroHistory_sliders 8 0 s).2.trans h3
  have h := setFreqBreakpoints_eightBar
    (withHzPerBin (zeroHistory 8 0 s).g_uiSamplingFreq NUM_SAMPLES (zeroHistory 8 0 s)) hf rfl hb
  unfold InitDSP
  simp only []
  rw [h3]
  unfold withHzPerBin at h ⊢
  rw [h]
  split <;>
  · rw [hf]
    exact ⟨rfl, rfl⟩

/-- C4 (code defect): two runs of `InitDSP` on the same sliders (40 Hz to
13000 Hz, 8 bars, 26000 Hz) end with different breakpoints when the cell
`LEDFreqBreakpoints[8]` differs beforehand.  The last target lies above every
bin centre, so the bin search assigns nothing to that cell, and the zeroing
loop of `InitDSP` stops one cell short of it. -/
theorem C4_stale_breakpoint_survives :
    (InitDSP freqArray8 eightBarState).LEDFreqBreakpoints 8 = 497 ∧
    (InitDSP freqArray8 eightBarStaleState).LEDFreqBreakpoints 8 = 4294967295 ∧
    (InitDSP freqArray8 eightBarState).g_uiNumDisplayBars = 8 ∧
    (InitDSP freqArray8 eightBarStaleState).g_uiNumDisplayBars = 8 ∧
    scanBins 26000 NUM_SAMPLES (freqArray8 8) (NUM_SAMPLES / 2) 0 = none := by
  obtain ⟨a1, b1⟩ := InitDSP_eightBar eightBarState rfl rfl
  obtain ⟨a2, b2⟩ := InitDSP_eightBar eightBarStaleState rfl rfl
  have e : NUM_SAMPLES / 2 = 1023 + 1 := by decide
  rw [a1, b1, a2, b2, e]
  exact ⟨by decide, by decide, by decide, by decide, scanBins_none _ _ _ _ _ (by decide)⟩

/-! ## The band loop of `ProcessData` -/

theorem bandStep_fields (sp : Nat → ℚ) (i j : Nat) (s : State) :
    (bandStep sp i j s).LEDFreqBreakpoints = s.LEDFreqBreakpoints ∧
    (bandStep sp i j s).g_uiNumDisplayBars = s.g_uiNumDisplayBars ∧
    (bandStep sp i j s).g_ucDMAMethod = s.g_ucDMAMethod :=
  ⟨rfl, rfl, rfl⟩

theorem bandLoop_fields (sp : Nat → ℚ) :
    ∀ (fuel i j : Nat) (s : State),
      (bandLoop sp fuel i j s).LEDFreqBreakpoints = s.LEDFreqBreakpoints ∧
      (bandLoop sp fuel i j s).g_uiNumDisplayBars = s.g_uiNumDisplayBars ∧
      (bandLoop sp fuel i j s).g_ucDMAMethod = s.g_ucDMAMethod := by
  intro fuel
  induction fuel with
  | zero => intro i j s; exact ⟨rfl, rfl, rfl⟩
  | succ n ih =>
    intro i j s
    rw [bandLoop]
    exact ih _ _ _

theorem bandStep_at (sp : Nat → ℚ) (k j : Nat) (s : State) :
    (bandStep sp (k + 1) j s).LEDPower k =
      arm_mean_f32 sp j (blockSize (s.LEDFreqBreakpoints (k + 1)) j) ∧
    (bandStep sp (k + 1) j s).maxLEDPowers (k : Int) =
      runningMax (s.maxLEDPowers (k : Int))
        (arm_mean_f32 sp j (blockSize (s.LEDFreqBreakpoints (k + 1)) j)) ∧
    (bandStep sp (k + 1) j s).LEDDisplay k =
      barHeight (arm_mean_f32 sp j (blockSize (s.LEDFreqBreakpoints (k + 1)) j))
        (runningMax (s.maxLEDPowers (k : Int))
          (arm_mean_f32 sp j (blockSize (s.LEDFreqBreakpoints (k + 1)) j))) := by
  have hidx : ((k + 1 : Nat) : Int) - 1 = (k : Int) := by push_cast; ring
  unfold bandStep
  simp only [hidx, Nat.add_sub_cancel, store_same]
  cases arm_mean_f32 sp j (blockSize (s.LEDFreqBreakpoints (k + 1)) j) with
  | none => simp [runningMax]
  | some p =>
    by_cases hlt : s.maxLEDPowers (k : Int) < p
    · simp [runningMax, hlt, storeZ_same]
    · simp [runningMax, hlt]

theorem bandStep_other (sp : Nat → ℚ) (i j : Nat) (s : State) (k : Nat) (hk : k + 1 ≠ i)
    (hi : 1 ≤ i) :
    (bandStep sp i j s).LEDPower k = s.LEDPower k ∧
    (bandStep sp i j s).maxLEDPowers (k : Int) = s.maxLEDPowers (k : Int) ∧
    (bandStep sp i j s).LEDDisplay k = s.LEDDisplay k := by
  have h1 : k ≠ i - 1 := by omega
  have h2 : (k : Int) ≠ (i : Int) - 1 := by omega
  unfold bandStep
  refine ⟨store_other _ _ _ _ h1, ?_, store_other _ _ _ _ h1⟩
  simp only []
  cases arm_mean_f32 sp j (blockSize (s.LEDFreqBreakpoints i) j) with
  | none => rfl
  | some p =>
    simp only []
    split
    · exact storeZ_other _ _ _ _ h2
    · rfl

theorem bandLoop_frame (sp : Nat → ℚ) :
    ∀ (fuel i j : Nat) (s : State) (k : Nat), 1 ≤ i → k + 1 < i →
      (bandLoop sp fuel i j s).LEDPower k = s.LEDPower k ∧
      (bandLoop sp fuel i j s).maxLEDPowers (k : Int) = s.maxLEDPowers (k : Int) ∧
      (bandLoop sp fuel i j s).LEDDisplay k = s.LEDDisplay k := by
  intro fuel
  induction fuel with
  | zero => intro i j s k _ _; exact ⟨rfl, rfl, rfl⟩
  | succ n ih =>
    intro i j s k hi hk
    rw [bandLoop]
    obtain ⟨a1, a2, a3⟩ := ih (i + 1) ((s.LEDFreqBreakpoints i + 1) % U32) (bandStep sp i j s) k
      (by omega) (by omega)
    obtain ⟨b1, b2, b3⟩ := bandStep_other sp i j s k (by omega) hi
    exact ⟨a1.trans b1, a2.trans b2, a3.trans b3⟩

theorem lowBin_succ (bp : Nat → Nat) (k : Nat) : lowBin bp (k + 1) = (bp (k + 1) + 1) % U32 := by
  simp [lowBin]

/-- What the band loop leaves for every band it visits. -/
theorem bandLoop_band (sp : Nat → ℚ) :
    ∀ (fuel k0 j : Nat) (s : State) (k : Nat), j = lowBin s.LEDFreqBreakpoints k0 →
      k0 ≤ k → k < k0 + fuel →
      (bandLoop sp fuel (k0 + 1) j s).LEDPower k = bandPower sp s.LEDFreqBreakpoints k ∧
      (bandLoop sp fuel (k0 + 1) j s).maxLEDPowers (k : Int) =
        runningMax (s.maxLEDPowers (k : Int)) (bandPower sp s.LEDFreqBreakpoints k) ∧
      (bandLoop sp fuel (k0 + 1) j s).LEDDisplay k =
        barHeight (bandPower sp s.LEDFreqBreakpoints k)
          (runningMax (s.maxLEDPowers (k : Int)) (bandPower sp s.LEDFreqBreakpoints k)) := by
  intro fuel
  induction fuel with
  | zero => intro k0 j s k _ h1 h2; omega
  | succ n ih =>
    intro k0 j s k hj h1 h2
    rw [bandLoop]
    by_cases hk : k = k0
    · subst hk
      obtain ⟨a1, a2, a3⟩ := bandLoop_frame sp n (k + 1 + 1)
        ((s.LEDFreqBreakpoints (k + 1) + 1) % U32) (bandStep sp (k + 1) j s) k (by omega)
        (by omega)
      obtain ⟨b1, b2, b3⟩ := bandStep_at sp k j s
      rw [a1, a2, a3, b1, b2, b3]
      subst hj
      exact ⟨rfl, rfl, rfl⟩
    · obtain ⟨a1, a2, a3⟩ := ih (k0 + 1) ((s.LEDFreqBreakpoints (k0 + 1) + 1) % U32)
        (bandStep sp (k0 + 1) j s) k (by rw [lowBin_succ]; rfl) (by omega) (by omega)
      obtain ⟨_, b2, _⟩ := bandStep_other sp (k0 + 1) j s k (by omega) (by omega)
      rw [a1, a2, a3, b2]
      exact ⟨rfl, rfl, rfl⟩

theorem ProcessData_fields (sp : Nat → ℚ) (s : State) :
    (ProcessData sp s).LEDFreqBreakpoints = s.LEDFreqBreakpoints ∧
    (ProcessData sp s).g_uiNumDisplayBars = s.g_uiNumDisplayBars := by
  unfold ProcessData
  simp only []
  split <;> split <;> simp [armTransfer, bandLoop_fields] <;> split <;> simp [bandLoop_fields]

/-- What one `ProcessData` cycle leaves for band `k` (counted from 0). -/
theorem ProcessData_band (sp : Nat → ℚ) (s : State) (k : Nat) (hk : k < s.g_uiNumDisplayBars) :
    (ProcessData sp s).LEDPower k = bandPower sp s.LEDFreqBreakpoints k ∧
    (ProcessData sp s).maxLEDPowers (k : Int) =
      runningMax (s.maxLEDPowers (k : Int)) (bandPower sp s.LEDFreqBreakpoints k) ∧
    (ProcessData sp s).LEDDisplay k =
      barHeight (bandPower sp s.LEDFreqBreakpoints k)
        (runningMax (s.maxLEDPowers (k : Int)) (bandPower sp s.LEDFreqBreakpoints k)) := by
  have key : ∀ t : State, t.LEDFreqBreakpoints = s.LEDFreqBreakpoints →
      t.maxLEDPowers = s.maxLEDPowers → t.g_uiNumDisplayBars = s.g_uiNumDisplayBars →
      (bandLoop sp t.g_uiNumDisplayBars 1 (t.LEDFreqBreakpoints 0) t).LEDPower k =
        bandPower sp s.LEDFreqBreakpoints k ∧
      (bandLoop sp t.g_uiNumDisplayBars 1 (t.LEDFreqBreakpoints 0) t).maxLEDPowers (k : Int) =
        runningMax (s.maxLEDPowers (k : Int)) (bandPower sp s.LEDFreqBreakpoints k) ∧
      (bandLoop sp t.g_uiNumDisplayBars 1 (t.LEDFreqBreakpoints 0) t).LEDDisplay k =
        barHeight (bandPower sp s.LEDFreqBreakpoints k)
          (runningMax (s.maxLEDPowers (k : Int)) (bandPower sp s.LEDFreqBreakpoints k)) := by
    intro t h1 h2 h3
    have := bandLoop_band sp t.g_uiNumDisplayBars 0 (t.LEDFreqBreakpoints 0) t k
      (by simp [lowBin]) (by omega) (by omega)
    rw [h1, h2] at this
    rw [h1]
    exact this
  unfold ProcessData
  simp only []
  by_cases hm : s.g_ucDMAMethod = DMA_METHOD_SLOW
  · rw [if_pos hm]
    have hk2 := key { s with g_ucDataReady := 0 } rfl rfl rfl
    split
    · split <;> exact hk2
    · exact hk2
  · rw [if_neg hm]
    have hk2 := key s rfl rfl rfl
    split
    · split <;> exact hk2
    · exact hk2

theorem intensity_zero_max (p : Option ℚ) : intensity p 0 = none := by
  cases p <;> simp [intensity, fdiv]

theorem barHeight_zero_max (p : Option ℚ) : barHeight p 0 = none := by
  simp [barHeight, intensity_zero_max]

theorem truncToInt_unit (q : ℚ) (h0 : 0 ≤ q) (h1 : q ≤ 1) :
    0 ≤ truncToInt (q * 185) ∧ truncToInt (q * 185) ≤ 185 := by
  have hq : 0 ≤ q * 185 := by positivity
  unfold truncToInt
  rw [if_pos hq]
  constructor
  · exact Int.floor_nonneg.mpr hq
  · have : q * 185 ≤ ((185 : Int) : ℚ) := by push_cast; linarith
    exact (Int.floor_le_floor this).trans (le_of_eq (Int.floor_intCast 185))

/-- The bar height for band power 15 under a running maximum of 185: the
`float` quotient is below `15 / 185`, the `float` product with 185 is below
15, and the stored height is 14. -/
theorem barHeight_rounds_down : barHeight (some 15) 185 = some 14 := by
  have e1 : roundQ ((15 : ℚ) / 185) = 5441259 / 67108864 := by
    have h := roundQ_div_coprime 3 37 (by norm_num) (by norm_num)
    have e : roundF32 3 37 = (10882518, 134217728) := by decide
    rw [e] at h
    have e0 : (15 : ℚ) / 185 = ((3 : Nat) : ℚ) / ((37 : Nat) : ℚ) := by norm_num
    rw [e0, h]
    norm_num [fracVal]
  have e2 : roundQ ((5441259 : ℚ) / 67108864 * 185) = 15728639 / 1048576 := by
    have h := roundQ_div_coprime 1006632915 67108864 (by norm_num) (by norm_num)
    have e : roundF32 1006632915 67108864 = (15728639, 1048576) := by decide
    rw [e] at h
    have e0 : (5441259 : ℚ) / 67108864 * 185 =
        ((1006632915 : Nat) : ℚ) / ((67108864 : Nat) : ℚ) := by norm_num
    rw [e0, h]
    norm_num [fracVal]
  have e3 : truncToInt ((15728639 : ℚ) / 1048576) = 14 := by
    unfold truncToInt
    rw [if_pos (by norm_num)]
    rw [Int.floor_eq_iff]
    constructor <;> norm_num
  have hne : (185 : ℚ) ≠ 0 := by norm_num
  simp only [barHeight, intensity, fdiv, if_neg hne, Option.bind, Option.map, e1, e2, e3]
  rfl

/-! ## Claims on the gain control -/

theorem strictBreakpoints_twoBand :
    StrictBreakpoints twoBandState.LEDFreqBreakpoints twoBandState.g_uiNumDisplayBars := by
  unfold StrictBreakpoints
  decide

theorem zeroHistory_max :
    ∀ (fuel i : Nat) (s : State) (z : Int),
      (zeroHistory fuel i s).maxLEDPowers z =
        if (i : Int) ≤ z ∧ z < (i : Int) + fuel then 0 else s.maxLEDPowers z := by
  intro fuel
  induction fuel with
  | zero =>
    intro i s z
    have : ¬ ((i : Int) ≤ z ∧ z < (i : Int) + (0 : Nat)) := by omega
    rw [zeroHistory, if_neg this]
  | succ n ih =>
    intro i s z
    rw [zeroHistory, ih]
    simp only [storeZ]
    by_cases hz : z = (i : Int)
    · have h1 : ¬ (((i + 1 : Nat) : Int) ≤ z ∧ z < ((i + 1 : Nat) : Int) + (n : Int)) := by
        omega
      have h2 : (i : Int) ≤ z ∧ z < (i : Int) + ((n + 1 : Nat) : Int) := by omega
      rw [if_neg h1, if_pos h2, if_pos hz]
    · by_cases hr : ((i + 1 : Nat) : Int) ≤ z ∧ z < ((i + 1 : Nat) : Int) + (n : Int)
      · have h2 : (i : Int) ≤ z ∧ z < (i : Int) + ((n + 1 : Nat) : Int) := by omega
        rw [if_pos hr, if_pos h2]
      · have h2 : ¬ ((i : Int) ≤ z ∧ z < (i : Int) + ((n + 1 : Nat) : Int)) := by omega
        rw [if_neg hr, if_neg h2, if_neg hz]

theorem zeroHistory_bars :
    ∀ (fuel i : Nat) (s : State),
      (zeroHistory fuel i s).g_uiNumDisplayBars = s.g_uiNumDisplayBars := by
  intro fuel
  induction fuel with
  | zero => intro i s; rfl
  | succ n ih => intro i s; rw [zeroHistory, ih]

theorem repairWalk_max :
    ∀ (fuel i : Nat) (s : State), (repairWalk fuel i s).maxLEDPowers = s.maxLEDPowers := by
  intro fuel
  induction fuel with
  | zero => intro i s; rfl
  | succ n ih =>
    intro i s
    rw [repairWalk_succ]
    split
    · rfl
    · exact ih (i + 1) _

theorem InitDSP_max (freqArray : Nat → Int) (s : State) (k : Nat)
    (hk : k < s.g_uiNumDisplayBars) : (InitDSP freqArray s).maxLEDPowers (k : Int) = 0 := by
  have hz := zeroHistory_max s.g_uiNumDisplayBars 0 s (k : Int)
  rw [if_pos (by omega)] at hz
  unfold InitDSP
  simp only []
  split <;>
  · simp only [setFreqBreakpoints, repairWalk_max]
    exact hz

theorem arm_mean_zeroSpectrum (j n : Nat) :
    arm_mean_f32 zeroSpectrum j n = none ∨ arm_mean_f32 zeroSpectrum j n = some 0 := by
  unfold arm_mean_f32 fdiv
  split
  · exact Or.inl rfl
  · right
    have : (List.map (fun t => zeroSpectrum (j + t)) (List.range n)).sum = 0 := by
      apply List.sum_eq_zero
      intro x hx
      rw [List.mem_map] at hx
      obtain ⟨t, _, rfl⟩ := hx
      rfl
    rw [this, zero_div]

theorem runningMax_zeroSpectrum (bp : Nat → Nat) (k : Nat) :
    runningMax 0 (bandPower zeroSpectrum bp k) = 0 := by
  unfold bandPower
  rcases arm_mean_zeroSpectrum (lowBin bp k) (blockSize (bp (k + 1)) (lowBin bp k)) with h | h
    <;> rw [h] <;> simp [runningMax]

theorem InitDSP_eightBar_bars : (InitDSP freqArray8 eightBarState).g_uiNumDisplayBars = 8 := by
  rw [(InitDSP_eightBar eightBarState rfl rfl).2]
  decide

/-- `ProcessData` divides `LEDPower[k]` by `maxLEDPowers[k]` without a guard:
when the running maximum of a band is zero at normalisation the quotient does
not exist, and `LEDDisplay[k]` receives the conversion of an undefined
value. -/
theorem ProcessData_zero_maximum (sp : Nat → ℚ) (s : State) (k : Nat)
    (hk : k < s.g_uiNumDisplayBars)
    (hzero : (ProcessData sp s).maxLEDPowers (k : Int) = 0) :
    intensity ((ProcessData sp s).LEDPower k) ((ProcessData sp s).maxLEDPowers (k : Int))
      = none ∧
    (ProcessData sp s).LEDDisplay k = none := by
  obtain ⟨_, b2, b3⟩ := ProcessData_band sp s k hk
  rw [b3, ← b2, hzero]
  exact ⟨intensity_zero_max _, barHeight_zero_max _⟩

/-- C6 (code defect): in the first `ProcessData` cycle after `InitDSP` on the
all-zero spectrum, the running maximum of band 0 is zero at normalisation and
the code divides by it: the quotient `0/0` is no intensity, and the value
stored in `LEDDisplay[0]` is the conversion of that undefined quotient, not a
guarded 0. -/
theorem C6_first_cycle_divides_by_zero :
    (ProcessData zeroSpectrum (InitDSP freqArray8 eightBarState)).maxLEDPowers ((0 : Nat) : Int)
      = 0 ∧
    intensity ((ProcessData zeroSpectrum (InitDSP freqArray8 eightBarState)).LEDPower 0)
      ((ProcessData zeroSpectrum (InitDSP freqArray8 eightBarState)).maxLEDPowers
        ((0 : Nat) : Int)) = none ∧
    (ProcessData zeroSpectrum (InitDSP freqArray8 eightBarState)).LEDDisplay 0 = none ∧
    (ProcessData zeroSpectrum (InitDSP freqArray8 eightBarState)).LEDDisplay 0 ≠ some 0 := by
  have hmax0 : (InitDSP freqArray8 eightBarState).maxLEDPowers ((0 : Nat) : Int) = 0 :=
    InitDSP_max freqArray8 eightBarState 0 (by decide)
  obtain ⟨b1, b2, b3⟩ := ProcessData_band zeroSpectrum (InitDSP freqArray8 eightBarState) 0
    (by rw [InitDSP_eightBar_bars]; decide)
  rw [hmax0, runningMax_zeroSpectrum] at b2 b3
  rw [b2, b3, intensity_zero_max, barHeight_zero_max]
  exact ⟨rfl, rfl, rfl, by simp⟩

theorem cycles_fields (spectra : Nat → Nat → ℚ) (s : State) :
    ∀ n, (cycles spectra n s).LEDFreqBreakpoints = s.LEDFreqBreakpoints ∧
      (cycles spectra n s).g_uiNumDisplayBars = s.g_uiNumDisplayBars := by
  intro n
  induction n with
  | zero => exact ⟨rfl, rfl⟩
  | succ m ih =>
    rw [cycles]
    obtain ⟨h1, h2⟩ := ProcessData_fields (spectra m) (cycles spectra m s)
    exact ⟨h1.trans ih.1, h2.trans ih.2⟩

theorem barHeight_full (p : ℚ) (hp : 0 < p) : barHeight (some p) p = some 185 := by
  have hne : p ≠ 0 := ne_of_gt hp
  have h185 : truncToInt (185 : ℚ) = 185 := by
    unfold truncToInt
    rw [if_pos (by norm_num)]
    exact Int.floor_intCast 185
  simp only [barHeight, intensity, fdiv, if_neg hne, Option.bind, Option.map, div_self hne,
    roundQ_one, one_mul, roundQ_185, h185]
  rfl

/-- A cycle whose band power exceeds the running maximum: the maximum becomes
that power and the bar is full. -/
theorem ProcessData_new_peak (sp : Nat → ℚ) (s : State) (k : Nat) (p : ℚ)
    (hk : k < s.g_uiNumDisplayBars) (hp : bandPower sp s.LEDFreqBreakpoints k = some p)
    (hpos : 0 < p) (hlt : s.maxLEDPowers (k : Int) < p) :
    (ProcessData sp s).maxLEDPowers (k : Int) = p ∧
    (ProcessData sp s).LEDPower k = some p ∧
    (ProcessData sp s).LEDDisplay k = some 185 := by
  obtain ⟨b1, b2, b3⟩ := ProcessData_band sp s k hk
  have hm : runningMax (s.maxLEDPowers (k : Int)) (some p) = p := by
    simp [runningMax, hlt]
  rw [hp, hm] at b2 b3
  rw [hp] at b1
  exact ⟨b2, b1, b3.trans (barHeight_full p hpos)⟩

/-- C7: a band whose power rises strictly from cycle to cycle, starting from
running maximum 0 with no decay tick in between, has after every cycle a
running maximum equal to that cycle's power, intensity 1 and
`LEDDisplay = 185`. -/
theorem C7_rising_power_tracked (s0 : State) (spectra : Nat → Nat → ℚ) (k : Nat)
    (p : Nat → ℚ) (hk : k < s0.g_uiNumDisplayBars)
    (hzero : s0.maxLEDPowers (k : Int) = 0) (hpos : ∀ n, 0 < p n)
    (hinc : ∀ n, p n < p (n + 1))
    (hfed : ∀ n, bandPower (spectra n) s0.LEDFreqBreakpoints k = some (p n)) :
    ∀ n, (cycles spectra (n + 1) s0).maxLEDPowers (k : Int) = p n ∧
      (cycles spectra (n + 1) s0).LEDPower k = some (p n) ∧
      intensity ((cycles spectra (n + 1) s0).LEDPower k)
        ((cycles spectra (n + 1) s0).maxLEDPowers (k : Int)) = some 1 ∧
      (cycles spectra (n + 1) s0).LEDDisplay k = some 185 := by
  have step : ∀ n, (cycles spectra n s0).maxLEDPowers (k : Int) < p n →
      (cycles spectra (n + 1) s0).maxLEDPowers (k : Int) = p n ∧
      (cycles spectra (n + 1) s0).LEDPower k = some (p n) ∧
      intensity ((cycles spectra (n + 1) s0).LEDPower k)
        ((cycles spectra (n + 1) s0).maxLEDPowers (k : Int)) = some 1 ∧
      (cycles spectra (n + 1) s0).LEDDisplay k = some 185 := by
    intro n hlt
    obtain ⟨f1, f2⟩ := cycles_fields spectra s0 n
    obtain ⟨a1, a2, a3⟩ := ProcessData_new_peak (spectra n) (cycles spectra n s0) k (p n)
      (by rw [f2]; exact hk) (by rw [f1]; exact hfed n) (hpos n) hlt
    have hne : p n ≠ 0 := ne_of_gt (hpos n)
    refine ⟨a1, a2, ?_, a3⟩
    show intensity ((ProcessData (spectra n) (cycles spectra n s0)).LEDPower k)
      ((ProcessData (spectra n) (cycles spectra n s0)).maxLEDPowers (k : Int)) = some 1
    rw [a1, a2]
    simp [intensity, fdiv, hne, roundQ_one]
  intro n
  induction n with
  | zero =>
    apply step 0
    show s0.maxLEDPowers (k : Int) < p 0
    rw [hzero]
    exact hpos 0
  | succ m ih =>
    apply step (m + 1)
    rw [ih.1]
    exact hinc m

theorem bandPower_ramp_twoBand (n : Nat) :
    bandPower (rampSpectra n) twoBandState.LEDFreqBreakpoints 0 = some ((n : ℚ) + 1) := by
  simp [bandPower, arm_mean_f32, fdiv, lowBin, blockSize, twoBandState, rampSpectra, U32]
  ring

/-- Witness for C7: the first of two bands fed flat spectra of magnitude 1, 2,
3, ...; after the third cycle the running maximum is 3 and the bar is full. -/
theorem C7_rising_power_tracked_witness :
    (0 < twoBandState.g_uiNumDisplayBars ∧
      twoBandState.maxLEDPowers ((0 : Nat) : Int) = 0 ∧
      (∀ n : Nat, (0 : ℚ) < (n : ℚ) + 1) ∧
      (∀ n : Nat, (n : ℚ) + 1 < ((n + 1 : Nat) : ℚ) + 1) ∧
      ∀ n, bandPower (rampSpectra n) twoBandState.LEDFreqBreakpoints 0 = some ((n : ℚ) + 1)) ∧
    (cycles rampSpectra 3 twoBandState).maxLEDPowers ((0 : Nat) : Int) = ((2 : Nat) : ℚ) + 1 ∧
    (cycles rampSpectra 3 twoBandState).LEDDisplay 0 = some 185 :=
  ⟨⟨by decide, rfl, fun n => by positivity, fun n => by push_cast; linarith,
      bandPower_ramp_twoBand⟩,
    (C7_rising_power_tracked twoBandState rampSpectra 0 (fun n => (n : ℚ) + 1) (by decide) rfl
      (fun n => by positivity) (fun n => by push_cast; linarith) bandPower_ramp_twoBand 2).1,
    (C7_rising_power_tracked twoBandState rampSpectra 0 (fun n => (n : ℚ) + 1) (by decide) rfl
      (fun n => by positivity) (fun n => by push_cast; linarith) bandPower_ramp_twoBand
      2).2.2.2⟩

/-! ## The decay tick -/

theorem decayLoop_apply :
    ∀ (fuel i : Nat) (m : Int → ℚ) (z : Int),
      decayLoop fuel i m z =
        if (i : Int) - 1 ≤ z ∧ z < (i : Int) - 1 + fuel then m z * POWER_DECAY_FACTOR
        else m z := by
  intro fuel
  induction fuel with
  | zero =>
    intro i m z
    have : ¬ ((i : Int) - 1 ≤ z ∧ z < (i : Int) - 1 + (0 : Nat)) := by omega
    rw [decayLoop, if_neg this]
  | succ n ih =>
    intro i m z
    rw [decayLoop, ih]
    simp only [storeZ]
    by_cases hz : z = (i : Int) - 1
    · have h1 : ¬ (((i + 1 : Nat) : Int) - 1 ≤ z ∧ z < ((i + 1 : Nat) : Int) - 1 + (n : Int)) := by
        omega
      have h2 : (i : Int) - 1 ≤ z ∧ z < (i : Int) - 1 + ((n + 1 : Nat) : Int) := by omega
      rw [if_neg h1, if_pos h2, if_pos hz, hz]
    · by_cases hr : ((i + 1 : Nat) : Int) - 1 ≤ z ∧ z < ((i + 1 : Nat) : Int) - 1 + (n : Int)
      · have h2 : (i : Int) - 1 ≤ z ∧ z < (i : Int) - 1 + ((n + 1 : Nat) : Int) := by omega
        rw [if_pos hr, if_pos h2, if_neg hz]
      · have h2 : ¬ ((i : Int) - 1 ≤ z ∧ z < (i : Int) - 1 + ((n + 1 : Nat) : Int)) := by omega
        rw [if_neg hr, if_neg h2, if_neg hz]

/-- The cells a display refresh tick scales: index `-1` up to
`g_uiNumDisplayBars - 2`. -/
theorem Timer3AIntHandler_max (s : State) (z : Int) :
    (Timer3AIntHandler s).maxLEDPowers z =
      if -1 ≤ z ∧ z < (s.g_uiNumDisplayBars : Int) - 1 then
        s.maxLEDPowers z * POWER_DECAY_FACTOR
      else s.maxLEDPowers z := by
  unfold Timer3AIntHandler
  simp only []
  rw [decayLoop_apply]
  by_cases h : -1 ≤ z ∧ z < (s.g_uiNumDisplayBars : Int) - 1
  · rw [if_pos h, if_pos (by omega)]
  · rw [if_neg h, if_neg (by omega)]

theorem decayTicks_max :
    ∀ (T : Nat) (s : State) (z : Int),
      (decayTicks T s).g_uiNumDisplayBars = s.g_uiNumDisplayBars ∧
      (decayTicks T s).maxLEDPowers z =
        if -1 ≤ z ∧ z < (s.g_uiNumDisplayBars : Int) - 1 then
          s.maxLEDPowers z * POWER_DECAY_FACTOR ^ T
        else s.maxLEDPowers z := by
  intro T
  induction T with
  | zero => intro s z; simp [decayTicks]
  | succ n ih =>
    intro s z
    rw [decayTicks]
    obtain ⟨h1, h2⟩ := ih (Timer3AIntHandler s) z
    have hK : (Timer3AIntHandler s).g_uiNumDisplayBars = s.g_uiNumDisplayBars := rfl
    rw [hK] at h1 h2
    refine ⟨h1, ?_⟩
    rw [h2, Timer3AIntHandler_max]
    by_cases h : -1 ≤ z ∧ z < (s.g_uiNumDisplayBars : Int) - 1
    · rw [if_pos h, if_pos h, if_pos h, pow_succ]
      ring
    · rw [if_neg h, if_neg h, if_neg h]

/-- C8 (code defect): `T` display refresh ticks scale by `0.999 ^ T` the
running maxima of the bands `0..K-2` and the cell below the array, and leave
the running maximum of the last band `K-1` as it was. -/
theorem C8_last_band_never_decays (s : State) (T : Nat) (hK : 1 ≤ s.g_uiNumDisplayBars) :
    (decayTicks T s).maxLEDPowers ((s.g_uiNumDisplayBars : Int) - 1) =
      s.maxLEDPowers ((s.g_uiNumDisplayBars : Int) - 1) ∧
    (∀ k : Nat, k + 1 < s.g_uiNumDisplayBars →
      (decayTicks T s).maxLEDPowers (k : Int) =
        s.maxLEDPowers (k : Int) * POWER_DECAY_FACTOR ^ T) ∧
    (decayTicks T s).maxLEDPowers (-1) = s.maxLEDPowers (-1) * POWER_DECAY_FACTOR ^ T := by
  refine ⟨?_, ?_, ?_⟩
  · rw [(decayTicks_max T s _).2, if_neg (by omega)]
  · intro k hk
    rw [(decayTicks_max T s _).2, if_pos (by omega)]
  · rw [(decayTicks_max T s _).2, if_pos (by omega)]

/-- Witness for C8: eight bands with running maxima 1; after one tick band 7
still holds 1, not 0.999. -/
theorem C8_last_band_never_decays_witness :
    1 ≤ unitMaxState.g_uiNumDisplayBars ∧
    (decayTicks 1 unitMaxState).maxLEDPowers 7 = 1 ∧
    (decayTicks 1 unitMaxState).maxLEDPowers 6 = 999 / 1000 := by
  obtain ⟨h1, h2, _⟩ := C8_last_band_never_decays unitMaxState 1 (by decide)
  refine ⟨by decide, ?_, ?_⟩
  · exact h1
  · have := h2 6 (by decide)
    simpa [unitMaxState, powerOn, POWER_DECAY_FACTOR] using this

/-! ## Sample capture -/

theorem shiftLoop_apply :
    ∀ (fuel i : Nat) (v : Nat → Nat) (k : Nat),
      shiftLoop fuel i v k = if i ≤ k ∧ k < i + fuel then v (k + DMA_SIZE) else v k := by
  intro fuel
  induction fuel with
  | zero =>
    intro i v k
    have : ¬ (i ≤ k ∧ k < i + 0) := by omega
    rw [shiftLoop, if_neg this]
  | succ n ih =>
    intro i v k
    rw [shiftLoop, ih]
    simp only [store]
    split_ifs <;>
      first
        | (with_reducible rfl)
        | (exfalso; omega)
        | (subst_vars; with_reducible rfl)

theorem copyLoop_apply (src : Nat → Nat) :
    ∀ (fuel i : Nat) (v : Nat → Nat) (k : Nat),
      copyLoop src fuel i v k =
        if i + (NUM_SAMPLES - DMA_SIZE) ≤ k ∧ k < i + fuel + (NUM_SAMPLES - DMA_SIZE) then
          src (k - (NUM_SAMPLES - DMA_SIZE))
        else v k := by
  intro fuel
  induction fuel with
  | zero =>
    intro i v k
    have : ¬ (i + (NUM_SAMPLES - DMA_SIZE) ≤ k ∧ k < i + 0 + (NUM_SAMPLES - DMA_SIZE)) := by
      omega
    rw [copyLoop, if_neg this]
  | succ n ih =>
    intro i v k
    rw [copyLoop, ih]
    simp only [store]
    unfold NUM_SAMPLES DMA_SIZE
    split_ifs <;>
      first
        | (with_reducible rfl)
        | (exfalso; omega)
        | (apply congrArg; omega)

/-- The window after the shift and copy loops of the streaming branch. -/
theorem shift_copy_apply (src w : Nat → Nat) (k : Nat) :
    copyLoop src DMA_SIZE 0 (shiftLoop (NUM_SAMPLES - DMA_SIZE) 0 w) k =
      if k < NUM_SAMPLES - DMA_SIZE then w (k + DMA_SIZE)
      else if k < NUM_SAMPLES then src (k - (NUM_SAMPLES - DMA_SIZE))
      else w k := by
  rw [copyLoop_apply, shiftLoop_apply]
  unfold NUM_SAMPLES DMA_SIZE
  split_ifs <;>
    first
      | (with_reducible rfl)
      | (exfalso; omega)

/-- One delivery in a streaming state. -/
theorem deliver_streaming (s : State) (b : Nat → Nat) (hs : Streaming s) :
    Streaming (deliver s b) ∧ (deliver s b).g_ucDataReady = 1 ∧
    ∀ k, (deliver s b).g_ulADCValues k =
      if k < NUM_SAMPLES - DMA_SIZE then s.g_ulADCValues (k + DMA_SIZE)
      else if k < NUM_SAMPLES then b (k - (NUM_SAMPLES - DMA_SIZE))
      else s.g_ulADCValues k := by
  obtain ⟨hm, ho, hl, hd⟩ := hs
  by_cases hp : s.g_ucDMApingpong = 0
  · rw [if_pos hp] at hd
    refine ⟨?_, ?_, ?_⟩
    · simp [Streaming, deliver, dmaComplete, ADC3IntHandler, armTransfer, hm, hd, hp,
        DMA_METHOD_SLOW]
    · simp [deliver, dmaComplete, ADC3IntHandler, armTransfer, hm, hd, hp, DMA_METHOD_SLOW]
    · intro k
      have hw : (deliver s b).g_ulADCValues =
          copyLoop (dmaWrite 0 DMA_SIZE b s.g_usDMAping) DMA_SIZE 0
            (shiftLoop (NUM_SAMPLES - DMA_SIZE) 0 s.g_ulADCValues) := by
        simp [deliver, dmaComplete, ADC3IntHandler, armTransfer, hm, hd, hp, ho, hl,
          DMA_METHOD_SLOW]
      rw [hw, shift_copy_apply]
      unfold dmaWrite NUM_SAMPLES DMA_SIZE
      by_cases h1 : k < 2048 - 256
      · rw [if_pos h1, if_pos h1]
      · by_cases h2 : k < 2048
        · rw [if_neg h1, if_pos h2, if_neg h1, if_pos h2, if_pos (by omega)]
          exact congrArg b (by omega)
        · rw [if_neg h1, if_neg h2, if_neg h1, if_neg h2]
  · rw [if_neg hp] at hd
    refine ⟨?_, ?_, ?_⟩
    · simp [Streaming, deliver, dmaComplete, ADC3IntHandler, armTransfer, hm, hd, hp,
        DMA_METHOD_SLOW]
    · simp [deliver, dmaComplete, ADC3IntHandler, armTransfer, hm, hd, hp, DMA_METHOD_SLOW]
    · intro k
      have hw : (deliver s b).g_ulADCValues =
          copyLoop (dmaWrite 0 DMA_SIZE b s.g_usDMApong) DMA_SIZE 0
            (shiftLoop (NUM_SAMPLES - DMA_SIZE) 0 s.g_ulADCValues) := by
        simp [deliver, dmaComplete, ADC3IntHandler, armTransfer, hm, hd, hp, ho, hl,
          DMA_METHOD_SLOW]
      rw [hw, shift_copy_apply]
      unfold dmaWrite NUM_SAMPLES DMA_SIZE
      by_cases h1 : k < 2048 - 256
      · rw [if_pos h1, if_pos h1]
      · by_cases h2 : k < 2048
        · rw [if_neg h1, if_pos h2, if_neg h1, if_pos h2, if_pos (by omega)]
          exact congrArg b (by omega)
        · rw [if_neg h1, if_neg h2, if_neg h1, if_neg h2]

/-- The window after `m` deliveries in streaming mode. -/
theorem deliveries_streaming (blocks : Nat → Nat → Nat) (s : State) (hs : Streaming s) :
    ∀ m, Streaming (deliveries blocks m s) ∧
      ∀ k, k < NUM_SAMPLES →
        (deliveries blocks m s).g_ulADCValues k =
          if k + DMA_SIZE * m < NUM_SAMPLES then s.g_ulADCValues (k + DMA_SIZE * m)
          else blocks ((k + DMA_SIZE * m - NUM_SAMPLES) / DMA_SIZE)
            ((k + DMA_SIZE * m - NUM_SAMPLES) % DMA_SIZE) := by
  intro m
  induction m with
  | zero =>
    refine ⟨hs, ?_⟩
    intro k hk
    rw [if_pos (by omega)]
    rfl
  | succ n ih =>
    obtain ⟨hst, hw⟩ := ih
    obtain ⟨a1, _, a3⟩ := deliver_streaming (deliveries blocks n s) (blocks n) hst
    refine ⟨a1, ?_⟩
    intro k hk
    show (deliver (deliveries blocks n s) (blocks n)).g_ulADCValues k = _
    rw [a3]
    unfold NUM_SAMPLES at hk
    unfold NUM_SAMPLES DMA_SIZE at hw ⊢
    by_cases h1 : k < 2048 - 256
    · rw [if_pos h1, hw (k + 256) (by omega)]
      by_cases h2 : k + 256 + 256 * n < 2048
      · rw [if_pos h2, if_pos (by omega)]
        exact congrArg _ (by omega)
      · rw [if_neg h2, if_neg (by omega)]
        exact congrArg₂ blocks (by omega) (by omega)
    · rw [if_neg h1, if_pos hk, if_neg (by omega)]
      exact congrArg₂ blocks (by omega) (by omega)

/-- C9: in streaming mode every successful delivery of a block `b` replaces
the window `w` by `w[256..2047]` followed by `b` and sets `g_ucDataReady`;
after `m >= 8` deliveries the window holds the 2048 most recently delivered
samples in arrival order (sample `k` is sample `k % 256` of block
`m - 8 + k / 256`). -/
theorem C9_streaming_window (s : State) (hs : Streaming s) :
    (∀ b : Nat → Nat,
      (deliver s b).g_ucDataReady = 1 ∧
      (∀ k, k < NUM_SAMPLES - DMA_SIZE →
        (deliver s b).g_ulADCValues k = s.g_ulADCValues (k + DMA_SIZE)) ∧
      (∀ k, k < DMA_SIZE → (deliver s b).g_ulADCValues (NUM_SAMPLES - DMA_SIZE + k) = b k)) ∧
    (∀ (blocks : Nat → Nat → Nat) (m : Nat), NUM_SAMPLES / DMA_SIZE ≤ m →
      (deliveries blocks m s).g_ucDataReady = 1 ∧
      ∀ k, k < NUM_SAMPLES →
        (deliveries blocks m s).g_ulADCValues k =
          blocks (m - NUM_SAMPLES / DMA_SIZE + k / DMA_SIZE) (k % DMA_SIZE)) := by
  constructor
  · intro b
    obtain ⟨_, a2, a3⟩ := deliver_streaming s b hs
    refine ⟨a2, ?_, ?_⟩
    · intro k hk
      rw [a3, if_pos hk]
    · intro k hk
      rw [a3]
      unfold DMA_SIZE at hk
      unfold NUM_SAMPLES DMA_SIZE
      rw [if_neg (by omega), if_pos (by omega)]
      exact congrArg b (by omega)
  · intro blocks m hm
    unfold NUM_SAMPLES DMA_SIZE at hm
    obtain ⟨n, rfl⟩ : ∃ n, m = n + 1 := ⟨m - 1, by omega⟩
    constructor
    · exact (deliver_streaming (deliveries blocks n s) (blocks n)
        (deliveries_streaming blocks s hs n).1).2.1
    · intro k hk
      rw [(deliveries_streaming blocks s hs (n + 1)).2 k hk]
      unfold NUM_SAMPLES at hk
      unfold NUM_SAMPLES DMA_SIZE
      rw [if_neg (by omega)]
      exact congrArg₂ blocks (by omega) (by omega)

theorem streaming_after_init : Streaming (InitADC3Transfer powerOn) := by
  unfold Streaming
  decide

/-- Witness for C9: from `InitADC3Transfer` at reset with blocks numbered in
arrival order, after 9 deliveries the window starts with sample 256 of the
stream. -/
theorem C9_streaming_window_witness :
    Streaming (InitADC3Transfer powerOn) ∧
    (deliveries countingBlocks 9 (InitADC3Transfer powerOn)).g_ucDataReady = 1 ∧
    (deliveries countingBlocks 9 (InitADC3Transfer powerOn)).g_ulADCValues 0 = 256 ∧
    (deliveries countingBlocks 9 (InitADC3Transfer powerOn)).g_ulADCValues 2047 = 2303 := by
  obtain ⟨h1, h2⟩ := (C9_streaming_window (InitADC3Transfer powerOn) streaming_after_init).2
    countingBlocks 9 (by decide)
  refine ⟨streaming_after_init, h1, ?_, ?_⟩
  · rw [h2 0 (by decide)]
    decide
  · rw [h2 2047 (by decide)]
    decide

theorem dmaComplete_fields (b : Nat → Nat) (s : State) :
    (dmaComplete b s).dmaEnabled = false ∧ (dmaComplete b s).dmaRemaining = 0 ∧
    (dmaComplete b s).g_ucDMAMethod = s.g_ucDMAMethod ∧
    (dmaComplete b s).uluDMACount = s.uluDMACount ∧
    (dmaComplete b s).ulDataXferd = s.ulDataXferd ∧
    (dmaComplete b s).g_ucDataReady = s.g_ucDataReady := by
  unfold dmaComplete
  cases s.dmaDst <;> exact ⟨rfl, rfl, rfl, rfl, rfl, rfl⟩

/-- A batch-mode completion that leaves part of the window to fill: the next
transfer is armed behind the samples captured so far and the ready flag is
not touched. -/
theorem deliver_batch_partial (s : State) (b : Nat → Nat)
    (hfast : s.g_ucDMAMethod ≠ DMA_METHOD_SLOW)
    (hx : (s.ulDataXferd + UDMA_XFER_MAX) % U32 < NUM_SAMPLES) :
    (deliver s b).g_ucDataReady = s.g_ucDataReady ∧
    (deliver s b).uluDMACount = (s.uluDMACount + 1) % U32 ∧
    (deliver s b).ulDataXferd = (s.ulDataXferd + UDMA_XFER_MAX) % U32 ∧
    (deliver s b).g_ucDMAMethod = s.g_ucDMAMethod ∧
    (deliver s b).dmaDst = DmaBuf.adcValues ∧
    (deliver s b).dmaOffset = UDMA_XFER_MAX * ((s.uluDMACount + 1) % U32) ∧
    (deliver s b).dmaEnabled = true := by
  obtain ⟨h1, h2, h3, h4, h5, h6⟩ := dmaComplete_fields b s
  have hx2 : NUM_SAMPLES > ((dmaComplete b s).ulDataXferd + UDMA_XFER_MAX) % U32 := by
    rw [h5]; exact hx
  have hm : ¬ (dmaComplete b s).g_ucDMAMethod = DMA_METHOD_SLOW := by rw [h3]; exact hfast
  unfold deliver ADC3IntHandler
  rw [if_neg (by rw [h1]; simp), if_neg (by rw [h2]; simp), if_neg hm]
  dsimp only
  rw [if_pos hx2]
  rw [← h4, ← h5, ← h6, ← h3]
  exact ⟨rfl, rfl, rfl, rfl, rfl, rfl, rfl⟩

/-- The batch-mode completion that fills the window: nothing is armed, the
counters are reset and the ready flag is set. -/
theorem deliver_batch_final (s : State) (b : Nat → Nat)
    (hfast : s.g_ucDMAMethod ≠ DMA_METHOD_SLOW)
    (hx : ¬ (s.ulDataXferd + UDMA_XFER_MAX) % U32 < NUM_SAMPLES) :
    (deliver s b).g_ucDataReady = 1 ∧ (deliver s b).uluDMACount = 0 ∧
    (deliver s b).ulDataXferd = 0 ∧ (deliver s b).dmaEnabled = false := by
  obtain ⟨h1, h2, h3, h4, h5, h6⟩ := dmaComplete_fields b s
  have hx2 : ¬ NUM_SAMPLES > ((dmaComplete b s).ulDataXferd + UDMA_XFER_MAX) % U32 := by
    rw [h5]; exact hx
  have hm : ¬ (dmaComplete b s).g_ucDMAMethod = DMA_METHOD_SLOW := by rw [h3]; exact hfast
  unfold deliver ADC3IntHandler
  rw [if_neg (by rw [h1]; simp), if_neg (by rw [h2]; simp), if_neg hm]
  dsimp only
  rw [if_neg hx2]
  exact ⟨rfl, rfl, rfl, h1⟩

/-- C10: in batch mode, starting with the transfer count and fill offset at
zero, `g_ucDataReady` is not written by any completion before the
`ceil(NUM_SAMPLES / UDMA_XFER_MAX)`-th (the 2nd), which sets it and resets
`uluDMACount` and `ulDataXferd` to zero; the completion before it arms the
second half of the window. -/
theorem C10_batch_ready_on_last_transfer (s : State) (blocks : Nat → Nat → Nat)
    (hfast : s.g_ucDMAMethod ≠ DMA_METHOD_SLOW) (hc : s.uluDMACount = 0)
    (hx : s.ulDataXferd = 0) :
    transfersPerWindow = 2 ∧
    (∀ m, m < transfersPerWindow →
      (deliveries blocks m s).g_ucDataReady = s.g_ucDataReady ∧
      (deliveries blocks m s).uluDMACount = m ∧
      (deliveries blocks m s).ulDataXferd = UDMA_XFER_MAX * m) ∧
    ((deliveries blocks 1 s).dmaDst = DmaBuf.adcValues ∧
      (deliveries blocks 1 s).dmaOffset = UDMA_XFER_MAX ∧
      (deliveries blocks 1 s).dmaEnabled = true) ∧
    (deliveries blocks transfersPerWindow s).g_ucDataReady = 1 ∧
    (deliveries blocks transfersPerWindow s).uluDMACount = 0 ∧
    (deliveries blocks transfersPerWindow s).ulDataXferd = 0 := by
  have htw : transfersPerWindow = 2 := by decide
  have hx0 : (s.ulDataXferd + UDMA_XFER_MAX) % U32 < NUM_SAMPLES := by
    rw [hx]; decide
  obtain ⟨a1, a2, a3, a4, a5, a6, a7⟩ := deliver_batch_partial s (blocks 0) hfast hx0
  rw [hc] at a2 a6
  rw [hx] at a3
  have e1 : deliveries blocks 1 s = deliver s (blocks 0) := rfl
  have hx1 : ¬ ((deliver s (blocks 0)).ulDataXferd + UDMA_XFER_MAX) % U32 < NUM_SAMPLES := by
    rw [a3]; decide
  obtain ⟨b1, b2, b3, _⟩ := deliver_batch_final (deliver s (blocks 0)) (blocks 1)
    (by rw [a4]; exact hfast) hx1
  have e2 : deliveries blocks 2 s = deliver (deliver s (blocks 0)) (blocks 1) := rfl
  refine ⟨htw, ?_, ?_, ?_⟩
  · intro m hm
    rw [htw] at hm
    have hm2 : m = 0 ∨ m = 1 := by omega
    rcases hm2 with rfl | rfl
    · exact ⟨rfl, hc, hx.trans (Nat.mul_zero _).symm⟩
    · rw [e1]
      refine ⟨a1, ?_, ?_⟩
      · rw [a2]; decide
      · rw [a3]; decide
  · rw [e1]
    refine ⟨a5, ?_, a7⟩
    rw [a6]
    decide
  · rw [htw, e2]
    exact ⟨b1, b2, b3⟩

/-- Witness for C10: the state `InitADC3Transfer` leaves when the fast method
is selected at reset. -/
theorem C10_batch_ready_on_last_transfer_witness :
    ((InitADC3Transfer { powerOn with g_ucDMAMethod := DMA_METHOD_FAST }).g_ucDMAMethod
        ≠ DMA_METHOD_SLOW ∧
      (InitADC3Transfer { powerOn with g_ucDMAMethod := DMA_METHOD_FAST }).uluDMACount = 0 ∧
      (InitADC3Transfer { powerOn with g_ucDMAMethod := DMA_METHOD_FAST }).ulDataXferd = 0) ∧
    (deliveries countingBlocks 1
      (InitADC3Transfer { powerOn with g_ucDMAMethod := DMA_METHOD_FAST })).g_ucDataReady = 0 ∧
    (deliveries countingBlocks 2
      (InitADC3Transfer { powerOn with g_ucDMAMethod := DMA_METHOD_FAST })).g_ucDataReady = 1 := by
  obtain ⟨_, h2, _, h4, _, _⟩ := C10_batch_ready_on_last_transfer
    (InitADC3Transfer { powerOn with g_ucDMAMethod := DMA_METHOD_FAST }) countingBlocks
    (by decide) (by decide) (by decide)
  exact ⟨⟨by decide, by decide, by decide⟩, (h2 1 (by decide)).1, h4⟩

/-! ## What `InitDSP` leaves alone -/

theorem sameCapture_refl (s : State) : SameCapture s s :=
  ⟨rfl, rfl, rfl, rfl, rfl, rfl, rfl, rfl, rfl, rfl, rfl, rfl⟩

theorem sameCapture_trans (s r q : State) (h1 : SameCapture s r) (h2 : SameCapture r q) :
    SameCapture s q := by
  obtain ⟨a1, a2, a3, a4, a5, a6, a7, a8, a9, a10, a11, a12⟩ := h1
  obtain ⟨b1, b2, b3, b4, b5, b6, b7, b8, b9, b10, b11, b12⟩ := h2
  exact ⟨b1.trans a1, b2.trans a2, b3.trans a3, b4.trans a4, b5.trans a5, b6.trans a6,
    b7.trans a7, b8.trans a8, b9.trans a9, b10.trans a10, b11.trans a11, b12.trans a12⟩

theorem zeroHistory_capture :
    ∀ (fuel i : Nat) (s : State),
      SameCapture s (zeroHistory fuel i s) ∧
      (zeroHistory fuel i s).g_uiSamplingFreq = s.g_uiSamplingFreq := by
  intro fuel
  induction fuel with
  | zero => intro i s; exact ⟨sameCapture_refl s, rfl⟩
  | succ n ih =>
    intro i s
    rw [zeroHistory]
    obtain ⟨h1, h2⟩ := ih (i + 1)
      { s with maxLEDPowers := storeZ s.maxLEDPowers (i : Int) 0,
               LEDFreqBreakpoints := store s.LEDFreqBreakpoints i 0,
               LEDDisplayMaxes := store s.LEDDisplayMaxes i 0 }
    exact ⟨h1, h2⟩

theorem repairWalk_capture :
    ∀ (fuel i : Nat) (s : State),
      SameCapture s (repairWalk fuel i s) ∧
      (repairWalk fuel i s).g_uiSamplingFreq = s.g_uiSamplingFreq := by
  intro fuel
  induction fuel with
  | zero => intro i s; exact ⟨sameCapture_refl s, rfl⟩
  | succ n ih =>
    intro i s
    rw [repairWalk_succ]
    split
    · exact ⟨sameCapture_refl s, rfl⟩
    · obtain ⟨h1, h2⟩ := ih (i + 1)
        { s with LEDFreqBreakpoints := repairAt s.LEDFreqBreakpoints i }
      exact ⟨h1, h2⟩

theorem setFreqBreakpoints_capture (numSamples : Nat) (freqArray : Nat → Int) (s : State) :
    SameCapture s (setFreqBreakpoints numSamples freqArray s) ∧
    (setFreqBreakpoints numSamples freqArray s).g_uiSamplingFreq = s.g_uiSamplingFreq := by
  unfold setFreqBreakpoints
  exact repairWalk_capture _ _ _

/-- `InitDSP` writes the power history, the breakpoints, `g_HzPerBin` and
`g_ucDMAMethod`, and nothing of the capture state. -/
theorem InitDSP_capture (freqArray : Nat → Int) (s : State) :
    SameCapture s (InitDSP freqArray s) := by
  obtain ⟨h1, _⟩ := zeroHistory_capture s.g_uiNumDisplayBars 0 s
  obtain ⟨h2, _⟩ := setFreqBreakpoints_capture NUM_SAMPLES freqArray
    (withHzPerBin (zeroHistory s.g_uiNumDisplayBars 0 s).g_uiSamplingFreq NUM_SAMPLES
      (zeroHistory s.g_uiNumDisplayBars 0 s))
  have h3 := sameCapture_trans _ _ _ h1 h2
  unfold InitDSP
  simp only []
  split <;> exact h3

theorem InitDSP_method (freqArray : Nat → Int) (s : State) :
    (InitDSP freqArray s).g_ucDMAMethod =
      if s.g_uiSamplingFreq / NUM_SAMPLES > 16 then DMA_METHOD_FAST else DMA_METHOD_SLOW := by
  obtain ⟨_, h1⟩ := zeroHistory_capture s.g_uiNumDisplayBars 0 s
  obtain ⟨_, h2⟩ := setFreqBreakpoints_capture NUM_SAMPLES freqArray
    (withHzPerBin (zeroHistory s.g_uiNumDisplayBars 0 s).g_uiSamplingFreq NUM_SAMPLES
      (zeroHistory s.g_uiNumDisplayBars 0 s))
  have h3 : (setFreqBreakpoints NUM_SAMPLES freqArray
      (withHzPerBin (zeroHistory s.g_uiNumDisplayBars 0 s).g_uiSamplingFreq NUM_SAMPLES
        (zeroHistory s.g_uiNumDisplayBars 0 s))).g_uiSamplingFreq = s.g_uiSamplingFreq :=
    h2.trans h1
  unfold InitDSP
  simp only []
  unfold withHzPerBin at h3
  rw [h3]
  split <;> rfl

/-! ## Claims on the capture handler and on the mode selection -/

/-- C13: entered while the channel is still enabled, `ADC3IntHandler` adds one
to `g_ulBadPeriphIsr2` only; entered with the channel idle and a non-zero
remaining size, it adds one to `g_ulBadPeriphIsr1` only.  In both cases the
sample window, the ping-pong buffers and selector, `g_ucDataReady`, the
transfer count and the fill offset are unchanged. -/
theorem C13_error_paths (s : State) :
    (s.dmaEnabled = true →
      (ADC3IntHandler s).g_ulBadPeriphIsr2 = (s.g_ulBadPeriphIsr2 + 1) % U32 ∧
      (ADC3IntHandler s).g_ulBadPeriphIsr1 = s.g_ulBadPeriphIsr1 ∧
      SameCapture s (ADC3IntHandler s)) ∧
    (s.dmaEnabled = false → s.dmaRemaining ≠ 0 →
      (ADC3IntHandler s).g_ulBadPeriphIsr1 = (s.g_ulBadPeriphIsr1 + 1) % U32 ∧
      (ADC3IntHandler s).g_ulBadPeriphIsr2 = s.g_ulBadPeriphIsr2 ∧
      SameCapture s (ADC3IntHandler s)) := by
  constructor
  · intro h
    unfold ADC3IntHandler
    rw [if_pos h]
    exact ⟨rfl, rfl, sameCapture_refl s⟩
  · intro h1 h2
    unfold ADC3IntHandler
    rw [if_neg (by rw [h1]; simp), if_pos h2]
    exact ⟨rfl, rfl, sameCapture_refl s⟩

/-- Witness for C13: an interrupt while the first transfer armed at reset is
still in flight. -/
theorem C13_error_paths_witness :
    (InitADC3Transfer powerOn).dmaEnabled = true ∧
    (ADC3IntHandler (InitADC3Transfer powerOn)).g_ulBadPeriphIsr2 = 1 ∧
    (ADC3IntHandler (InitADC3Transfer powerOn)).g_ucDataReady = 0 := by
  obtain ⟨h1, _, h3⟩ := (C13_error_paths (InitADC3Transfer powerOn)).1 (by decide)
  exact ⟨by decide, h1.trans (by decide), h3.2.2.2.2.1.trans (by decide)⟩

/-- C14: `InitDSP` selects `DMA_METHOD_FAST` exactly when the integer quotient
`g_uiSamplingFreq / NUM_SAMPLES` exceeds 16, that is from 34816 Hz on, and
`DMA_METHOD_SLOW` otherwise; the choice depends on the sampling frequency
alone. -/
theorem C14_mode_selection (freqArray : Nat → Int) (s : State) :
    ((InitDSP freqArray s).g_ucDMAMethod = DMA_METHOD_FAST ↔
      s.g_uiSamplingFreq / NUM_SAMPLES > 16) ∧
    ((InitDSP freqArray s).g_ucDMAMethod = DMA_METHOD_SLOW ↔
      ¬ s.g_uiSamplingFreq / NUM_SAMPLES > 16) ∧
    (s.g_uiSamplingFreq / NUM_SAMPLES > 16 ↔ 34816 ≤ s.g_uiSamplingFreq) ∧
    (∀ (freqArray2 : Nat → Int) (s2 : State), s2.g_uiSamplingFreq = s.g_uiSamplingFreq →
      (InitDSP freqArray2 s2).g_ucDMAMethod = (InitDSP freqArray s).g_ucDMAMethod) := by
  have hm := InitDSP_method freqArray s
  refine ⟨?_, ?_, ?_, ?_⟩
  · rw [hm]
    by_cases h : s.g_uiSamplingFreq / NUM_SAMPLES > 16
    · simp [h]
    · simp [h, DMA_METHOD_SLOW, DMA_METHOD_FAST]
  · rw [hm]
    by_cases h : s.g_uiSamplingFreq / NUM_SAMPLES > 16
    · simp [h, DMA_METHOD_SLOW, DMA_METHOD_FAST]
    · simp [h]
  · unfold NUM_SAMPLES
    omega
  · intro t2 s2 h2
    rw [hm, InitDSP_method, h2]

/-- Witness for C14: 34815 Hz selects the slow method, 34816 Hz the fast one. -/
theorem C14_mode_selection_witness :
    (InitDSP freqArray8 (configured 40 13000 8 34815 powerOn)).g_ucDMAMethod = DMA_METHOD_SLOW ∧
    (InitDSP freqArray8 (configured 40 13000 8 34816 powerOn)).g_ucDMAMethod = DMA_METHOD_FAST :=
  ⟨(C14_mode_selection freqArray8 (configured 40 13000 8 34815 powerOn)).2.1.mpr (by decide),
    (C14_mode_selection freqArray8 (configured 40 13000 8 34816 powerOn)).1.mpr (by decide)⟩

theorem midFill_selects_fast :
    (InitDSP freqArray8 midFillState).g_ucDMAMethod = DMA_METHOD_FAST := by
  rw [InitDSP_method]
  decide

theorem midStream_selects_slow :
    (InitDSP freqArray8 midStreamState).g_ucDMAMethod = DMA_METHOD_SLOW := by
  rw [InitDSP_method]
  decide

/-- C15 (as stated, refuted): `InitDSP` selects batch mode in the middle of a
batch fill and leaves the transfer count at 1 and the fill offset at 1024; it
selects streaming mode and leaves the ping-pong selector at 1 and the window
as it was. -/
theorem C15_no_reset_on_selection :
    (InitDSP freqArray8 midFillState).g_ucDMAMethod = DMA_METHOD_FAST ∧
    (InitDSP freqArray8 midFillState).uluDMACount = 1 ∧
    (InitDSP freqArray8 midFillState).ulDataXferd = 1024 ∧
    (InitDSP freqArray8 midStreamState).g_ucDMAMethod = DMA_METHOD_SLOW ∧
    (InitDSP freqArray8 midStreamState).g_ucDMApingpong = 1 ∧
    (InitDSP freqArray8 midStreamState).g_ulADCValues 0 = 2048 := by
  obtain ⟨_, _, _, _, _, a6, a7, _⟩ := InitDSP_capture freqArray8 midFillState
  obtain ⟨b1, _, _, b4, _⟩ := InitDSP_capture freqArray8 midStreamState
  refine ⟨midFill_selects_fast, a6, a7, midStream_selects_slow, b4, ?_⟩
  rw [b1]
  rfl

/-- C15 (amended): whichever mode it selects, `InitDSP` records the selection
in `g_ucDMAMethod` and resets nothing of the capture state: the sample window,
the ping and pong buffers, the ping-pong selector, the ready flag, the
transfer count and the fill offset of `ADC3IntHandler`, and the armed transfer
(channel enable, remaining count, destination, offset and length) are left as
they were. -/
theorem C15_selection_only_sets_method (freqArray : Nat → Int) (s : State) :
    (InitDSP freqArray s).g_ucDMAMethod =
      (if s.g_uiSamplingFreq / NUM_SAMPLES > 16 then DMA_METHOD_FAST else DMA_METHOD_SLOW) ∧
    (InitDSP freqArray s).g_ulADCValues = s.g_ulADCValues ∧
    (InitDSP freqArray s).g_usDMAping = s.g_usDMAping ∧
    (InitDSP freqArray s).g_usDMApong = s.g_usDMApong ∧
    (InitDSP freqArray s).g_ucDMApingpong = s.g_ucDMApingpong ∧
    (InitDSP freqArray s).g_ucDataReady = s.g_ucDataReady ∧
    (InitDSP freqArray s).uluDMACount = s.uluDMACount ∧
    (InitDSP freqArray s).ulDataXferd = s.ulDataXferd ∧
    (InitDSP freqArray s).dmaEnabled = s.dmaEnabled ∧
    (InitDSP freqArray s).dmaRemaining = s.dmaRemaining ∧
    (InitDSP freqArray s).dmaDst = s.dmaDst ∧
    (InitDSP freqArray s).dmaOffset = s.dmaOffset ∧
    (InitDSP freqArray s).dmaLength = s.dmaLength := by
  obtain ⟨a1, a2, a3, a4, a5, a6, a7, a8, a9, a10, a11, a12⟩ := InitDSP_capture freqArray s
  exact ⟨InitDSP_method freqArray s, a1, a2, a3, a4, a5, a6, a7, a8, a9, a10, a11, a12⟩

/-! ## Band ranges -/

theorem strictBreakpoints_mono (bp : Nat → Nat) (K : Nat) (h : StrictBreakpoints bp K) :
    ∀ (d k : Nat), k + d ≤ K → bp k + d ≤ bp (k + d) := by
  intro d
  induction d with
  | zero => intro k _; simp
  | succ n ih =>
    intro k hk
    have h1 := ih k (by omega)
    have h2 := h.1 (k + n) (by omega)
    have e : k + (n + 1) = k + n + 1 := by omega
    rw [e]
    omega

theorem strictBreakpoints_lt (bp : Nat → Nat) (K : Nat) (h : StrictBreakpoints bp K)
    (k k2 : Nat) (hk : k < k2) (hk2 : k2 ≤ K) : bp k < bp k2 := by
  have h1 := strictBreakpoints_mono bp K h (k2 - k) k (by omega)
  have e : k + (k2 - k) = k2 := by omega
  rw [e] at h1
  omega

theorem strictBreakpoints_le2 (bp : Nat → Nat) (K : Nat) (h : StrictBreakpoints bp K)
    (k k2 : Nat) (hk : k ≤ k2) (hk2 : k2 ≤ K) : bp k ≤ bp k2 := by
  rcases Nat.lt_or_ge k k2 with h1 | h1
  · exact le_of_lt (strictBreakpoints_lt bp K h k k2 h1 hk2)
  · have e : k = k2 := by omega
    rw [e]

/-- The bins of band `k`: `bp[0]..bp[1]` for the first band, `bp[k]+1..bp[k+1]`
for the others. -/
theorem inBand_iff (bp : Nat → Nat) (K k n : Nat) (h : StrictBreakpoints bp K) (hk : k < K) :
    inBand bp k n ↔
      ((k = 0 ∧ bp 0 ≤ n ∧ n ≤ bp 1) ∨ (0 < k ∧ bp k < n ∧ n ≤ bp (k + 1))) := by
  have h1 := h.1 k hk
  have h2 := strictBreakpoints_le2 bp K h (k + 1) K (by omega) (le_refl K)
  have h3 := h.2
  unfold NUM_SAMPLES at h3
  unfold inBand blockSize lowBin U32
  by_cases hk0 : k = 0
  · subst hk0
    have e : (0 : Nat) + 1 = 1 := rfl
    rw [e] at h1 h2
    rw [e, if_pos rfl]
    have eb : (bp 1 + 4294967296 - bp 0 + 1) % 4294967296 = bp 1 - bp 0 + 1 := by omega
    rw [eb]
    constructor
    · rintro ⟨a, b⟩
      exact Or.inl ⟨rfl, a, by omega⟩
    · rintro (⟨_, a, b⟩ | ⟨c, _, _⟩)
      · exact ⟨a, by omega⟩
      · omega
  · rw [if_neg hk0]
    have el : (bp k + 1) % 4294967296 = bp k + 1 := by omega
    rw [el]
    have eb : (bp (k + 1) + 4294967296 - (bp k + 1) + 1) % 4294967296 =
        bp (k + 1) - bp k := by omega
    rw [eb]
    constructor
    · rintro ⟨a, b⟩
      exact Or.inr ⟨by omega, by omega, by omega⟩
    · rintro (⟨c, _, _⟩ | ⟨_, a, b⟩)
      · omega
      · exact ⟨by omega, by omega⟩

/-- C16: for strictly increasing breakpoints `bp[0..K]` over the spectrum, the
bin ranges `ProcessData` averages for the `K` bands are each non-empty,
pairwise disjoint, and together hold exactly the bins `bp[0]..bp[K]`. -/
theorem C16_band_ranges_partition (bp : Nat → Nat) (K : Nat) (hK : 1 ≤ K)
    (h : StrictBreakpoints bp K) :
    (∀ k, k < K → ∃ n, inBand bp k n) ∧
    (∀ k k2 n, k < K → k2 < K → inBand bp k n → inBand bp k2 n → k = k2) ∧
    (∀ n, (∃ k, k < K ∧ inBand bp k n) ↔ (bp 0 ≤ n ∧ n ≤ bp K)) := by
  have key : ∀ k k2 n, k < K → k2 < K → k < k2 → inBand bp k n → inBand bp k2 n → False := by
    intro k k2 n hk hk2 hlt h1 h2
    rw [inBand_iff bp K k n h hk] at h1
    rw [inBand_iff bp K k2 n h hk2] at h2
    have hm := strictBreakpoints_le2 bp K h (k + 1) k2 (by omega) (by omega)
    have e : (0 : Nat) + 1 = 1 := rfl
    rcases h1 with ⟨rfl, _, a⟩ | ⟨_, _, a⟩ <;> rcases h2 with ⟨rfl, _, _⟩ | ⟨_, b, _⟩
    · omega
    · rw [e] at hm; omega
    · omega
    · omega
  refine ⟨?_, ?_, ?_⟩
  · intro k hk
    refine ⟨bp (k + 1), ?_⟩
    rw [inBand_iff bp K k _ h hk]
    have h1 := h.1 k hk
    by_cases hk0 : k = 0
    · subst hk0
      exact Or.inl ⟨rfl, le_of_lt h1, le_refl _⟩
    · exact Or.inr ⟨by omega, h1, le_refl _⟩
  · intro k k2 n hk hk2 h1 h2
    rcases Nat.lt_trichotomy k k2 with hlt | heq | hgt
    · exact absurd (key k k2 n hk hk2 hlt h1 h2) id
    · exact heq
    · exact absurd (key k2 k n hk2 hk hgt h2 h1) id
  · intro n
    constructor
    · rintro ⟨k, hk, hin⟩
      rw [inBand_iff bp K k n h hk] at hin
      have hlo := strictBreakpoints_le2 bp K h 0 k (by omega) (by omega)
      have hhi := strictBreakpoints_le2 bp K h (k + 1) K (by omega) (le_refl K)
      have e : (0 : Nat) + 1 = 1 := rfl
      rcases hin with ⟨rfl, a, b⟩ | ⟨_, a, b⟩
      · rw [e] at hhi; omega
      · omega
    · rintro ⟨hlo, hhi⟩
      have cover : ∀ j, 1 ≤ j → j ≤ K → n ≤ bp j → ∃ k, k < j ∧ inBand bp k n := by
        intro j
        induction j with
        | zero => intro h1 _ _; omega
        | succ m ih =>
          intro _ hm hn
          by_cases hm0 : m = 0
          · subst hm0
            refine ⟨0, by omega, ?_⟩
            rw [inBand_iff bp K 0 n h (by omega)]
            exact Or.inl ⟨rfl, hlo, hn⟩
          · by_cases hle : n ≤ bp m
            · obtain ⟨k, hk, hin⟩ := ih (by omega) (by omega) hle
              exact ⟨k, by omega, hin⟩
            · refine ⟨m, by omega, ?_⟩
              rw [inBand_iff bp K m n h (by omega)]
              exact Or.inr ⟨by omega, by omega, hn⟩
      obtain ⟨k, hk, hin⟩ := cover K hK (le_refl K) hhi
      exact ⟨k, hk, hin⟩

/-- Witness for C16: the breakpoints 1, 3, 7 give the bands 1..3 and 4..7. -/
theorem C16_band_ranges_partition_witness :
    (1 ≤ twoBandState.g_uiNumDisplayBars ∧
      StrictBreakpoints twoBandState.LEDFreqBreakpoints twoBandState.g_uiNumDisplayBars) ∧
    ((∃ k, k < twoBandState.g_uiNumDisplayBars ∧ inBand twoBandState.LEDFreqBreakpoints k 4) ↔
      (twoBandState.LEDFreqBreakpoints 0 ≤ 4 ∧
        4 ≤ twoBandState.LEDFreqBreakpoints twoBandState.g_uiNumDisplayBars)) :=
  ⟨⟨by decide, strictBreakpoints_twoBand⟩,
    (C16_band_ranges_partition twoBandState.LEDFreqBreakpoints twoBandState.g_uiNumDisplayBars
      (by decide) strictBreakpoints_twoBand).2.2 4⟩

/-! ## Claims on the sliders -/

/-- C17 (code defect): with the minimum-frequency bounds 1 and 5000 and the
step -10, `uiIncrementValue` takes the in-range value 15 to 0, below `uiMin`:
the range test is made on `uiVal + iIncAmount` and the remainder is taken off
afterwards.  The `-` button of the minimum display frequency stores that 0. -/
theorem C17_decrement_leaves_range :
    (MIN_DISPLAY_L_FREQ ≤ 15 ∧ 15 ≤ MAX_DISPLAY_L_FREQ) ∧
    uiIncrementValue 15 (-INTERVAL_DISPLAY_L_FREQ) MAX_DISPLAY_L_FREQ MIN_DISPLAY_L_FREQ = 0 ∧
    ¬ MIN_DISPLAY_L_FREQ ≤
      uiIncrementValue 15 (-INTERVAL_DISPLAY_L_FREQ) MAX_DISPLAY_L_FREQ MIN_DISPLAY_L_FREQ ∧
    (OnButtonPress (2 * FMIN_DISP_SLIDER) (sliderState 13000 15 26000)).g_plSliderVal
      FMIN_DISP_SLIDER = 0 := by
  decide

theorem toU32_natCast (n : Nat) (h : n < U32) : toU32 (n : Int) = n := by
  unfold toU32
  unfold U32 at h ⊢
  omega

theorem toI32_small (n : Nat) (h : n < 2147483648) : toI32 n = (n : Int) := by
  unfold toI32 U32
  have e : n % 4294967296 = n := Nat.mod_eq_of_lt (by omega)
  rw [e, if_pos h]

/-- For a positive step and a value in the `int` range, `uiIncrementValue`
returns `uiVal + s - uiVal % s` when `uiVal + s` lies inside the bounds. -/
theorem uiIncrementValue_up (s uiVal uiMax uiMin : Nat) (hv : uiVal < 2147483648)
    (hmin : uiMin ≤ uiVal + s) (hmax : uiVal + s ≤ uiMax) (hU : uiMax < U32) :
    uiIncrementValue uiVal (s : Int) uiMax uiMin = uiVal + s - uiVal % s := by
  have hle : uiVal % s ≤ uiVal := Nat.mod_le uiVal s
  have e1 : toU32 ((uiVal : Int) + (s : Int)) = uiVal + s := by
    have := toU32_natCast (uiVal + s) (by omega)
    rw [← this]
    push_cast
    rfl
  have e2 : Int.tmod (toI32 uiVal) (s : Int) = ((uiVal % s : Nat) : Int) := by
    rw [toI32_small uiVal hv]
    rfl
  have e3 : (uiVal : Int) + (s : Int) - ((uiVal % s : Nat) : Int) =
      ((uiVal + s - uiVal % s : Nat) : Int) := by
    omega
  unfold uiIncrementValue
  rw [e1, if_neg (by omega), if_neg (by omega), e2, e3]
  exact toU32_natCast _ (by omega)

/-- C18 (as stated, refuted): for the value 2147483653, outside the `int`
range, and the step 10 inside wide bounds, `uiIncrementValue` returns
2147483666, which is not a multiple of 10; the smallest multiple of 10 above
the value is 2147483660. -/
theorem C18_fails_beyond_int_range :
    (0 ≤ 2147483653 + 10 ∧ 2147483653 + 10 ≤ 4294967295) ∧
    uiIncrementValue 2147483653 10 4294967295 0 = 2147483666 ∧
    ¬ (10 ∣ uiIncrementValue 2147483653 10 4294967295 0) ∧
    (10 ∣ 2147483660 ∧ 2147483653 < 2147483660) := by
  decide

/-- C18 (amended): for every positive step `s` and every value `uiVal` below
`2 ^ 31` with `uiMin <= uiVal + s <= uiMax`, `uiIncrementValue` returns the
smallest multiple of `s` that is strictly greater than `uiVal`; with step 500
it takes 1297 to 1500 and 1500 to 2000. -/
theorem C18_next_multiple (s uiVal uiMax uiMin : Nat) (hs : 0 < s)
    (hv : uiVal < 2147483648) (hmin : uiMin ≤ uiVal + s) (hmax : uiVal + s ≤ uiMax)
    (hU : uiMax < U32) :
    (s ∣ uiIncrementValue uiVal (s : Int) uiMax uiMin ∧
      uiVal < uiIncrementValue uiVal (s : Int) uiMax uiMin ∧
      ∀ m, s ∣ m → uiVal < m → uiIncrementValue uiVal (s : Int) uiMax uiMin ≤ m) ∧
    uiIncrementValue 1297 INTERVAL_DISPLAY_U_FREQ MAX_DISPLAY_U_FREQ MIN_DISPLAY_U_FREQ = 1500 ∧
    uiIncrementValue 1500 INTERVAL_DISPLAY_U_FREQ MAX_DISPLAY_U_FREQ MIN_DISPLAY_U_FREQ = 2000 := by
  refine ⟨?_, by decide, by decide⟩
  rw [uiIncrementValue_up s uiVal uiMax uiMin hv hmin hmax hU]
  have hdm := Nat.div_add_mod uiVal s
  have hlt := Nat.mod_lt uiVal hs
  have hval : uiVal + s - uiVal % s = s * (uiVal / s + 1) := by
    rw [Nat.mul_add, Nat.mul_one]
    omega
  rw [hval]
  refine ⟨Dvd.intro _ rfl, ?_, ?_⟩
  · rw [Nat.mul_add, Nat.mul_one]
    omega
  · rintro m ⟨c, rfl⟩ hm
    apply Nat.mul_le_mul_left
    have : uiVal / s < c := by
      rw [Nat.div_lt_iff_lt_mul hs, Nat.mul_comm]
      exact hm
    omega

/-- Witness for C18: step 500 from 1297 inside the bounds 1000 and 13000. -/
theorem C18_next_multiple_witness :
    ((0 : Nat) < 500 ∧ (1297 : Nat) < 2147483648 ∧ (1000 : Nat) ≤ 1297 + 500 ∧
      (1297 : Nat) + 500 ≤ 13000 ∧ (13000 : Nat) < U32) ∧
    (500 : Nat) ∣ uiIncrementValue 1297 ((500 : Nat) : Int) 13000 1000 ∧
    1297 < uiIncrementValue 1297 ((500 : Nat) : Int) 13000 1000 :=
  ⟨⟨by decide, by decide, by decide, by decide, by decide⟩,
    (C18_next_multiple 500 1297 13000 1000 (by decide) (by decide) (by decide) (by decide)
      (by decide)).1.1,
    (C18_next_multiple 500 1297 13000 1000 (by decide) (by decide) (by decide) (by decide)
      (by decide)).1.2.1⟩

/-- C19 (code defect): with the minimum display frequency at 1 and the maximum
at 1000, one press of the `-` button of the minimum frequency stores 5000 as
the minimum: `1 - 10` wraps in `unsigned int`, exceeds `uiMax`, and
`uiIncrementValue` returns `uiMax`.  The minimum is then above the
maximum. -/
theorem C19_min_button_passes_max :
    (sliderState 1000 1 26000).g_plSliderVal FMIN_DISP_SLIDER <
      (sliderState 1000 1 26000).g_plSliderVal FMAX_DISP_SLIDER ∧
    (OnButtonPress (2 * FMIN_DISP_SLIDER) (sliderState 1000 1 26000)).g_plSliderVal
      FMIN_DISP_SLIDER = 5000 ∧
    (OnButtonPress (2 * FMIN_DISP_SLIDER) (sliderState 1000 1 26000)).g_plSliderVal
      FMAX_DISP_SLIDER = 1000 ∧
    ¬ (OnButtonPress (2 * FMIN_DISP_SLIDER) (sliderState 1000 1 26000)).g_plSliderVal
        FMIN_DISP_SLIDER <
      (OnButtonPress (2 * FMIN_DISP_SLIDER) (sliderState 1000 1 26000)).g_plSliderVal
        FMAX_DISP_SLIDER := by
  decide

/-- C20 (code defect): with the maximum display frequency at 5000 and the
sampling frequency at 10000, one press of the `+` button of the maximum
frequency stores 5500: that branch bounds the value by the constant 13000
only, and twice the maximum then exceeds the sampling frequency. -/
theorem C20_max_button_passes_half_rate :
    2 * (sliderState 5000 40 10000).g_plSliderVal FMAX_DISP_SLIDER ≤
      (sliderState 5000 40 10000).g_plSliderVal FSAMP_SLIDER ∧
    (OnButtonPress (2 * FMAX_DISP_SLIDER + 1) (sliderState 5000 40 10000)).g_plSliderVal
      FMAX_DISP_SLIDER = 5500 ∧
    (OnButtonPress (2 * FMAX_DISP_SLIDER + 1) (sliderState 5000 40 10000)).g_plSliderVal
      FSAMP_SLIDER = 10000 ∧
    ¬ 2 * (OnButtonPress (2 * FMAX_DISP_SLIDER + 1) (sliderState 5000 40 10000)).g_plSliderVal
        FMAX_DISP_SLIDER ≤
      (OnButtonPress (2 * FMAX_DISP_SLIDER + 1) (sliderState 5000 40 10000)).g_plSliderVal
        FSAMP_SLIDER := by
  decide

/-! ## Bounds of the transfers into the window -/

theorem fillInBounds_of_fields (s r : State) (hc : r.uluDMACount = s.uluDMACount)
    (hx : r.ulDataXferd = s.ulDataXferd)
    (hd : r.dmaDst = DmaBuf.adcValues → r.dmaOffset + r.dmaLength ≤ NUM_SAMPLES)
    (hs : FillInBounds s) : FillInBounds r := by
  unfold FillInBounds at hs ⊢
  rw [hc, hx]
  exact ⟨hs.1, hs.2.1, hd⟩

theorem fillInBounds_of_sameCapture (s r : State) (h : SameCapture s r)
    (hs : FillInBounds s) : FillInBounds r := by
  obtain ⟨_, _, _, _, _, a6, a7, _, _, a10, a11, a12⟩ := h
  refine fillInBounds_of_fields s r a6 a7 ?_ hs
  rw [a10, a11, a12]
  exact hs.2.2

theorem bandLoop_capture (sp : Nat → ℚ) :
    ∀ (fuel i j : Nat) (s : State), SameCapture s (bandLoop sp fuel i j s) := by
  intro fuel
  induction fuel with
  | zero => intro i j s; exact sameCapture_refl s
  | succ n ih =>
    intro i j s
    rw [bandLoop]
    exact sameCapture_trans _ _ _ ⟨rfl, rfl, rfl, rfl, rfl, rfl, rfl, rfl, rfl, rfl, rfl, rfl⟩
      (ih _ _ (bandStep sp i j s))

theorem setSlider_capture (k : Nat) (v : Int) (s : State) : SameCapture s (setSlider k v s) :=
  ⟨rfl, rfl, rfl, rfl, rfl, rfl, rfl, rfl, rfl, rfl, rfl, rfl⟩

theorem sameCapture_ite (c : Prop) [Decidable c] (s a b : State) (ha : SameCapture s a)
    (hb : SameCapture s b) : SameCapture s (if c then a else b) := by
  split_ifs
  · exact ha
  · exact hb

theorem pressMaxFreq_capture (b : Nat) (s : State) : SameCapture s (pressMaxFreq b s) := by
  unfold pressMaxFreq
  split_ifs <;> first | exact setSlider_capture _ _ s | exact sameCapture_refl s

theorem pressMinFreq_capture (b : Nat) (s : State) : SameCapture s (pressMinFreq b s) := by
  unfold pressMinFreq
  split_ifs <;> first | exact setSlider_capture _ _ s | exact sameCapture_refl s

theorem pressSampFreq_capture (b : Nat) (s : State) : SameCapture s (pressSampFreq b s) := by
  unfold pressSampFreq
  split_ifs <;> first | exact setSlider_capture _ _ s | exact sameCapture_refl s

theorem pressNumBars_capture (b : Nat) (s : State) : SameCapture s (pressNumBars b s) := by
  unfold pressNumBars
  split_ifs <;> first | exact setSlider_capture _ _ s | exact sameCapture_refl s

theorem OnButtonPress_capture (b : Nat) (s : State) : SameCapture s (OnButtonPress b s) := by
  unfold OnButtonPress
  exact sameCapture_trans _ _ _ (pressMaxFreq_capture b s)
    (sameCapture_trans _ _ _ (pressMinFreq_capture b _)
      (sameCapture_trans _ _ _ (pressSampFreq_capture b _) (pressNumBars_capture b _)))

theorem OnSliderChange_capture (k : Nat) (v : Int) (s : State) :
    SameCapture s (OnSliderChange k v s) := by
  unfold OnSliderChange
  lift_lets
  intro s1 s2 s3
  have h1 : SameCapture s s1 :=
    sameCapture_ite _ s _ _
      (sameCapture_ite _ s _ _ (setSlider_capture _ _ s) (setSlider_capture _ _ s))
      (sameCapture_refl s)
  have h2 : SameCapture s1 s2 :=
    sameCapture_ite _ s1 _ _
      (sameCapture_ite _ s1 _ _ (setSlider_capture _ _ s1) (setSlider_capture _ _ s1))
      (sameCapture_refl s1)
  have h3 : SameCapture s2 s3 :=
    sameCapture_ite _ s2 _ _
      (sameCapture_ite _ s2 _ _ (setSlider_capture _ _ s2) (setSlider_capture _ _ s2))
      (sameCapture_refl s2)
  have h4 : SameCapture s3 (if k = NUMBARS_SLIDER then setSlider NUMBARS_SLIDER v s3 else s3) :=
    sameCapture_ite _ s3 _ _ (setSlider_capture _ _ s3) (sameCapture_refl s3)
  exact sameCapture_trans _ _ _ h1 (sameCapture_trans _ _ _ h2 (sameCapture_trans _ _ _ h3 h4))

theorem UpdateGConfigs_capture (freqArray : Nat → Int) (s : State) :
    SameCapture s (UpdateGConfigs freqArray s) := by
  unfold UpdateGConfigs
  exact sameCapture_trans _ _ _ ⟨rfl, rfl, rfl, rfl, rfl, rfl, rfl, rfl, rfl, rfl, rfl, rfl⟩
    (InitDSP_capture freqArray _)

theorem dmaComplete_fill (b : Nat → Nat) (s : State) (hs : FillInBounds s) :
    FillInBounds (dmaComplete b s) := by
  have h : (dmaComplete b s).uluDMACount = s.uluDMACount ∧
      (dmaComplete b s).ulDataXferd = s.ulDataXferd ∧
      (dmaComplete b s).dmaDst = s.dmaDst ∧ (dmaComplete b s).dmaOffset = s.dmaOffset ∧
      (dmaComplete b s).dmaLength = s.dmaLength := by
    unfold dmaComplete
    cases s.dmaDst <;> exact ⟨rfl, rfl, rfl, rfl, rfl⟩
  obtain ⟨h1, h2, h3, h4, h5⟩ := h
  refine fillInBounds_of_fields s _ h1 h2 ?_ hs
  rw [h3, h4, h5]
  exact hs.2.2

theorem ADC3IntHandler_fill (s : State) (hs : FillInBounds s) :
    FillInBounds (ADC3IntHandler s) := by
  obtain ⟨h1, h2, h3⟩ := hs
  unfold ADC3IntHandler
  split_ifs with a b c d
  · exact ⟨h1, h2, h3⟩
  · exact ⟨h1, h2, h3⟩
  · refine ⟨h1, h2, ?_⟩
    intro h
    cases h
  · refine ⟨h1, h2, ?_⟩
    intro h
    cases h
  · unfold UDMA_XFER_MAX at h1
    unfold NUM_SAMPLES at h2
    dsimp only
    split_ifs with d e
    · refine ⟨?_, ?_, ?_⟩
      · show (s.ulDataXferd + UDMA_XFER_MAX) % U32 = UDMA_XFER_MAX * ((s.uluDMACount + 1) % U32)
        unfold UDMA_XFER_MAX U32
        omega
      · exact d
      · intro _
        show UDMA_XFER_MAX * ((s.uluDMACount + 1) % U32) + UDMA_XFER_MAX ≤ NUM_SAMPLES
        unfold NUM_SAMPLES UDMA_XFER_MAX U32 at *
        omega
    · refine ⟨?_, ?_, ?_⟩
      · show (s.ulDataXferd + UDMA_XFER_MAX) % U32 = UDMA_XFER_MAX * ((s.uluDMACount + 1) % U32)
        unfold UDMA_XFER_MAX U32
        omega
      · exact d
      · intro _
        show UDMA_XFER_MAX * ((s.uluDMACount + 1) % U32) +
          (NUM_SAMPLES - (s.ulDataXferd + UDMA_XFER_MAX) % U32) ≤ NUM_SAMPLES
        unfold NUM_SAMPLES UDMA_XFER_MAX U32 at *
        omega
    · refine ⟨rfl, ?_, h3⟩
      show 0 < NUM_SAMPLES
      decide

theorem ProcessData_fill (sp : Nat → ℚ) (s : State) (hs : FillInBounds s) :
    FillInBounds (ProcessData sp s) := by
  unfold ProcessData
  lift_lets
  intro s1 s2
  have h1 : FillInBounds s1 := by
    show FillInBounds (if s.g_ucDMAMethod = DMA_METHOD_SLOW then _ else s)
    split_ifs
    · exact hs
    · exact hs
  have h2 : FillInBounds s2 :=
    fillInBounds_of_sameCapture s1 s2 (bandLoop_capture sp _ _ _ s1) h1
  intro s3 s4
  split_ifs
  · have h4 : s4 = armTransfer DmaBuf.adcValues 0 UDMA_XFER_MAX s3 := if_pos (by decide)
    refine fillInBounds_of_fields s2 _ ?_ ?_ ?_ h2
    · rw [h4]; rfl
    · rw [h4]; rfl
    · intro _
      rw [h4]
      show 0 + UDMA_XFER_MAX ≤ NUM_SAMPLES
      decide
  · exact h2

/-- Start-up leaves the handler statics at zero and a transfer armed on the
ping buffer. -/
theorem startUp_fill (freqArray : Nat → Int) : FillInBounds (startUp freqArray) := by
  unfold startUp
  refine fillInBounds_of_sameCapture _ _ (InitDSP_capture freqArray _) ?_
  refine ⟨rfl, by decide, ?_⟩
  intro h
  cases h

theorem step_fill (s : State) (e : Event) (hs : FillInBounds s) : FillInBounds (step s e) := by
  cases e with
  | dmaDone block => exact dmaComplete_fill block s hs
  | adcInterrupt => exact ADC3IntHandler_fill s hs
  | processData spectrum => exact ProcessData_fill spectrum s hs
  | displayTick => exact hs
  | updateConfigs freqArray =>
    exact fillInBounds_of_sameCapture s _ (UpdateGConfigs_capture freqArray s) hs
  | buttonPress button =>
    exact fillInBounds_of_sameCapture s _ (OnButtonPress_capture button s) hs
  | sliderChange slider lValue =>
    exact fillInBounds_of_sameCapture s _ (OnSliderChange_capture slider lValue s) hs

theorem run_fill : ∀ (evs : List Event) (s : State), FillInBounds s → FillInBounds (run s evs) := by
  intro evs
  induction evs with
  | nil => intro s hs; exact hs
  | cons e es ih =>
    intro s hs
    exact ih (step s e) (step_fill s e hs)

theorem shiftLoopChecked_eq :
    ∀ (fuel i : Nat) (v : Nat → Nat), i + fuel + DMA_SIZE ≤ NUM_SAMPLES →
      shiftLoopChecked fuel i v = some (shiftLoop fuel i v) := by
  intro fuel
  induction fuel with
  | zero => intro i v _; rfl
  | succ n ih =>
    intro i v h
    have h1 : i + DMA_SIZE < NUM_SAMPLES := by omega
    have h2 : i < NUM_SAMPLES := by omega
    rw [shiftLoopChecked, shiftLoop]
    unfold readAt writeAt
    simp only [if_pos h1, if_pos h2, Option.some_bind]
    exact ih (i + 1) _ (by omega)

theorem copyLoopChecked_eq (src : Nat → Nat) :
    ∀ (fuel i : Nat) (v : Nat → Nat), i + fuel ≤ DMA_SIZE →
      copyLoopChecked src fuel i v = some (copyLoop src fuel i v) := by
  intro fuel
  induction fuel with
  | zero => intro i v _; rfl
  | succ n ih =>
    intro i v h
    have h1 : i + NUM_SAMPLES - DMA_SIZE < NUM_SAMPLES := by
      unfold NUM_SAMPLES DMA_SIZE at *
      omega
    rw [copyLoopChecked, copyLoop]
    unfold writeAt
    rw [if_pos h1]
    exact ih (i + 1) _ (by omega)

/-- C11: in every state reachable from start-up, a transfer armed on
`g_ulADCValues` has offset plus length at most `NUM_SAMPLES` (the handler
statics keep the fill offset at `UDMA_XFER_MAX` times the transfer count, below
`NUM_SAMPLES`); `InitADC3Transfer` arms such a transfer from any state; and the
shift and copy loops of the streaming branch, with every access to
`g_ulADCValues` checked against `[0, NUM_SAMPLES)`, run to the end with the
result of the unchecked loops. -/
theorem C11_window_accesses_in_bounds (freqArray : Nat → Int) (evs : List Event) :
    FillInBounds (run (startUp freqArray) evs) ∧
    ((run (startUp freqArray) evs).dmaDst = DmaBuf.adcValues →
      (run (startUp freqArray) evs).dmaOffset + (run (startUp freqArray) evs).dmaLength ≤
        NUM_SAMPLES) ∧
    (∀ s : State, (InitADC3Transfer s).dmaDst = DmaBuf.adcValues →
      (InitADC3Transfer s).dmaOffset + (InitADC3Transfer s).dmaLength ≤ NUM_SAMPLES) ∧
    (∀ w, shiftLoopChecked (NUM_SAMPLES - DMA_SIZE) 0 w =
      some (shiftLoop (NUM_SAMPLES - DMA_SIZE) 0 w)) ∧
    (∀ src w, copyLoopChecked src DMA_SIZE 0 w = some (copyLoop src DMA_SIZE 0 w)) := by
  have h := run_fill evs (startUp freqArray) (startUp_fill freqArray)
  refine ⟨h, h.2.2, ?_, ?_, ?_⟩
  · intro s
    unfold InitADC3Transfer
    lift_lets
    intro s1
    split_ifs
    · intro hd
      cases hd
    · intro _
      show 0 + UDMA_XFER_MAX ≤ NUM_SAMPLES
      decide
    · intro _
      show 0 + NUM_SAMPLES ≤ NUM_SAMPLES
      decide
  · intro w
    exact shiftLoopChecked_eq _ 0 w (by decide)
  · intro src w
    exact copyLoopChecked_eq src _ 0 w (by decide)

/-! ## Batch mode: arming and the ready flag -/

set_option maxRecDepth 1000000 in
/-- C21: for every byte `x`, `Reverse x` is a byte whose bit `k` is bit
`7 - k` of `x`, for `k = 0..7`, and reversing twice gives `x` back. -/
theorem C21_reverse_mirrors_bits (x : Nat) (hx : x < 256) :
    Reverse x < 256 ∧ (∀ k, k < 8 → (Reverse x).testBit k = x.testBit (7 - k)) ∧
    Reverse (Reverse x) = x := by
  have h : ∀ y, y < 256 → Reverse y < 256 ∧
      (∀ k, k < 8 → (Reverse y).testBit k = y.testBit (7 - k)) ∧ Reverse (Reverse y) = y := by
    decide
  exact h x hx

/-- Witness for C21: the byte `0x0D` reverses to `0xB0`. -/
theorem C21_reverse_mirrors_bits_witness :
    (13 : Nat) < 256 ∧ Reverse 13 = 176 ∧ Reverse (Reverse 13) = 13 :=
  ⟨by decide, by decide, (C21_reverse_mirrors_bits 13 (by decide)).2.2⟩

/-! ## Further claims on the band mapper -/

theorem setFreqBreakpoints_matrix :
    setFreqBreakpoints NUM_SAMPLES freqArray8 matrixState =
      repairWalk 8 1 { matrixState with LEDFreqBreakpoints := fun k =>
        if k < 9 then ([1, 3, 7, 15, 32, 67, 140, 289, 596] : List Nat).getD k 0
        else matrixState.LEDFreqBreakpoints k } := by
  have h1 : matrixState.hzNum = SAMPLING_FREQ := rfl
  have h2 : matrixState.hzDen = NUM_SAMPLES := rfl
  have h3 : matrixState.g_uiNumDisplayBars = 8 := rfl
  unfold setFreqBreakpoints
  simp only []
  have e : (8 : Nat) + 1 = 9 := rfl
  rw [h1, h2, h3, e, scanTargets_matrix]

set_option maxRecDepth 100000 in
/-- C22 (code defect): with 44600 Hz, 2048 samples and the nine targets 39,
82, 169, 349, 721, 1485, 3061, 6308, 12999, `setFreqBreakpoints` yields 1, 3,
7, 15, 32, 67, 140, 289, 596 and keeps the band count 8; the table of
`led_equalizer.c` holds 16, 33, 68 at the indices 3, 4, 5. -/
theorem C22_mapper_differs_from_table :
    (∀ j, j ≤ NUM_F_LEDS →
      (setFreqBreakpoints NUM_SAMPLES freqArray8 matrixState).LEDFreqBreakpoints j =
        ([1, 3, 7, 15, 32, 67, 140, 289, 596] : List Nat).getD j 0) ∧
    (setFreqBreakpoints NUM_SAMPLES freqArray8 matrixState).g_uiNumDisplayBars = NUM_F_LEDS ∧
    (∀ j, j ≤ NUM_F_LEDS →
      ((setFreqBreakpoints NUM_SAMPLES freqArray8 matrixState).LEDFreqBreakpoints j =
        hardCodedBreakpoints j ↔ (j ≠ 3 ∧ j ≠ 4 ∧ j ≠ 5))) ∧
    (∀ j, 3 ≤ j → j ≤ 5 →
      hardCodedBreakpoints j =
        (setFreqBreakpoints NUM_SAMPLES freqArray8 matrixState).LEDFreqBreakpoints j + 1) := by
  rw [setFreqBreakpoints_matrix]
  decide

set_option maxRecDepth 100000 in
/-- C23 (code defect): at 44600 Hz over 2048 samples the scan stores bin 15
for the target 349 Hz; the centre of bin 15 is 337 Hz, 12 Hz away, while the
centre of bin 16 is 359 Hz, 10 Hz away.  The stored bin is always the one
below the first bin whose centre exceeds the target: the comparison of
`upperDelta` with `lowerDelta` never selects the other one. -/
theorem C23_scan_stores_bin_below :
    scanBins SAMPLING_FREQ NUM_SAMPLES 349 (NUM_SAMPLES / 2) 0 = some 15 ∧
    binCenter SAMPLING_FREQ NUM_SAMPLES 15 = 337 ∧
    binCenter SAMPLING_FREQ NUM_SAMPLES 16 = 359 ∧
    |binCenter SAMPLING_FREQ NUM_SAMPLES 16 - 349| <
      |binCenter SAMPLING_FREQ NUM_SAMPLES 15 - 349| ∧
    (∀ (hzNum hzDen : Nat) (t : Int) (fuel i : Nat) (v : Int),
      scanBins hzNum hzDen t (fuel + 1) i = some v → binCenter hzNum hzDen i > t →
        v = (i : Int) - 1) := by
  refine ⟨by decide, by decide, by decide, by decide, ?_⟩
  intro hzNum hzDen t fuel i v h hc
  rw [scanBins_step, if_pos hc] at h
  exact (Option.some.inj h).symm

theorem repairAt_same (bp : Nat → Nat) (i : Nat) :
    repairAt bp i i = if bp i ≤ bp (i - 1) then (bp (i - 1) + 1) % U32 else bp i := by
  unfold repairAt
  split
  · exact store_same _ _ _
  · rfl

/-- The entries the repair walk leaves: with `L` the last index it visits,
entry `k` in `i..L` is the pre-repair entry when that exceeds the repaired
entry `k-1` and the repaired entry `k-1` plus one otherwise; the other entries
are untouched. -/
theorem repairWalk_values :
    ∀ (fuel i : Nat) (s : State), 1 ≤ i →
      ∃ L, i ≤ L + 1 ∧ L < i + fuel ∧
        (((repairWalk fuel i s).g_uiNumDisplayBars = L ∧ i ≤ L) ∨
          ((repairWalk fuel i s).g_uiNumDisplayBars = s.g_uiNumDisplayBars ∧
            L + 1 = i + fuel)) ∧
        (∀ k, i ≤ k → k ≤ L →
          (repairWalk fuel i s).LEDFreqBreakpoints k =
            if s.LEDFreqBreakpoints k ≤ (repairWalk fuel i s).LEDFreqBreakpoints (k - 1) then
              ((repairWalk fuel i s).LEDFreqBreakpoints (k - 1) + 1) % U32
            else s.LEDFreqBreakpoints k) ∧
        (∀ k, (k < i ∨ L < k) →
          (repairWalk fuel i s).LEDFreqBreakpoints k = s.LEDFreqBreakpoints k) := by
  intro fuel
  induction fuel with
  | zero =>
    intro i s hi
    refine ⟨i - 1, by omega, by omega, Or.inr ⟨rfl, by omega⟩, ?_, ?_⟩
    · intro k h1 h2
      omega
    · intro k _
      rfl
  | succ n ih =>
    intro i s hi
    have hA := repairAt_same s.LEDFreqBreakpoints i
    have hB : repairAt s.LEDFreqBreakpoints i (i - 1) = s.LEDFreqBreakpoints (i - 1) :=
      repairAt_other _ _ _ (by omega)
    rw [repairWalk_succ]
    by_cases hov : overMax s (repairAt s.LEDFreqBreakpoints i i) = true
    · rw [if_pos hov]
      refine ⟨i, by omega, by omega, Or.inl ⟨rfl, le_refl i⟩, ?_, ?_⟩
      · intro k h1 h2
        have hk : k = i := by omega
        subst hk
        show repairAt s.LEDFreqBreakpoints k k =
          if s.LEDFreqBreakpoints k ≤ repairAt s.LEDFreqBreakpoints k (k - 1) then
            (repairAt s.LEDFreqBreakpoints k (k - 1) + 1) % U32
          else s.LEDFreqBreakpoints k
        rw [hB, hA]
      · intro k hk
        show repairAt s.LEDFreqBreakpoints i k = s.LEDFreqBreakpoints k
        exact repairAt_other _ _ _ (by omega)
    · rw [if_neg hov]
      obtain ⟨L, h1, h2, h3, h4, h5⟩ :=
        ih (i + 1) { s with LEDFreqBreakpoints := repairAt s.LEDFreqBreakpoints i } (by omega)
      have hbars : ({ s with LEDFreqBreakpoints := repairAt s.LEDFreqBreakpoints i } :
          State).g_uiNumDisplayBars = s.g_uiNumDisplayBars := rfl
      have hbp : ({ s with LEDFreqBreakpoints := repairAt s.LEDFreqBreakpoints i } :
          State).LEDFreqBreakpoints = repairAt s.LEDFreqBreakpoints i := rfl
      rw [hbp] at h4 h5
      rw [hbars] at h3
      refine ⟨L, by omega, by omega, ?_, ?_, ?_⟩
      · rcases h3 with ⟨a, b⟩ | ⟨a, b⟩
        · exact Or.inl ⟨a, by omega⟩
        · exact Or.inr ⟨a, by omega⟩
      · intro k hk1 hk2
        by_cases hki : k = i
        · subst hki
          rw [h5 k (Or.inl (by omega)), h5 (k - 1) (Or.inl (by omega)), hB, hA]
        · rw [h4 k (by omega) hk2, repairAt_other _ _ _ hki]
      · intro k hk
        rw [h5 k (by omega)]
        exact repairAt_other _ _ _ (by omega)

/-- C24: when every pre-repair entry `0..K` is below `NUM_SAMPLES/2` (and `K`
fits the array), the repair walk leaves entry 0, leaves entry `k` unchanged
when it exceeds the repaired entry `k-1` and sets it to that entry plus one
otherwise, for every `k` up to the effective band count; on return the
entries up to the effective band count are strictly increasing and every band
owns at least one bin. -/
theorem C24_repair_walk_strictly_increasing (s : State)
    (hK : s.g_uiNumDisplayBars ≤ MAX_NUMBARS)
    (hlt : ∀ k, k ≤ s.g_uiNumDisplayBars → s.LEDFreqBreakpoints k < NUM_SAMPLES / 2) :
    (repairWalk s.g_uiNumDisplayBars 1 s).g_uiNumDisplayBars ≤ s.g_uiNumDisplayBars ∧
    (repairWalk s.g_uiNumDisplayBars 1 s).LEDFreqBreakpoints 0 = s.LEDFreqBreakpoints 0 ∧
    (∀ k, 1 ≤ k → k ≤ (repairWalk s.g_uiNumDisplayBars 1 s).g_uiNumDisplayBars →
      (repairWalk s.g_uiNumDisplayBars 1 s).LEDFreqBreakpoints k =
        if (repairWalk s.g_uiNumDisplayBars 1 s).LEDFreqBreakpoints (k - 1) <
            s.LEDFreqBreakpoints k then s.LEDFreqBreakpoints k
        else (repairWalk s.g_uiNumDisplayBars 1 s).LEDFreqBreakpoints (k - 1) + 1) ∧
    StrictBreakpoints (repairWalk s.g_uiNumDisplayBars 1 s).LEDFreqBreakpoints
      (repairWalk s.g_uiNumDisplayBars 1 s).g_uiNumDisplayBars ∧
    (∀ k, k < (repairWalk s.g_uiNumDisplayBars 1 s).g_uiNumDisplayBars →
      ∃ n, inBand (repairWalk s.g_uiNumDisplayBars 1 s).LEDFreqBreakpoints k n) := by
  obtain ⟨L, h1, h2, h3, h4, h5⟩ := repairWalk_values s.g_uiNumDisplayBars 1 s (le_refl 1)
  have hL : (repairWalk s.g_uiNumDisplayBars 1 s).g_uiNumDisplayBars = L := by
    rcases h3 with ⟨a, _⟩ | ⟨a, b⟩
    · exact a
    · rw [a]; omega
  rw [hL]
  have hLK : L ≤ s.g_uiNumDisplayBars := by omega
  unfold MAX_NUMBARS at hK
  have h0 : (repairWalk s.g_uiNumDisplayBars 1 s).LEDFreqBreakpoints 0 =
      s.LEDFreqBreakpoints 0 := h5 0 (Or.inl (by omega))
  have hbound : ∀ k, k ≤ L →
      (repairWalk s.g_uiNumDisplayBars 1 s).LEDFreqBreakpoints k < NUM_SAMPLES / 2 + k := by
    intro k
    induction k with
    | zero =>
      intro _
      rw [h0]
      exact hlt 0 (by omega)
    | succ m ih =>
      intro hm
      have hb := ih (by omega)
      have hs := hlt (m + 1) (by omega)
      rw [h4 (m + 1) (by omega) hm]
      have e : m + 1 - 1 = m := by omega
      rw [e]
      unfold NUM_SAMPLES U32 at *
      split_ifs <;> omega
  have hval : ∀ k, 1 ≤ k → k ≤ L →
      (repairWalk s.g_uiNumDisplayBars 1 s).LEDFreqBreakpoints k =
        if (repairWalk s.g_uiNumDisplayBars 1 s).LEDFreqBreakpoints (k - 1) <
            s.LEDFreqBreakpoints k then s.LEDFreqBreakpoints k
        else (repairWalk s.g_uiNumDisplayBars 1 s).LEDFreqBreakpoints (k - 1) + 1 := by
    intro k hk1 hk2
    have hb := hbound (k - 1) (by omega)
    rw [h4 k hk1 hk2]
    unfold NUM_SAMPLES at hb
    unfold U32
    split_ifs <;> omega
  have hstrict : StrictBreakpoints (repairWalk s.g_uiNumDisplayBars 1 s).LEDFreqBreakpoints L := by
    constructor
    · intro k hk
      have hv := hval (k + 1) (by omega) (by omega)
      have e : k + 1 - 1 = k := by omega
      rw [e] at hv
      rw [hv]
      split_ifs <;> omega
    · have hb := hbound L (le_refl L)
      unfold NUM_SAMPLES at hb ⊢
      omega
  refine ⟨hLK, h0, hval, hstrict, ?_⟩
  intro k hk
  refine ⟨(repairWalk s.g_uiNumDisplayBars 1 s).LEDFreqBreakpoints (k + 1), ?_⟩
  rw [inBand_iff _ L k _ hstrict hk]
  have hlt2 := hstrict.1 k hk
  by_cases hk0 : k = 0
  · subst hk0
    exact Or.inl ⟨rfl, le_of_lt hlt2, le_refl _⟩
  · exact Or.inr ⟨by omega, hlt2, le_refl _⟩

/-- Witness for C24: the pre-repair entries 5, 5, 3 of two bands become
5, 6, 7. -/
theorem C24_repair_walk_strictly_increasing_witness :
    (tiedState.g_uiNumDisplayBars ≤ MAX_NUMBARS ∧
      ∀ k, k ≤ tiedState.g_uiNumDisplayBars → tiedState.LEDFreqBreakpoints k < NUM_SAMPLES / 2) ∧
    StrictBreakpoints (repairWalk tiedState.g_uiNumDisplayBars 1 tiedState).LEDFreqBreakpoints
      (repairWalk tiedState.g_uiNumDisplayBars 1 tiedState).g_uiNumDisplayBars ∧
    (repairWalk tiedState.g_uiNumDisplayBars 1 tiedState).LEDFreqBreakpoints 1 = 6 ∧
    (repairWalk tiedState.g_uiNumDisplayBars 1 tiedState).LEDFreqBreakpoints 2 = 7 :=
  ⟨⟨by decide, by decide⟩,
    (C24_repair_walk_strictly_increasing tiedState (by decide) (by decide)).2.2.2.1,
    by decide, by decide⟩

/-! ## Band power and running maximum in one cycle -/

/-- Under strictly increasing breakpoints the block handed to `arm_mean_f32`
for band `k` starts at `bp[0]` for the first band and at `bp[k] + 1` for the
others, and ends at `bp[k+1]`. -/
theorem bandPower_eq_mean (sp : Nat → ℚ) (bp : Nat → Nat) (K k : Nat)
    (h : StrictBreakpoints bp K) (hk : k < K) :
    bandPower sp bp k =
      some (meanOfBins sp (if k = 0 then bp 0 else bp k + 1) (bp (k + 1))) := by
  have h1 := h.1 k hk
  have h2 := strictBreakpoints_le2 bp K h (k + 1) K (by omega) (le_refl K)
  have h3 := h.2
  unfold NUM_SAMPLES at h3
  have e1 : (0 : Nat) + 1 = 1 := rfl
  unfold bandPower arm_mean_f32 fdiv meanOfBins
  by_cases hk0 : k = 0
  · subst hk0
    rw [e1] at h1 h2
    have hlow : lowBin bp 0 = bp 0 := rfl
    have hsize : blockSize (bp 1) (bp 0) = bp 1 + 1 - bp 0 := by
      unfold blockSize U32
      omega
    have hne : ((bp 1 + 1 - bp 0 : Nat) : ℚ) ≠ 0 := by
      have : bp 1 + 1 - bp 0 ≠ 0 := by omega
      exact_mod_cast this
    rw [e1, hlow, hsize, if_pos rfl, if_neg hne]
  · have hlow : lowBin bp k = bp k + 1 := by
      unfold lowBin U32
      rw [if_neg hk0]
      omega
    have hsize : blockSize (bp (k + 1)) (bp k + 1) = bp (k + 1) + 1 - (bp k + 1) := by
      unfold blockSize U32
      omega
    have hne : ((bp (k + 1) + 1 - (bp k + 1) : Nat) : ℚ) ≠ 0 := by
      have : bp (k + 1) + 1 - (bp k + 1) ≠ 0 := by omega
      exact_mod_cast this
    rw [hlow, hsize, if_neg hk0, if_neg hne]

theorem bandPower_edge_twoBand :
    bandPower edgeSpectrum twoBandState.LEDFreqBreakpoints 1 = some 0 := by
  simp [bandPower, arm_mean_f32, fdiv, lowBin, blockSize, twoBandState, edgeSpectrum, U32,
    List.range_succ]

theorem meanOfBins_edge : meanOfBins edgeSpectrum 3 7 = 1 := by
  simp [meanOfBins, edgeSpectrum, List.range_succ]

/-- C25 (as stated, refuted): with breakpoints 1, 3, 7 and a spectrum that is
5 in bin 3 and 0 elsewhere, the power `ProcessData` computes for the second
band is 0, the mean over bins 4..7, while the mean over bins 3..7 is 1. -/
theorem C25_second_band_skips_breakpoint :
    twoBandState.LEDFreqBreakpoints 1 = 3 ∧ twoBandState.LEDFreqBreakpoints 2 = 7 ∧
    (ProcessData edgeSpectrum twoBandState).LEDPower 1 = some 0 ∧
    meanOfBins edgeSpectrum (twoBandState.LEDFreqBreakpoints 1)
      (twoBandState.LEDFreqBreakpoints 2) = 1 ∧
    (ProcessData edgeSpectrum twoBandState).LEDPower 1 ≠
      some (meanOfBins edgeSpectrum (twoBandState.LEDFreqBreakpoints 1)
        (twoBandState.LEDFreqBreakpoints 2)) := by
  have hp : (ProcessData edgeSpectrum twoBandState).LEDPower 1 = some 0 := by
    rw [(ProcessData_band edgeSpectrum twoBandState 1 (by decide)).1]
    exact bandPower_edge_twoBand
  have hm : meanOfBins edgeSpectrum (twoBandState.LEDFreqBreakpoints 1)
      (twoBandState.LEDFreqBreakpoints 2) = 1 := meanOfBins_edge
  refine ⟨by decide, by decide, hp, hm, ?_⟩
  rw [hp, hm]
  intro h
  have := Option.some.inj h
  norm_num at this

/-- C25 (amended): for strictly increasing breakpoints, the power `ProcessData`
computes for the first band is the arithmetic mean of the spectrum over the
bins `bp[0]` through `bp[1]`, both ends included, and for every further band
`k` (counted from 0) the mean over the bins `bp[k] + 1` through `bp[k+1]`. -/
theorem C25_band_power_is_mean (sp : Nat → ℚ) (s : State) (k : Nat)
    (hk : k < s.g_uiNumDisplayBars)
    (h : StrictBreakpoints s.LEDFreqBreakpoints s.g_uiNumDisplayBars) :
    (ProcessData sp s).LEDPower k =
      some (meanOfBins sp
        (if k = 0 then s.LEDFreqBreakpoints 0 else s.LEDFreqBreakpoints k + 1)
        (s.LEDFreqBreakpoints (k + 1))) := by
  rw [(ProcessData_band sp s k hk).1]
  exact bandPower_eq_mean sp s.LEDFreqBreakpoints s.g_uiNumDisplayBars k h hk

/-- Witness for C25: the second of the two bands 1..3 and 4..7. -/
theorem C25_band_power_is_mean_witness :
    (1 < twoBandState.g_uiNumDisplayBars ∧
      StrictBreakpoints twoBandState.LEDFreqBreakpoints twoBandState.g_uiNumDisplayBars) ∧
    (ProcessData edgeSpectrum twoBandState).LEDPower 1 =
      some (meanOfBins edgeSpectrum
        (if 1 = 0 then twoBandState.LEDFreqBreakpoints 0
          else twoBandState.LEDFreqBreakpoints 1 + 1)
        (twoBandState.LEDFreqBreakpoints (1 + 1))) :=
  ⟨⟨by decide, strictBreakpoints_twoBand⟩,
    C25_band_power_is_mean edgeSpectrum twoBandState 1 (by decide) strictBreakpoints_twoBand⟩

/-- C26: in one `ProcessData` cycle the running maximum of band `k` becomes
the band power when the power exceeds it and is otherwise left as it was, so
it equals the larger of the two and does not decrease; when the power is not a
number the maximum is left as it was. -/
theorem C26_running_max_is_max (sp : Nat → ℚ) (s : State) (k : Nat)
    (hk : k < s.g_uiNumDisplayBars) :
    (∀ p, (ProcessData sp s).LEDPower k = some p →
      (s.maxLEDPowers (k : Int) < p → (ProcessData sp s).maxLEDPowers (k : Int) = p) ∧
      (¬ s.maxLEDPowers (k : Int) < p →
        (ProcessData sp s).maxLEDPowers (k : Int) = s.maxLEDPowers (k : Int)) ∧
      (ProcessData sp s).maxLEDPowers (k : Int) = max (s.maxLEDPowers (k : Int)) p) ∧
    ((ProcessData sp s).LEDPower k = none →
      (ProcessData sp s).maxLEDPowers (k : Int) = s.maxLEDPowers (k : Int)) ∧
    s.maxLEDPowers (k : Int) ≤ (ProcessData sp s).maxLEDPowers (k : Int) := by
  obtain ⟨h1, h2, _⟩ := ProcessData_band sp s k hk
  rw [h1, h2]
  cases hp : bandPower sp s.LEDFreqBreakpoints k with
  | none =>
    refine ⟨?_, fun _ => rfl, le_refl _⟩
    intro p h
    cases h
  | some q =>
    refine ⟨?_, ?_, ?_⟩
    · intro p h
      have e : q = p := Option.some.inj h
      subst e
      have er : runningMax (s.maxLEDPowers (k : Int)) (some q) =
          if s.maxLEDPowers (k : Int) < q then q else s.maxLEDPowers (k : Int) := rfl
      rw [er]
      by_cases hlt : s.maxLEDPowers (k : Int) < q
      · rw [if_pos hlt]
        exact ⟨fun _ => rfl, fun hn => absurd hlt hn, (max_eq_right (le_of_lt hlt)).symm⟩
      · rw [if_neg hlt]
        exact ⟨fun hn => absurd hn hlt, fun _ => rfl, (max_eq_left (not_lt.mp hlt)).symm⟩
    · intro h
      cases h
    · have er : runningMax (s.maxLEDPowers (k : Int)) (some q) =
          if s.maxLEDPowers (k : Int) < q then q else s.maxLEDPowers (k : Int) := rfl
      rw [er]
      by_cases hlt : s.maxLEDPowers (k : Int) < q
      · rw [if_pos hlt]
        exact le_of_lt hlt
      · rw [if_neg hlt]

/-- Witness for C26: the first of two bands on a flat spectrum of magnitude 1,
from a running maximum of 0. -/
theorem C26_running_max_is_max_witness :
    0 < twoBandState.g_uiNumDisplayBars ∧
    twoBandState.maxLEDPowers ((0 : Nat) : Int) ≤
      (ProcessData flatSpectrum twoBandState).maxLEDPowers ((0 : Nat) : Int) :=
  ⟨by decide, (C26_running_max_is_max flatSpectrum twoBandState 0 (by decide)).2.2⟩

/-! ## The display stage of the LED matrix variant -/

theorem litCount_bounds (r : ℚ) : 1 ≤ litCount r ∧ litCount r ≤ 8 := by
  unfold litCount NUM_P_LEDS
  rw [Nat.min_def]
  split_ifs <;> omega

/-- The threshold `j / 8` is reached exactly by the first `litCount r`
indices. -/
theorem threshold_iff (r : ℚ) (h0 : 0 ≤ r) (j : Nat) (hj : j < 8) :
    r ≥ (j : ℚ) * (1 / 8) ↔ j < litCount r := by
  have hf : (0 : Int) ≤ ⌊8 * r⌋ := Int.floor_nonneg.mpr (by linarith)
  have hfl : ((j : Int) ≤ ⌊8 * r⌋) ↔ ((j : ℚ) ≤ 8 * r) := by
    rw [Int.le_floor]
    norm_cast
  have hc : (j < litCount r) ↔ ((j : Int) ≤ ⌊8 * r⌋) := by
    unfold litCount NUM_P_LEDS
    rw [Nat.min_def]
    split_ifs <;> omega
  rw [hc, hfl]
  constructor
  · intro h
    linarith
  · intro h
    show (j : ℚ) * (1 / 8) ≤ r
    linarith

theorem ledLoop_run (r : ℚ) (h0 : 0 ≤ r) :
    ∀ (fuel j : Nat), j + fuel = 8 → j ≤ litCount r →
      ledLoop r fuel j (2 ^ j - 1) = 2 ^ litCount r - 1 := by
  have hb := litCount_bounds r
  intro fuel
  induction fuel with
  | zero =>
    intro j hj hle
    have e : litCount r = j := by omega
    rw [e]
    rfl
  | succ n ih =>
    intro j hj hle
    have hj7 : j ≤ 7 := by omega
    rw [ledLoop]
    by_cases hc : r ≥ (j : ℚ) * (1 / 8)
    · rw [if_pos hc]
      have hlt := (threshold_iff r h0 j (by omega)).1 hc
      have hd : ((2 ^ j - 1) ||| (1 <<< j)) % 256 = 2 ^ (j + 1) - 1 := by
        interval_cases j <;> rfl
      rw [hd]
      exact ih (j + 1) (by omega) (by omega)
    · rw [if_neg hc]
      have hlt : ¬ j < litCount r := fun h => hc ((threshold_iff r h0 j (by omega)).2 h)
      have e : litCount r = j := by omega
      rw [e]

theorem ledLoop_eq (r : ℚ) (h0 : 0 ≤ r) : ledLoop r NUM_P_LEDS 0 0 = 2 ^ litCount r - 1 :=
  ledLoop_run r h0 8 0 rfl (by omega)

theorem thresholdByte_eq (r : ℚ) (h0 : 0 ≤ r) : thresholdByte r = 2 ^ litCount r - 1 := by
  have hb := litCount_bounds r
  have hmap : (List.range NUM_P_LEDS).map
      (fun (j : Nat) => if r ≥ (j : ℚ) * (1 / 8) then (2 : Nat) ^ j else 0) =
      (List.range NUM_P_LEDS).map (fun (j : Nat) => if j < litCount r then (2 : Nat) ^ j else 0) := by
    apply List.map_congr_left
    intro j hj
    have hj8 : j < 8 := List.mem_range.mp hj
    exact if_congr (threshold_iff r h0 j hj8) rfl rfl
  unfold thresholdByte
  rw [hmap]
  generalize litCount r = m at hb ⊢
  obtain ⟨h1, h2⟩ := hb
  interval_cases m <;> rfl

theorem testBit_run (m j : Nat) (hm : m ≤ 8) (hj : j < 8) :
    ((2 ^ m - 1).testBit j = true ↔ j < m) := by
  interval_cases m <;> interval_cases j <;> decide

theorem columnLoop_apply (P : Nat → Nat) (M : Nat → ℚ) :
    ∀ (fuel i : Nat) (d : Nat → Option Nat) (k : Nat),
      columnLoop P M fuel i d k =
        if i ≤ k ∧ k < i + fuel then ledColumn (P k) (M k) else d k := by
  intro fuel
  induction fuel with
  | zero =>
    intro i d k
    have : ¬ (i ≤ k ∧ k < i + 0) := by omega
    rw [columnLoop, if_neg this]
  | succ n ih =>
    intro i d k
    rw [columnLoop, ih]
    by_cases hk : k = i
    · subst hk
      rw [if_neg (by omega), if_pos (by omega)]
      exact store_same _ _ _
    · by_cases hr : i + 1 ≤ k ∧ k < i + 1 + n
      · rw [if_pos hr, if_pos (by omega)]
      · rw [if_neg hr, if_neg (by omega)]
        exact store_other _ _ _ _ hk

theorem ledRatio_one_two : ledRatio 1 2 = some (1 / 2) := by
  have e : fdiv 1 2 = some (1 / 2) := by norm_num [fdiv]
  unfold ledRatio
  rw [Nat.cast_one, roundQ_one, e]
  simp only [Option.map]
  rw [roundQ_half]

/-- A band power just below three eighths of the running maximum: the `float`
quotient is `0.375`, and the fourth LED is lit. -/
theorem ledColumn_rounds_up :
    ledColumn 12582913 33554436 = some 15 ∧ (12582913 : ℚ) / 33554436 < 3 / 8 := by
  have h1 : roundQ ((12582913 : Nat) : ℚ) = 12582913 := by
    have h : fracVal (roundF32 12582913 1) = ((12582913 : Nat) : ℚ) := by
      have e : roundF32 12582913 1 = (12582913, 1) := by decide
      rw [e]
      norm_num [fracVal]
    simpa using roundQ_natCast 12582913 h
  have h2 : roundQ ((12582913 : ℚ) / 33554436) = 3 / 8 := by
    have h := roundQ_div_coprime 12582913 33554436 (by norm_num) (by norm_num)
    have e : roundF32 12582913 33554436 = (12582912, 33554432) := by decide
    rw [e] at h
    norm_num [fracVal] at h
    norm_num
    exact h
  have e : fdiv 12582913 33554436 = some ((12582913 : ℚ) / 33554436) := by norm_num [fdiv]
  refine ⟨?_, by norm_num⟩
  unfold ledColumn ledRatio
  rw [h1, e]
  simp only [Option.map]
  rw [h2]
  norm_num [ledLoop, NUM_P_LEDS]
  decide

/-- With a zero running maximum the column shows nothing for a zero band
power and is fully lit for a positive one. -/
theorem ledColumn_zero_max (ledPower : Nat) :
    ledColumn ledPower 0 = some (if ledPower = 0 then 0 else 255) := by
  simp [ledColumn, ledRatio, fdiv]

/-- C27: in the display stage of `led_equalizer.c`, for a column whose
quotient `r` of band power and running maximum (the local `power`, a `float`)
is defined and not negative, the byte stored in `LEDDisplay[i]` is the one the inner loop builds; its bit
`j` (`j = 0..7`) is set exactly when `r >= j / 8`; it is `2 ^ m - 1` for some
`m` in `1..8`; and it equals the byte obtained by testing all eight
thresholds, so the early `break` drops no bit. -/
theorem C27_led_byte_is_threshold_run (LEDPower : Nat → Nat) (maxPowers : Nat → ℚ)
    (display : Nat → Option Nat) (i : Nat) (r : ℚ) (hi : i < NUM_F_LEDS)
    (hr : ledRatio (LEDPower i) (maxPowers i) = some r) (h0 : 0 ≤ r) :
    columnLoop LEDPower maxPowers NUM_F_LEDS 0 display i = some (ledLoop r NUM_P_LEDS 0 0) ∧
    (∀ j, j < NUM_P_LEDS →
      ((ledLoop r NUM_P_LEDS 0 0).testBit j = true ↔ r ≥ (j : ℚ) * (1 / 8))) ∧
    (∃ m, 1 ≤ m ∧ m ≤ 8 ∧ ledLoop r NUM_P_LEDS 0 0 = 2 ^ m - 1) ∧
    ledLoop r NUM_P_LEDS 0 0 = thresholdByte r := by
  have hb := litCount_bounds r
  refine ⟨?_, ?_, ?_, ?_⟩
  · rw [columnLoop_apply, if_pos (by omega)]
    unfold ledColumn
    rw [hr]
  · intro j hj
    unfold NUM_P_LEDS at hj
    rw [ledLoop_eq r h0, testBit_run _ j hb.2 hj]
    exact (threshold_iff r h0 j hj).symm
  · exact ⟨litCount r, hb.1, hb.2, ledLoop_eq r h0⟩
  · rw [ledLoop_eq r h0, thresholdByte_eq r h0]

/-- Witness for C27: band power 1 under a running maximum of 2 lights the
five lowest LEDs of column 0. -/
theorem C27_led_byte_is_threshold_run_witness :
    ((0 : Nat) < NUM_F_LEDS ∧
      ledRatio (((fun _ => 1) : Nat → Nat) 0) (((fun _ => 2) : Nat → ℚ) 0) = some (1 / 2) ∧
      (0 : ℚ) ≤ 1 / 2) ∧
    columnLoop (fun _ => 1) (fun _ => 2) NUM_F_LEDS 0 (fun _ => some 0) 0 =
      some (ledLoop (1 / 2) NUM_P_LEDS 0 0) ∧
    ledLoop (1 / 2) NUM_P_LEDS 0 0 = thresholdByte (1 / 2) :=
  ⟨⟨by decide, ledRatio_one_two, by norm_num⟩,
    (C27_led_byte_is_threshold_run (fun _ => 1) (fun _ => 2) (fun _ => some 0) 0 (1 / 2)
      (by decide) ledRatio_one_two (by norm_num)).1,
    (C27_led_byte_is_threshold_run (fun _ => 1) (fun _ => 2) (fun _ => some 0) 0 (1 / 2)
      (by decide) ledRatio_one_two (by norm_num)).2.2.2⟩

/-! ## Accesses of the decay tick -/

/-- C28 (code defect): for every band count `K >= 1` the first access of the
loop of `Timer3AIntHandler` is to `maxLEDPowers[-1]`, outside `[0, K)`: the
loop with checked accesses stops there, and a tick scales the cell below the
array and leaves the running maximum of band `K-1` untouched. -/
theorem C28_tick_writes_below_array (s : State) (hK : 1 ≤ s.g_uiNumDisplayBars) :
    decayLoopChecked s.g_uiNumDisplayBars s.g_uiNumDisplayBars 0 s.maxLEDPowers = none ∧
    (Timer3AIntHandler s).maxLEDPowers (-1) = s.maxLEDPowers (-1) * POWER_DECAY_FACTOR ∧
    (Timer3AIntHandler s).maxLEDPowers ((s.g_uiNumDisplayBars : Int) - 1) =
      s.maxLEDPowers ((s.g_uiNumDisplayBars : Int) - 1) := by
  refine ⟨?_, ?_, ?_⟩
  · obtain ⟨n, hn⟩ : ∃ n, s.g_uiNumDisplayBars = n + 1 := ⟨s.g_uiNumDisplayBars - 1, by omega⟩
    rw [hn, decayLoopChecked, if_neg (by omega)]
  · rw [Timer3AIntHandler_max, if_pos (by omega)]
  · rw [Timer3AIntHandler_max, if_neg (by omega)]

/-- Witness for C28: eight bands with every cell at 1; one tick leaves 0.999
in the cell below the array. -/
theorem C28_tick_writes_below_array_witness :
    1 ≤ unitMaxState.g_uiNumDisplayBars ∧
    decayLoopChecked unitMaxState.g_uiNumDisplayBars unitMaxState.g_uiNumDisplayBars 0
      unitMaxState.maxLEDPowers = none ∧
    (Timer3AIntHandler unitMaxState).maxLEDPowers (-1) = 999 / 1000 := by
  obtain ⟨h1, h2, _⟩ := C28_tick_writes_below_array unitMaxState (by decide)
  refine ⟨by decide, h1, ?_⟩
  rw [h2]
  simp [unitMaxState, powerOn, POWER_DECAY_FACTOR]

/-! ## Direction of a slider step -/

/-- C29 (code defect): with the bounds 1 and 5000 of the minimum display
frequency and the step -10, `uiIncrementValue` returns 5000 for every current
value from 1 to 9: `uiVal + iIncAmount` wraps in `unsigned int`, exceeds
`uiMax`, and the function returns `uiMax`, which is greater than `uiVal`. -/
theorem C29_decrement_returns_maximum :
    (∀ uiVal, uiVal < 10 → 1 ≤ uiVal →
      MIN_DISPLAY_L_FREQ ≤ uiVal ∧ uiVal ≤ MAX_DISPLAY_L_FREQ ∧
      uiIncrementValue uiVal (-INTERVAL_DISPLAY_L_FREQ) MAX_DISPLAY_L_FREQ
        MIN_DISPLAY_L_FREQ = 5000) ∧
    toU32 ((1 : Int) + -INTERVAL_DISPLAY_L_FREQ) = 4294967287 ∧
    ¬ uiIncrementValue 1 (-INTERVAL_DISPLAY_L_FREQ) MAX_DISPLAY_L_FREQ MIN_DISPLAY_L_FREQ ≤ 1 := by
  decide

/-! ## Streaming mode: ping and pong -/

theorem InitADC3Transfer_streaming (s0 : State) (h : s0.g_ucDMAMethod = DMA_METHOD_SLOW) :
    Streaming (InitADC3Transfer s0) ∧ (InitADC3Transfer s0).g_ucDMApingpong = 0 ∧
    (InitADC3Transfer s0).dmaDst = DmaBuf.ping := by
  unfold InitADC3Transfer
  dsimp only
  rw [if_pos h]
  unfold Streaming armTransfer
  dsimp only
  rw [if_pos rfl]
  exact ⟨⟨h, rfl, rfl, rfl⟩, rfl, rfl⟩

theorem ProcessData_slow (sp : Nat → ℚ) (s : State) (h : s.g_ucDMAMethod = DMA_METHOD_SLOW) :
    ProcessData sp s =
      bandLoop sp s.g_uiNumDisplayBars 1 (s.LEDFreqBreakpoints 0) { s with g_ucDataReady := 0 } := by
  have hm : ¬ (bandLoop sp s.g_uiNumDisplayBars 1 (s.LEDFreqBreakpoints 0)
      { s with g_ucDataReady := 0 }).g_ucDMAMethod = DMA_METHOD_FAST := by
    rw [(bandLoop_fields sp _ _ _ _).2.2]
    show ¬ s.g_ucDMAMethod = DMA_METHOD_FAST
    rw [h]
    decide
  unfold ProcessData
  rw [if_pos h]
  dsimp only
  rw [if_neg hm]

theorem streamStep_streaming (s : State) (e : StreamEvent) (hs : Streaming s) :
    Streaming (streamStep s e) := by
  cases e with
  | delivery block => exact (deliver_streaming s block hs).1
  | consume spectrum =>
    show Streaming (ProcessData spectrum s)
    rw [ProcessData_slow spectrum s hs.1]
    obtain ⟨hm, ho, hl, hd⟩ := hs
    obtain ⟨_, _, _, a4, _, _, _, _, _, a10, a11, a12⟩ :=
      bandLoop_capture spectrum s.g_uiNumDisplayBars 1 (s.LEDFreqBreakpoints 0)
        { s with g_ucDataReady := 0 }
    have a0 := (bandLoop_fields spectrum s.g_uiNumDisplayBars 1 (s.LEDFreqBreakpoints 0)
        { s with g_ucDataReady := 0 }).2.2
    unfold Streaming
    rw [a0, a4, a10, a11, a12]
    exact ⟨hm, ho, hl, hd⟩
  | displayTick => exact hs

theorem streamRun_streaming :
    ∀ (evs : List StreamEvent) (s : State), Streaming s → Streaming (streamRun s evs) := by
  intro evs
  induction evs with
  | nil => intro s hs; exact hs
  | cons e es ih =>
    intro s hs
    exact ih (streamStep s e) (streamStep_streaming s e hs)

/-- One delivery in a streaming state: the transfer armed next goes to the
buffer the completed one did not use, and the completed one has filled the
armed buffer with the block. -/
theorem deliver_streaming_target (s : State) (b : Nat → Nat) (hs : Streaming s) :
    (s.dmaDst = DmaBuf.ping ∨ s.dmaDst = DmaBuf.pong) ∧
    (deliver s b).dmaDst = (if s.dmaDst = DmaBuf.ping then DmaBuf.pong else DmaBuf.ping) ∧
    ∀ k, k < DMA_SIZE → bufferOf (dmaComplete b s) s.dmaDst k = b k := by
  obtain ⟨hm, ho, hl, hd⟩ := hs
  by_cases hp : s.g_ucDMApingpong = 0
  · rw [if_pos hp] at hd
    refine ⟨Or.inl hd, ?_, ?_⟩
    · simp [deliver, dmaComplete, ADC3IntHandler, armTransfer, hm, hd, hp, DMA_METHOD_SLOW]
    · intro k hk
      simp [bufferOf, dmaComplete, dmaWrite, hd, ho, hl, hk]
  · rw [if_neg hp] at hd
    refine ⟨Or.inr hd, ?_, ?_⟩
    · simp [deliver, dmaComplete, ADC3IntHandler, armTransfer, hm, hd, hp, DMA_METHOD_SLOW]
    · intro k hk
      simp [bufferOf, dmaComplete, dmaWrite, hd, ho, hl, hk]

/-- C30: in streaming mode, from `InitADC3Transfer` and through any sequence of
deliveries, `ProcessData` calls and display ticks, the armed uDMA target is
ping exactly when `g_ucDMApingpong` is 0 and pong otherwise; at a delivery the
completed transfer has filled the armed buffer with the block, the handler
copies that block to the tail of the window, and the transfer it arms goes to
the other buffer. -/
theorem C30_ping_pong_alternates (s0 : State) (hslow : s0.g_ucDMAMethod = DMA_METHOD_SLOW)
    (evs : List StreamEvent) :
    ((InitADC3Transfer s0).dmaDst = DmaBuf.ping ∧ (InitADC3Transfer s0).g_ucDMApingpong = 0) ∧
    ((streamRun (InitADC3Transfer s0) evs).dmaDst = DmaBuf.ping ↔
      (streamRun (InitADC3Transfer s0) evs).g_ucDMApingpong = 0) ∧
    ((streamRun (InitADC3Transfer s0) evs).dmaDst = DmaBuf.pong ↔
      (streamRun (InitADC3Transfer s0) evs).g_ucDMApingpong ≠ 0) ∧
    (∀ b : Nat → Nat,
      (∀ k, k < DMA_SIZE →
        bufferOf (dmaComplete b (streamRun (InitADC3Transfer s0) evs))
          (streamRun (InitADC3Transfer s0) evs).dmaDst k = b k) ∧
      (∀ k, k < DMA_SIZE →
        (deliver (streamRun (InitADC3Transfer s0) evs) b).g_ulADCValues
          (NUM_SAMPLES - DMA_SIZE + k) = b k) ∧
      (deliver (streamRun (InitADC3Transfer s0) evs) b).dmaDst =
        (if (streamRun (InitADC3Transfer s0) evs).dmaDst = DmaBuf.ping then DmaBuf.pong
          else DmaBuf.ping)) := by
  obtain ⟨hinit, hpp, hdst⟩ := InitADC3Transfer_streaming s0 hslow
  have hs := streamRun_streaming evs (InitADC3Transfer s0) hinit
  have hd := hs.2.2.2
  refine ⟨⟨hdst, hpp⟩, ?_, ?_, ?_⟩
  · by_cases hp : (streamRun (InitADC3Transfer s0) evs).g_ucDMApingpong = 0
    · rw [if_pos hp] at hd
      exact ⟨fun _ => hp, fun _ => hd⟩
    · rw [if_neg hp] at hd
      constructor
      · intro h
        rw [hd] at h
        cases h
      · intro h
        exact absurd h hp
  · by_cases hp : (streamRun (InitADC3Transfer s0) evs).g_ucDMApingpong = 0
    · rw [if_pos hp] at hd
      constructor
      · intro h
        rw [hd] at h
        cases h
      · intro h
        exact absurd hp h
    · rw [if_neg hp] at hd
      exact ⟨fun _ => hp, fun _ => hd⟩
  · intro b
    obtain ⟨_, t2, t3⟩ := deliver_streaming_target _ b hs
    obtain ⟨_, _, a3⟩ := deliver_streaming _ b hs
    refine ⟨t3, ?_, t2⟩
    intro k hk
    rw [a3]
    unfold DMA_SIZE at hk
    unfold NUM_SAMPLES DMA_SIZE
    rw [if_neg (by omega), if_pos (by omega)]
    exact congrArg b (by omega)

/-- Witness for C30: from reset, after one delivery pong is armed and
`g_ucDMApingpong` is 1. -/
theorem C30_ping_pong_alternates_witness :
    powerOn.g_ucDMAMethod = DMA_METHOD_SLOW ∧
    ((streamRun (InitADC3Transfer powerOn) [StreamEvent.delivery (fun _ => 7)]).dmaDst =
        DmaBuf.pong ↔
      (streamRun (InitADC3Transfer powerOn)
        [StreamEvent.delivery (fun _ => 7)]).g_ucDMApingpong ≠ 0) ∧
    (streamRun (InitADC3Transfer powerOn) [StreamEvent.delivery (fun _ => 7)]).dmaDst =
      DmaBuf.pong :=
  ⟨by decide,
    (C30_ping_pong_alternates powerOn (by decide) [StreamEvent.delivery (fun _ => 7)]).2.2.1,
    by decide⟩

end FreqAnalyzer
